import Mathlib

/-!
# text_normalizer

A shallow embedding of `text_normalizer.go`: the five equivalence tables, `charMap.project`,
the option dispatch of `NewTextNormalizer`, and the substitution engine it returns.

Texts are sequences of Unicode code points (`String`, scanned as `List Char`).
Column accesses `cols[i]` and the odd-argument check of `strings.NewReplacer` can fail
at run time in Go; they are modelled with `Option`. `strings.Replacer` belongs to the Go
standard library; `Replacer`, `lookup` and `replaceLoop` follow its generic algorithm.
-/

namespace TextNormalizer

/-- The Go type `TextReplaceOption` is `int`. -/
abbrev TextReplaceOption := Int

-- Options shared by every conversion (`iota + 1` numbering).
def RemoveDakuten : TextReplaceOption := 1
def RemoveNoMapping : TextReplaceOption := 2
-- Conversion options.
def HankakuNumberToZenkaku : TextReplaceOption := 3
def ZenkakuNumberToHankaku : TextReplaceOption := 4
def HankakuKatakanaToZenkaku : TextReplaceOption := 5
def ZenkakuKatakanaToHankaku : TextReplaceOption := 6
def KatakanaToHiragana : TextReplaceOption := 7
def HiraganaToZenkakuKatakana : TextReplaceOption := 8
def HiraganaToHankakuKatakana : TextReplaceOption := 9
def KanaToHiragana : TextReplaceOption := 10
def KanaToZenkakuKatakana : TextReplaceOption := 11
def KanaToHankakuKatakana : TextReplaceOption := 12
def AlphabetToUpperZenkaku : TextReplaceOption := 13
def AlphabetToUpperHankaku : TextReplaceOption := 14
def AlphabetToLowerZenkaku : TextReplaceOption := 15
def AlphabetToLowerHankaku : TextReplaceOption := 16
def AlphabetToZenkaku : TextReplaceOption := 17
def AlphabetToHankaku : TextReplaceOption := 18
def HankakuSignToZenkaku : TextReplaceOption := 19
def ZenkakuSignToHankaku : TextReplaceOption := 20
def HankakuSpaceToZenkaku : TextReplaceOption := 21
def ZenkakuSpaceToHankaku : TextReplaceOption := 22

/-- Linear search of `search` in `flags`, as `hasOption`. -/
def hasOption (flags : List TextReplaceOption) (search : TextReplaceOption) : Bool :=
  match flags with
  | [] => false
  | f :: rest => if f = search then true else hasOption rest search

/-- An equivalence table: rows of column strings (`charMap.data`). -/
structure charMap where
  data : List (List String)

/-- The loop body of `charMap.project`, over the remaining rows, with the `result` slice built
so far. `cols[fromCol]` and `cols[toCol]` are both read before the emptiness test, as in the source;
an index outside the row is a run-time panic (`none`). -/
def projectLoop (fromCol toCol : Nat) (removeUnknown : Bool) :
    List (List String) → List String → Option (List String)
  | [], result => some result
  | cols :: rest, result =>
    match cols[fromCol]?, cols[toCol]? with
    | some v1, some v2 =>
      if v1 = "" then projectLoop fromCol toCol removeUnknown rest result
      else if v2 = "" ∧ removeUnknown = false then
        projectLoop fromCol toCol removeUnknown rest (result ++ [v1, v1])
      else projectLoop fromCol toCol removeUnknown rest (result ++ [v1, v2])
    | _, _ => none

/-- The method `charMap.project`: the flat list `v1, v2, v1, v2, ...` (a nil slice is the empty list). -/
def charMap.project (c : charMap) (fromCol toCol : Nat) (removeUnknown : Bool) : Option (List String) :=
  if c.data.length = 0 then some []
  else projectLoop fromCol toCol removeUnknown c.data []

/-- The method `charMap.projectFuncWithOption`: `project` with the policy fixed. -/
def charMap.projectFuncWithOption (c : charMap) (removeUnknown : Bool) :
    Nat → Nat → Option (List String) :=
  fun fromCol toCol => c.project fromCol toCol removeUnknown

def asciiNumberMap : charMap :=
  ⟨[
    ["0", "０"],
    ["1", "１"],
    ["2", "２"],
    ["3", "３"],
    ["4", "４"],
    ["5", "５"],
    ["6", "６"],
    ["7", "７"],
    ["8", "８"],
    ["9", "９"]
  ]⟩

def kanaMap : charMap :=
  ⟨[
    ["ｶﾞ", "ガ", "が", "ｶ", "カ", "か"],
    ["ｷﾞ", "ギ", "ぎ", "ｷ", "キ", "き"],
    ["ｸﾞ", "グ", "ぐ", "ｸ", "ク", "く"],
    ["ｹﾞ", "ゲ", "げ", "ｹ", "ケ", "け"],
    ["ｺﾞ", "ゴ", "ご", "ｺ", "コ", "こ"],
    ["ｻﾞ", "ザ", "ざ", "ｻ", "サ", "さ"],
    ["ｼﾞ", "ジ", "じ", "ｼ", "シ", "し"],
    ["ｽﾞ", "ズ", "ず", "ｽ", "ス", "す"],
    ["ｾﾞ", "ゼ", "ぜ", "ｾ", "セ", "せ"],
    ["ｿﾞ", "ゾ", "ぞ", "ｿ", "ソ", "そ"],
    ["ﾀﾞ", "ダ", "だ", "ﾀ", "タ", "た"],
    ["ﾁﾞ", "ヂ", "ぢ", "ﾁ", "チ", "ち"],
    ["ﾂﾞ", "ヅ", "づ", "ﾂ", "ツ", "つ"],
    ["ﾃﾞ", "デ", "で", "ﾃ", "テ", "て"],
    ["ﾄﾞ", "ド", "ど", "ﾄ", "ト", "と"],
    ["ﾊﾞ", "バ", "ば", "ﾊ", "ハ", "は"],
    ["ﾋﾞ", "ビ", "び", "ﾋ", "ヒ", "ひ"],
    ["ﾌﾞ", "ブ", "ぶ", "ﾌ", "フ", "ふ"],
    ["ﾍﾞ", "ベ", "べ", "ﾍ", "へ", "へ"],
    ["ﾎﾞ", "ボ", "ぼ", "ﾎ", "ホ", "ほ"],
    ["ﾊﾟ", "パ", "ぱ", "ﾊ", "ハ", "は"],
    ["ﾋﾟ", "ピ", "ぴ", "ﾋ", "ヒ", "ひ"],
    ["ﾌﾟ", "プ", "ぷ", "ﾌ", "フ", "ふ"],
    ["ﾍﾟ", "ペ", "ぺ", "ﾍ", "ヘ", "へ"],
    ["ﾎﾟ", "ポ", "ぽ", "ﾎ", "ホ", "ほ"],
    ["ｳﾞ", "ヴ", "ゔ", "ｳ", "ウ", "う"],
    ["ﾜﾞ", "ヷ", "", "ﾜ", "ワ", "わ"],
    ["ｦﾞ", "ヺ", "", "ｦ", "ヲ", "を"],
    ["ｱ", "ア", "あ", "ｱ", "ア", "あ"],
    ["ｲ", "イ", "い", "ｲ", "イ", "い"],
    ["ｳ", "ウ", "う", "ｳ", "ウ", "う"],
    ["ｴ", "エ", "え", "ｴ", "エ", "え"],
    ["ｵ", "オ", "お", "ｵ", "オ", "お"],
    ["ｶ", "カ", "か", "ｶ", "カ", "か"],
    ["ｷ", "キ", "き", "ｷ", "キ", "き"],
    ["ｸ", "ク", "く", "ｸ", "ク", "く"],
    ["ｹ", "ケ", "け", "ｹ", "ケ", "け"],
    ["ｺ", "コ", "こ", "ｺ", "コ", "こ"],
    ["ｻ", "サ", "さ", "ｻ", "サ", "さ"],
    ["ｼ", "シ", "し", "ｼ", "シ", "し"],
    ["ｽ", "ス", "す", "ｽ", "ス", "す"],
    ["ｾ", "セ", "せ", "ｾ", "セ", "せ"],
    ["ｿ", "ソ", "そ", "ｿ", "ソ", "そ"],
    ["ﾀ", "タ", "た", "ﾀ", "タ", "た"],
    ["ﾁ", "チ", "ち", "ﾁ", "チ", "ち"],
    ["ﾂ", "ツ", "つ", "ﾂ", "ツ", "つ"],
    ["ﾃ", "テ", "て", "ﾃ", "テ", "て"],
    ["ﾄ", "ト", "と", "ﾄ", "ト", "と"],
    ["ﾅ", "ナ", "な", "ﾅ", "ナ", "な"],
    ["ﾆ", "ニ", "に", "ﾆ", "ニ", "に"],
    ["ﾇ", "ヌ", "ぬ", "ﾇ", "ヌ", "ぬ"],
    ["ﾈ", "ネ", "ね", "ﾈ", "ネ", "ね"],
    ["ﾉ", "ノ", "の", "ﾉ", "ノ", "の"],
    ["ﾊ", "ハ", "は", "ﾊ", "ハ", "は"],
    ["ﾋ", "ヒ", "ひ", "ﾋ", "ヒ", "ひ"],
    ["ﾌ", "フ", "ふ", "ﾌ", "フ", "ふ"],
    ["ﾍ", "ヘ", "へ", "ﾍ", "ヘ", "へ"],
    ["ﾎ", "ホ", "ほ", "ﾎ", "ホ", "ほ"],
    ["ﾏ", "マ", "ま", "ﾏ", "マ", "ま"],
    ["ﾐ", "ミ", "み", "ﾐ", "ミ", "み"],
    ["ﾑ", "ム", "む", "ﾑ", "ム", "む"],
    ["ﾒ", "メ", "め", "ﾒ", "メ", "め"],
    ["ﾓ", "モ", "も", "ﾓ", "モ", "も"],
    ["ﾔ", "ヤ", "や", "ﾔ", "ヤ", "や"],
    ["ﾕ", "ユ", "ゆ", "ﾕ", "ユ", "ゆ"],
    ["ﾖ", "ヨ", "よ", "ﾖ", "ヨ", "よ"],
    ["ﾗ", "ラ", "ら", "ﾗ", "ラ", "ら"],
    ["ﾘ", "リ", "り", "ﾘ", "リ", "り"],
    ["ﾙ", "ル", "る", "ﾙ", "ル", "る"],
    ["ﾚ", "レ", "れ", "ﾚ", "レ", "れ"],
    ["ﾛ", "ロ", "ろ", "ﾛ", "ロ", "ろ"],
    ["ﾜ", "ワ", "わ", "ﾜ", "ワ", "わ"],
    ["ｦ", "ヲ", "を", "ｦ", "ヲ", "を"],
    ["ﾝ", "ン", "ん", "ﾝ", "ン", "ん"],
    ["ｧ", "ァ", "ぁ", "ｧ", "ァ", "ぁ"],
    ["ｨ", "ィ", "ぃ", "ｨ", "ィ", "ぃ"],
    ["ｩ", "ゥ", "ぅ", "ｩ", "ゥ", "ぅ"],
    ["ｪ", "ェ", "ぇ", "ｪ", "ェ", "ぇ"],
    ["ｫ", "ォ", "ぉ", "ｫ", "ォ", "ぉ"],
    ["ｯ", "ッ", "っ", "ｯ", "ッ", "っ"],
    ["ｬ", "ャ", "ゃ", "ｬ", "ャ", "ゃ"],
    ["ｭ", "ュ", "ゅ", "ｭ", "ュ", "ゅ"],
    ["ｮ", "ョ", "ょ", "ｮ", "ョ", "ょ"]
  ]⟩

def asciiAlphabetMap : charMap :=
  ⟨[
    ["a", "A", "ａ", "Ａ"],
    ["b", "B", "ｂ", "Ｂ"],
    ["c", "C", "ｃ", "Ｃ"],
    ["d", "D", "ｄ", "Ｄ"],
    ["e", "E", "ｅ", "Ｅ"],
    ["f", "F", "ｆ", "Ｆ"],
    ["g", "G", "ｇ", "Ｇ"],
    ["h", "H", "ｈ", "Ｈ"],
    ["i", "I", "ｉ", "Ｉ"],
    ["j", "J", "ｊ", "Ｊ"],
    ["k", "K", "ｋ", "Ｋ"],
    ["l", "L", "ｌ", "Ｌ"],
    ["m", "M", "ｍ", "Ｍ"],
    ["n", "N", "ｎ", "Ｎ"],
    ["o", "O", "ｏ", "Ｏ"],
    ["p", "P", "ｐ", "Ｐ"],
    ["q", "Q", "ｑ", "Ｑ"],
    ["r", "R", "ｒ", "Ｒ"],
    ["s", "S", "ｓ", "Ｓ"],
    ["t", "T", "ｔ", "Ｔ"],
    ["u", "U", "ｕ", "Ｕ"],
    ["v", "V", "ｖ", "Ｖ"],
    ["w", "W", "ｗ", "Ｗ"],
    ["x", "X", "ｘ", "Ｘ"],
    ["y", "Y", "ｙ", "Ｙ"],
    ["z", "Z", "ｚ", "Ｚ"]
  ]⟩

def spaceMap : charMap :=
  ⟨[
    [" ", "　"]
  ]⟩

def asciiSignMap : charMap :=
  ⟨[
    ["!", "！"],
    ["\"", "”"],
    ["#", "＃"],
    ["$", "＄"],
    ["%", "％"],
    ["&", "＆"],
    ["'", "’"],
    ["'", "‘"],
    ["(", "（"],
    [")", "）"],
    ["*", "＊"],
    ["+", "＋"],
    [",", "，"],
    [",", "、"],
    ["-", "－"],
    ["-", "ー"],
    [".", "．"],
    ["。", "．"],
    ["/", "／"],
    ["/", "・"],
    [":", "："],
    [";", "；"],
    ["<", "＜"],
    ["=", "＝"],
    [">", "＞"],
    ["?", "？"],
    ["@", "＠"],
    ["[", "［"],
    ["\\", "＼"],
    ["\\", "￥"],
    ["]", "］"],
    ["^", "＾"],
    ["_", "＿"],
    ["`", "｀"],
    ["\x7b", "｛"],
    ["|", "｜"],
    ["\x7d", "｝"],
    ["~", "～"],
    ["~", "￣"]
  ]⟩

/-- One iteration of the `switch` of `NewTextNormalizer` for the option `f`: the projections
the case appends to `replacerMapping`, in order. An option that names no case appends nothing. -/
def switchCase (noDakutenSlide : Nat) (removeNoMapping : Bool)
    (replacerMapping : List String) (f : TextReplaceOption) : Option (List String) :=
  let projectAsciiNumber := asciiNumberMap.projectFuncWithOption removeNoMapping
  let projectKana := kanaMap.projectFuncWithOption removeNoMapping
  let projectAsciiAlphabet := asciiAlphabetMap.projectFuncWithOption removeNoMapping
  let projectAsciiSign := asciiSignMap.projectFuncWithOption removeNoMapping
  let projectSpace := spaceMap.projectFuncWithOption removeNoMapping
  if f = HankakuNumberToZenkaku then do
    let replacerMapping := replacerMapping ++ (← projectAsciiNumber 0 1)
    pure replacerMapping
  else if f = ZenkakuNumberToHankaku then do
    let replacerMapping := replacerMapping ++ (← projectAsciiNumber 1 0)
    pure replacerMapping
  else if f = HankakuKatakanaToZenkaku then do
    let replacerMapping := replacerMapping ++ (← projectKana 0 (1 + noDakutenSlide))
    pure replacerMapping
  else if f = ZenkakuKatakanaToHankaku then do
    let replacerMapping := replacerMapping ++ (← projectKana 1 (0 + noDakutenSlide))
    pure replacerMapping
  else if f = KatakanaToHiragana then do
    let replacerMapping := replacerMapping ++ (← projectKana 0 (2 + noDakutenSlide))
    let replacerMapping := replacerMapping ++ (← projectKana 1 (2 + noDakutenSlide))
    pure replacerMapping
  else if f = HiraganaToZenkakuKatakana then do
    let replacerMapping := replacerMapping ++ (← projectKana 2 (1 + noDakutenSlide))
    pure replacerMapping
  else if f = HiraganaToHankakuKatakana then do
    let replacerMapping := replacerMapping ++ (← projectKana 2 (0 + noDakutenSlide))
    pure replacerMapping
  else if f = KanaToHankakuKatakana then do
    let replacerMapping := replacerMapping ++ (← projectKana 0 (0 + noDakutenSlide))
    let replacerMapping := replacerMapping ++ (← projectKana 1 (0 + noDakutenSlide))
    let replacerMapping := replacerMapping ++ (← projectKana 2 (0 + noDakutenSlide))
    pure replacerMapping
  else if f = KanaToZenkakuKatakana then do
    let replacerMapping := replacerMapping ++ (← projectKana 0 (1 + noDakutenSlide))
    let replacerMapping := replacerMapping ++ (← projectKana 1 (1 + noDakutenSlide))
    let replacerMapping := replacerMapping ++ (← projectKana 2 (1 + noDakutenSlide))
    pure replacerMapping
  else if f = KanaToHiragana then do
    let replacerMapping := replacerMapping ++ (← projectKana 0 (2 + noDakutenSlide))
    let replacerMapping := replacerMapping ++ (← projectKana 1 (2 + noDakutenSlide))
    let replacerMapping := replacerMapping ++ (← projectKana 2 (2 + noDakutenSlide))
    pure replacerMapping
  else if f = AlphabetToUpperZenkaku then do
    let replacerMapping := replacerMapping ++ (← projectAsciiAlphabet 0 3)
    let replacerMapping := replacerMapping ++ (← projectAsciiAlphabet 1 3)
    let replacerMapping := replacerMapping ++ (← projectAsciiAlphabet 2 3)
    pure replacerMapping
  else if f = AlphabetToUpperHankaku then do
    let replacerMapping := replacerMapping ++ (← projectAsciiAlphabet 0 1)
    let replacerMapping := replacerMapping ++ (← projectAsciiAlphabet 2 1)
    let replacerMapping := replacerMapping ++ (← projectAsciiAlphabet 3 1)
    pure replacerMapping
  else if f = AlphabetToLowerZenkaku then do
    let replacerMapping := replacerMapping ++ (← projectAsciiAlphabet 0 2)
    let replacerMapping := replacerMapping ++ (← projectAsciiAlphabet 1 2)
    let replacerMapping := replacerMapping ++ (← projectAsciiAlphabet 3 2)
    pure replacerMapping
  else if f = AlphabetToLowerHankaku then do
    let replacerMapping := replacerMapping ++ (← projectAsciiAlphabet 1 0)
    let replacerMapping := replacerMapping ++ (← projectAsciiAlphabet 2 0)
    let replacerMapping := replacerMapping ++ (← projectAsciiAlphabet 3 0)
    pure replacerMapping
  else if f = AlphabetToZenkaku then do
    let replacerMapping := replacerMapping ++ (← projectAsciiAlphabet 0 2)
    let replacerMapping := replacerMapping ++ (← projectAsciiAlphabet 1 3)
    pure replacerMapping
  else if f = AlphabetToHankaku then do
    let replacerMapping := replacerMapping ++ (← projectAsciiAlphabet 2 0)
    let replacerMapping := replacerMapping ++ (← projectAsciiAlphabet 3 1)
    pure replacerMapping
  else if f = HankakuSignToZenkaku then do
    let replacerMapping := replacerMapping ++ (← projectAsciiSign 0 1)
    pure replacerMapping
  else if f = ZenkakuSignToHankaku then do
    let replacerMapping := replacerMapping ++ (← projectAsciiSign 1 0)
    pure replacerMapping
  else if f = HankakuSpaceToZenkaku then do
    let replacerMapping := replacerMapping ++ (← projectSpace 0 1)
    pure replacerMapping
  else if f = ZenkakuSpaceToHankaku then do
    let replacerMapping := replacerMapping ++ (← projectSpace 1 0)
    pure replacerMapping
  else pure replacerMapping

/-- The `for _, f := range flags` loop of `NewTextNormalizer`: the flat argument list
`replacerMapping` later handed to `strings.NewReplacer`. -/
def buildMapping (flags : List TextReplaceOption) : Option (List String) :=
  let noDakutenSlide := if hasOption flags RemoveDakuten then 3 else 0
  let removeNoMapping := if hasOption flags RemoveNoMapping then true else false
  flags.foldlM (switchCase noDakutenSlide removeNoMapping) []

/-- The value of type `*strings.Replacer` (Go standard library, package `strings`): the
(old, new) pairs in argument order. The library documents its behaviour as: replacements are
performed in the order they appear in the target string, without overlapping matches, and the
old string comparisons are done in argument order. -/
structure Replacer where
  oldnew : List (String × String)

/-- Consecutive arguments of `strings.NewReplacer` grouped into (old, new) pairs. -/
def pairUp : List String → List (String × String)
  | old :: val :: rest => (old, val) :: pairUp rest
  | _ => []

/-- Go's `strings.NewReplacer(oldnew...)`; it panics on an odd number of arguments. -/
def NewReplacer (oldnew : List String) : Option Replacer :=
  if oldnew.length % 2 = 1 then none else some ⟨pairUp oldnew⟩

/-- The match the replacer selects at the head of `s` (`genericReplacer.lookup`): of the old
strings that are a prefix of `s`, the one registered first, since an earlier argument has the
higher priority and of equal old strings only the first is kept. With `ignoreRoot` an empty
old string is not a candidate (Go skips the empty match directly after an empty match). -/
def lookup (oldnew : List (String × String)) (s : List Char) (ignoreRoot : Bool) :
    Option (String × String) :=
  oldnew.find? (fun p => p.1.data.isPrefixOf s && !(ignoreRoot && p.1.data.isEmpty))

/-- The scan of `Replacer.Replace` from the current position: on a match the new string is
written and the scan resumes after the old string; otherwise one code point is copied.
`fuel` bounds the number of iterations; `Replacer.Replace` supplies `2 * len + 2`, which the
loop never exhausts (an iteration that consumes nothing is followed by one that does). -/
def replaceLoop (oldnew : List (String × String)) : Nat → Bool → List Char → List Char
  | 0, _, s => s
  | fuel + 1, prevMatchEmpty, s =>
    match lookup oldnew s prevMatchEmpty with
    | some (old, val) =>
      val.data ++ replaceLoop oldnew fuel old.data.isEmpty (s.drop old.data.length)
    | none =>
      match s with
      | [] => []
      | c :: rest => c :: replaceLoop oldnew fuel false rest

/-- Go's `(*strings.Replacer).Replace`, on code points. Go scans the UTF-8 bytes; every old
string the builder produces is a non-empty valid UTF-8 string, so a byte-wise match can only
start at the first byte of a code point and the byte-wise scan agrees with this one. (For an
empty old string, which the builder never produces, Go inserts at byte positions and this
scan at code point positions.) -/
def Replacer.Replace (r : Replacer) (s : String) : String :=
  ⟨replaceLoop r.oldnew (2 * s.data.length + 2) false s.data⟩

/-- The function `NewTextNormalizer`. -/
def NewTextNormalizer (flags : List TextReplaceOption) : Option Replacer := do
  let replacerMapping ← buildMapping flags
  NewReplacer replacerMapping

/-- The composite `NewTextNormalizer(flags...).Replace(text)` used by every test case. -/
def normalize (flags : List TextReplaceOption) (text : String) : Option String :=
  (NewTextNormalizer flags).map (fun r => r.Replace text)

/-- The pair a row contributes to a projection, in the words of the projection rule: none when
the from-column is empty; otherwise source = from-column and target = to-column when that is
non-empty, else the source itself (pass-through) or the empty string (drop). -/
def rowPair (fromCol toCol : Nat) (removeUnknown : Bool) (cols : List String) :
    Option (String × String) :=
  if cols.getD fromCol "" = "" then none
  else if cols.getD toCol "" ≠ "" then some (cols.getD fromCol "", cols.getD toCol "")
  else if removeUnknown then some (cols.getD fromCol "", "")
  else some (cols.getD fromCol "", cols.getD fromCol "")

/-- The pairs of a projection, in row order. -/
def projectPairs (data : List (List String)) (fromCol toCol : Nat) (removeUnknown : Bool) :
    List (String × String) :=
  data.filterMap (rowPair fromCol toCol removeUnknown)

/-- The flat list source1, target1, source2, target2, ... of a list of pairs. -/
def flatten : List (String × String) → List String
  | [] => []
  | p :: rest => p.1 :: p.2 :: flatten rest

/-- The projections one option stands for: table, from-column, to-column, in the order of the
`append` calls of its `case`. -/
def columnPairs (noDakutenSlide : Nat) (f : TextReplaceOption) : List (charMap × Nat × Nat) :=
  if f = HankakuNumberToZenkaku then [(asciiNumberMap, 0, 1)]
  else if f = ZenkakuNumberToHankaku then [(asciiNumberMap, 1, 0)]
  else if f = HankakuKatakanaToZenkaku then [(kanaMap, 0, 1 + noDakutenSlide)]
  else if f = ZenkakuKatakanaToHankaku then [(kanaMap, 1, 0 + noDakutenSlide)]
  else if f = KatakanaToHiragana then
    [(kanaMap, 0, 2 + noDakutenSlide), (kanaMap, 1, 2 + noDakutenSlide)]
  else if f = HiraganaToZenkakuKatakana then [(kanaMap, 2, 1 + noDakutenSlide)]
  else if f = HiraganaToHankakuKatakana then [(kanaMap, 2, 0 + noDakutenSlide)]
  else if f = KanaToHankakuKatakana then
    [(kanaMap, 0, 0 + noDakutenSlide), (kanaMap, 1, 0 + noDakutenSlide),
      (kanaMap, 2, 0 + noDakutenSlide)]
  else if f = KanaToZenkakuKatakana then
    [(kanaMap, 0, 1 + noDakutenSlide), (kanaMap, 1, 1 + noDakutenSlide),
      (kanaMap, 2, 1 + noDakutenSlide)]
  else if f = KanaToHiragana then
    [(kanaMap, 0, 2 + noDakutenSlide), (kanaMap, 1, 2 + noDakutenSlide),
      (kanaMap, 2, 2 + noDakutenSlide)]
  else if f = AlphabetToUpperZenkaku then
    [(asciiAlphabetMap, 0, 3), (asciiAlphabetMap, 1, 3), (asciiAlphabetMap, 2, 3)]
  else if f = AlphabetToUpperHankaku then
    [(asciiAlphabetMap, 0, 1), (asciiAlphabetMap, 2, 1), (asciiAlphabetMap, 3, 1)]
  else if f = AlphabetToLowerZenkaku then
    [(asciiAlphabetMap, 0, 2), (asciiAlphabetMap, 1, 2), (asciiAlphabetMap, 3, 2)]
  else if f = AlphabetToLowerHankaku then
    [(asciiAlphabetMap, 1, 0), (asciiAlphabetMap, 2, 0), (asciiAlphabetMap, 3, 0)]
  else if f = AlphabetToZenkaku then [(asciiAlphabetMap, 0, 2), (asciiAlphabetMap, 1, 3)]
  else if f = AlphabetToHankaku then [(asciiAlphabetMap, 2, 0), (asciiAlphabetMap, 3, 1)]
  else if f = HankakuSignToZenkaku then [(asciiSignMap, 0, 1)]
  else if f = ZenkakuSignToHankaku then [(asciiSignMap, 1, 0)]
  else if f = HankakuSpaceToZenkaku then [(spaceMap, 0, 1)]
  else if f = ZenkakuSpaceToHankaku then [(spaceMap, 1, 0)]
  else []

/-- The pairs one option contributes to the substitution set. -/
def blockPairs (noDakutenSlide : Nat) (removeNoMapping : Bool) (f : TextReplaceOption) :
    List (String × String) :=
  (columnPairs noDakutenSlide f).flatMap
    (fun t => projectPairs t.1.data t.2.1 t.2.2 removeNoMapping)

/-- The substitution set of an option list: the pairs of every option, in list order. -/
def substitutionSet (flags : List TextReplaceOption) : List (String × String) :=
  flags.flatMap (blockPairs (if hasOption flags RemoveDakuten then 3 else 0)
    (if hasOption flags RemoveNoMapping then true else false))

/-- The scan of `Replacer.Replace` on a list of code points, with the fuel `Replace` supplies. -/
def scan (oldnew : List (String × String)) (s : List Char) : List Char :=
  replaceLoop oldnew (2 * s.length + 2) false s

/-- No old string of the set is empty. -/
def NoEmptyOld (oldnew : List (String × String)) : Prop :=
  ∀ p ∈ oldnew, p.1.data ≠ []

/-- The pair the reference engine applies at the head of `s`: of the pairs whose source is a
prefix of `s`, the one with the longest source; among equally long sources the first
registered. -/
def longestMatch (oldnew : List (String × String)) (s : List Char) : Option (String × String) :=
  oldnew.foldl (fun best p =>
    if p.1.data.isPrefixOf s then
      match best with
      | none => some p
      | some q => if q.1.data.length < p.1.data.length then some p else some q
    else best) none

/-- The reference engine: a left-to-right scan applying the longest match at each position and
copying one code point through when nothing matches. -/
def referenceLoop (oldnew : List (String × String)) : Nat → List Char → List Char
  | 0, s => s
  | fuel + 1, s =>
    match longestMatch oldnew s with
    | some (old, val) => val.data ++ referenceLoop oldnew fuel (s.drop old.data.length)
    | none =>
      match s with
      | [] => []
      | c :: rest => c :: referenceLoop oldnew fuel rest

/-- The reference engine on a text; one unit of fuel per code point suffices because every
match consumes at least one. -/
def referenceReplace (oldnew : List (String × String)) (s : String) : String :=
  ⟨referenceLoop oldnew (s.data.length + 1) s.data⟩

/-- The non-empty entries of one column in row order: the sources a projection from that
column registers. -/
def sourceColumn (data : List (List String)) (fromCol : Nat) : List String :=
  (data.map (fun cols => cols.getD fromCol "")).filter (fun v => v ≠ "")

/-- The code points of the halfwidth katakana block, U+FF61 to U+FF9F. -/
def isHankakuKana (c : Char) : Bool :=
  decide (0xFF61 ≤ c.toNat) && decide (c.toNat ≤ 0xFF9F)

/-- The sources of more than one code point: the voiced halfwidth katakana of the kana table. -/
def longSources : List String :=
  (sourceColumn kanaMap.data 0).filter (fun x => decide (2 ≤ x.length))

/-- Every long source that properly extends `x` is among `seen`. A source that does not start
with a halfwidth katakana has no long extension at all. -/
def safeAt (seen : List String) (x : String) : Bool :=
  !(x.data.head?.any isHankakuKana)
    || longSources.all (fun y => decide (x = y ∨ ¬ x.data <+: y.data ∨ y ∈ seen))

/-- In the list of sources, a source comes only after every long source that properly extends
it (`seen` holds the sources already passed). -/
def longerFirst : List String → List String → Bool
  | _, [] => true
  | seen, x :: rest => safeAt seen x && longerFirst (x :: seen) rest

/-- The facts about one source column that make argument order agree with longest match. -/
def columnOK (c : charMap) (fromCol : Nat) : Prop :=
  longerFirst [] (sourceColumn c.data fromCol) = true
    ∧ ∀ x ∈ sourceColumn c.data fromCol, 2 ≤ x.length → x ∈ longSources

/-- A halfwidth kana of two code points: a base character followed by the voiced sound mark
U+FF9E or the semi-voiced sound mark U+FF9F. -/
def isVoicedHankaku (s : String) : Bool :=
  match s.data with
  | [_, m] => m == 'ﾞ' || m == 'ﾟ'
  | _ => false

/-- The target projected for the row `r` itself from column 0: its entry in the target column,
or when that is missing the source `r[0]` (pass-through) or the empty string (drop). -/
def projectedTarget (r : List String) (toCol : Nat) (removeNoMapping : Bool) : String :=
  if r.getD toCol "" ≠ "" then r.getD toCol ""
  else if removeNoMapping then "" else r.getD 0 ""

/-- The modifier options that accompany a directive. -/
def modifierFlags (removeDakuten removeNoMapping : Bool) : List TextReplaceOption :=
  (if removeDakuten then [RemoveDakuten] else [])
    ++ (if removeNoMapping then [RemoveNoMapping] else [])

/-- The directives that read halfwidth katakana, each with its target script column. -/
def hankakuDirectives : List (TextReplaceOption × Nat) :=
  [(HankakuKatakanaToZenkaku, 1), (KatakanaToHiragana, 2), (KanaToHiragana, 2),
    (KanaToZenkakuKatakana, 1), (KanaToHankakuKatakana, 0)]

/-- The one-code-point string of the code point `n`. -/
def codePoint (n : Nat) : String := ⟨[Char.ofNat n]⟩

/-- What a set of pairs makes of the single code point `c`: the target of the first pair whose
source is `c`, or `c` itself when there is none. -/
def charImage (oldnew : List (String × String)) (c : Char) : List Char :=
  match oldnew.find? (fun p => decide (p.1.data = [c])) with
  | some p => p.2.data
  | none => [c]

/-- The pairs `source base + i`, `target base + i` for `i` below `n`. -/
def affinePairs (n fromBase toBase : Nat) : List (String × String) :=
  (List.range n).map (fun i => (codePoint (fromBase + i), codePoint (toBase + i)))

/-- An ASCII digit becomes the fullwidth digit (code point + 0xFEE0); any other code point is
kept. -/
def digitToZenkaku (c : Char) : Char :=
  if 0x30 ≤ c.toNat ∧ c.toNat ≤ 0x39 then Char.ofNat (c.toNat + 0xFEE0) else c

/-- A fullwidth digit becomes the ASCII digit (code point - 0xFEE0); any other code point is
kept. -/
def digitToHankaku (c : Char) : Char :=
  if 0xFF10 ≤ c.toNat ∧ c.toNat ≤ 0xFF19 then Char.ofNat (c.toNat - 0xFEE0) else c

/-- The code point of the letter `a` in each column of the letter table: halfwidth lower,
halfwidth upper, fullwidth lower, fullwidth upper. -/
def letterBase (k : Nat) : Nat := [0x61, 0x41, 0xFF41, 0xFF21].getD k 0

/-- The position in the alphabet (0 for a, 25 for z) of a letter in any of its four forms. -/
def letterIndex (c : Char) : Option Nat :=
  if 0x61 ≤ c.toNat ∧ c.toNat ≤ 0x7A then some (c.toNat - 0x61)
  else if 0x41 ≤ c.toNat ∧ c.toNat ≤ 0x5A then some (c.toNat - 0x41)
  else if 0xFF41 ≤ c.toNat ∧ c.toNat ≤ 0xFF5A then some (c.toNat - 0xFF41)
  else if 0xFF21 ≤ c.toNat ∧ c.toNat ≤ 0xFF3A then some (c.toNat - 0xFF21)
  else none

/-- A letter in any form becomes the column-`k` form of the same letter; any other code point
is kept. -/
def foldLetter (k : Nat) (c : Char) : Char :=
  match letterIndex c with
  | some i => Char.ofNat (letterBase k + i)
  | none => c

/-- A halfwidth lowercase letter becomes the fullwidth lowercase form of the same letter, a
halfwidth uppercase letter the fullwidth uppercase form; any other code point is kept. -/
def letterToZenkaku (c : Char) : Char :=
  if 0x61 ≤ c.toNat ∧ c.toNat ≤ 0x7A then Char.ofNat (0xFF41 + (c.toNat - 0x61))
  else if 0x41 ≤ c.toNat ∧ c.toNat ≤ 0x5A then Char.ofNat (0xFF21 + (c.toNat - 0x41))
  else c

/-- A fullwidth lowercase letter becomes the halfwidth lowercase form of the same letter, a
fullwidth uppercase letter the halfwidth uppercase form; any other code point is kept. -/
def letterToHankaku (c : Char) : Char :=
  if 0xFF41 ≤ c.toNat ∧ c.toNat ≤ 0xFF5A then Char.ofNat (0x61 + (c.toNat - 0xFF41))
  else if 0xFF21 ≤ c.toNat ∧ c.toNat ≤ 0xFF3A then Char.ofNat (0x41 + (c.toNat - 0xFF21))
  else c

/-- The four case-folding directives, each with its target column of the letter table. -/
def foldDirectives : List (TextReplaceOption × Nat) :=
  [(AlphabetToUpperZenkaku, 3), (AlphabetToUpperHankaku, 1), (AlphabetToLowerZenkaku, 2),
    (AlphabetToLowerHankaku, 0)]

/-- The directives whose `case` projects the kana table. -/
def kanaDirectives : List TextReplaceOption :=
  [HankakuKatakanaToZenkaku, ZenkakuKatakanaToHankaku, KatakanaToHiragana,
    HiraganaToZenkakuKatakana, HiraganaToHankakuKatakana, KanaToHiragana,
    KanaToZenkakuKatakana, KanaToHankakuKatakana]

/-- The directives whose `case` projects the letter table. -/
def alphabetDirectives : List TextReplaceOption :=
  [AlphabetToUpperZenkaku, AlphabetToUpperHankaku, AlphabetToLowerZenkaku,
    AlphabetToLowerHankaku, AlphabetToZenkaku, AlphabetToHankaku]

/-- The five tables, numbered in the order digits, kana, letters, signs, spaces. -/
def tableById (t : Nat) : charMap :=
  [asciiNumberMap, kanaMap, asciiAlphabetMap, asciiSignMap, spaceMap].getD t ⟨[]⟩

/-- The number of columns of table `t` that some directive reads sources from: the kana
table has three source columns, its columns 3 to 5 are only targets. -/
def sourceColumns (t : Nat) : Nat := [2, 3, 4, 2, 2].getD t 0

/-- The number of columns of every row of table `t`. -/
def tableWidth (t : Nat) : Nat := [2, 6, 4, 2, 2].getD t 0

/-- The number of the table the `case` of a conversion directive projects; `none` for the
two modifier options and for an integer that names no directive. -/
def tableOf (f : TextReplaceOption) : Option Nat :=
  if f = HankakuNumberToZenkaku ∨ f = ZenkakuNumberToHankaku then some 0
  else if f ∈ kanaDirectives then some 1
  else if f ∈ alphabetDirectives then some 2
  else if f = HankakuSignToZenkaku ∨ f = ZenkakuSignToHankaku then some 3
  else if f = HankakuSpaceToZenkaku ∨ f = ZenkakuSpaceToHankaku then some 4
  else none

/-- An ASCII digit becomes the fullwidth digit of the same value (code point + 0xFEE0) and a
fullwidth digit the ASCII digit (code point - 0xFEE0); any other code point is kept. -/
def digitSwap (c : Char) : Char :=
  if 0x30 ≤ c.toNat ∧ c.toNat ≤ 0x39 then Char.ofNat (c.toNat + 0xFEE0)
  else if 0xFF10 ≤ c.toNat ∧ c.toNat ≤ 0xFF19 then Char.ofNat (c.toNat - 0xFEE0)
  else c

/-- The first code point of every source of the set is itself a source of the set. -/
def HeadClosed (oldnew : List (String × String)) : Prop :=
  ∀ p ∈ oldnew, ∃ q ∈ oldnew, q.1.data = p.1.data.take 1

/-- The script class of a code point, by code point range: 1 ASCII digit, 2 fullwidth digit,
3 ASCII lowercase, 4 ASCII uppercase, 5 fullwidth lowercase, 6 fullwidth uppercase,
7 halfwidth katakana (with the sound marks), 8 fullwidth katakana, 9 hiragana, 10 the ASCII
space, 11 the ideographic space, 12 the remaining printable ASCII and the ideographic full
stop (halfwidth signs), 13 the remaining fullwidth forms and the other sign targets
(fullwidth signs), 0 anything else. -/
def charClass (c : Char) : Nat :=
  let n := c.toNat
  if 0x30 ≤ n ∧ n ≤ 0x39 then 1
  else if 0xFF10 ≤ n ∧ n ≤ 0xFF19 then 2
  else if 0x61 ≤ n ∧ n ≤ 0x7A then 3
  else if 0x41 ≤ n ∧ n ≤ 0x5A then 4
  else if 0xFF41 ≤ n ∧ n ≤ 0xFF5A then 5
  else if 0xFF21 ≤ n ∧ n ≤ 0xFF3A then 6
  else if 0xFF66 ≤ n ∧ n ≤ 0xFF9F then 7
  else if 0x30A1 ≤ n ∧ n ≤ 0x30FA then 8
  else if 0x3041 ≤ n ∧ n ≤ 0x3094 then 9
  else if n = 0x20 then 10
  else if n = 0x3000 then 11
  else if (0x21 ≤ n ∧ n ≤ 0x7E) ∨ n = 0x3002 then 12
  else if (0xFF01 ≤ n ∧ n ≤ 0xFF5E) ∨ n = 0x2018 ∨ n = 0x2019 ∨ n = 0x201D ∨ n = 0x3001
      ∨ n = 0x30FB ∨ n = 0x30FC ∨ n = 0xFFE3 ∨ n = 0xFFE5 then 13
  else 0

/-- The table whose source columns hold the code points of a script class. -/
def classTable (k : Nat) : Nat := [5, 0, 0, 2, 2, 2, 2, 1, 1, 1, 4, 4, 3, 3].getD k 5

/-- The script classes of the code points that occur in the sources of a set. -/
def sourceClasses (oldnew : List (String × String)) : List Nat :=
  (oldnew.flatMap (fun p => p.1.data.map charClass)).dedup

/-- The script classes of the code points that occur in the targets of a set. -/
def targetClasses (oldnew : List (String × String)) : List Nat :=
  (oldnew.flatMap (fun p => p.2.data.map charClass)).dedup

/-- No target of the set contains a code point of a script class that occurs in a source. -/
def inert (oldnew : List (String × String)) : Bool :=
  (targetClasses oldnew).all (fun k => !(sourceClasses oldnew).contains k)

/-- The sources of `second` have no script class in common with the sources or the targets of
`first`, every source of `first` is one code point and no target of `first` is empty. -/
def separate (first second : List (String × String)) : Bool :=
  (sourceClasses second).all
      (fun k => !(sourceClasses first).contains k && !(targetClasses first).contains k)
    && first.all (fun p => decide (p.1.data.length = 1) && !p.2.data.isEmpty)

/-- Every pair of `block` maps its source to itself, and the sources of `block` have no script
class in common with the sources of `others`. -/
def removable (block others : List (String × String)) : Bool :=
  block.all (fun p => decide (p.2 = p.1))
    && (sourceClasses block).all (fun k => !(sourceClasses others).contains k)

/-- The conversion directives that read and write different script classes: all but
`KatakanaToHiragana` (which passes the four kana without hiragana through) and the three
`KanaTo...` directives (which also list the target script as a source). -/
def oneWayDirectives : List TextReplaceOption :=
  [HankakuNumberToZenkaku, ZenkakuNumberToHankaku, HankakuKatakanaToZenkaku,
    ZenkakuKatakanaToHankaku, HiraganaToZenkakuKatakana, HiraganaToHankakuKatakana,
    AlphabetToUpperZenkaku, AlphabetToUpperHankaku, AlphabetToLowerZenkaku,
    AlphabetToLowerHankaku, AlphabetToZenkaku, AlphabetToHankaku, HankakuSignToZenkaku,
    ZenkakuSignToHankaku, HankakuSpaceToZenkaku, ZenkakuSpaceToHankaku]

/-- A hiragana that the kana table lists with a different hiragana as its form without the
sound mark: some row has the code point in column 2 and another string in column 5. -/
def isVoicedHiragana (c : Char) : Bool :=
  kanaMap.data.any (fun row => row.getD 2 "" == String.mk [c] && row.getD 5 "" != row.getD 2 "")

/-- The 26 hiragana with a voiced or semi-voiced sound mark that the kana table lists. -/
def voicedHiragana : String := "がぎぐげござじずぜぞだぢづでどばびぶべぼぱぴぷぺぽゔ"

/-- The pairs of a set that change their source. -/
def changing (oldnew : List (String × String)) : List (String × String) :=
  oldnew.filter (fun p => decide (p.2 ≠ p.1))

/-- The pairs that map their source to itself have no script class in common with the sources
of the pairs that change their source, and neither has any target of the set. -/
def steady (oldnew : List (String × String)) : Bool :=
  (sourceClasses (oldnew.filter (fun p => decide (p.2 = p.1)))).all
      (fun k => !(sourceClasses (changing oldnew)).contains k)
    && (targetClasses oldnew).all (fun k => !(sourceClasses (changing oldnew)).contains k)

/-! ## The projection rule -/

theorem flatten_append (a b : List (String × String)) :
    flatten (a ++ b) = flatten a ++ flatten b := by
  induction a with
  | nil => rfl
  | cons p rest ih => simp [flatten, ih]

theorem projectLoop_eq (fromCol toCol : Nat) (removeUnknown : Bool) (data : List (List String))
    (h : ∀ cols ∈ data, fromCol < cols.length ∧ toCol < cols.length) (result : List String) :
    projectLoop fromCol toCol removeUnknown data result
      = some (result ++ flatten (projectPairs data fromCol toCol removeUnknown)) := by
  induction data generalizing result with
  | nil => simp [projectLoop, projectPairs, flatten]
  | cons cols rest ih =>
    have hc := h cols (List.mem_cons_self _ _)
    have hr : ∀ cols ∈ rest, fromCol < cols.length ∧ toCol < cols.length :=
      fun c hc => h c (List.mem_cons_of_mem _ hc)
    obtain ⟨a, ha, ha2⟩ : ∃ a, cols[fromCol]? = some a ∧ cols.getD fromCol "" = a :=
      ⟨cols[fromCol], List.getElem?_eq_getElem hc.1, by simp [List.getD, List.getElem?_eq_getElem hc.1]⟩
    obtain ⟨b, hb, hb2⟩ : ∃ b, cols[toCol]? = some b ∧ cols.getD toCol "" = b :=
      ⟨cols[toCol], List.getElem?_eq_getElem hc.2, by simp [List.getD, List.getElem?_eq_getElem hc.2]⟩
    have hp : projectPairs (cols :: rest) fromCol toCol removeUnknown
        = (if a = "" then [] else if b ≠ "" then [(a, b)]
            else if removeUnknown then [(a, "")] else [(a, a)])
          ++ projectPairs rest fromCol toCol removeUnknown := by
      simp only [projectPairs, List.filterMap_cons, rowPair, ha2, hb2]
      split_ifs <;> rfl
    unfold projectLoop
    rw [ha, hb, hp]
    simp only [ih hr]
    by_cases h1 : a = ""
    · simp [h1]
    · by_cases h2 : b = ""
      · cases removeUnknown <;> simp [h1, h2, flatten]
      · simp [h1, h2, flatten]

theorem project_eq (c : charMap) (fromCol toCol : Nat) (removeUnknown : Bool)
    (h : ∀ cols ∈ c.data, fromCol < cols.length ∧ toCol < cols.length) :
    c.project fromCol toCol removeUnknown
      = some (flatten (projectPairs c.data fromCol toCol removeUnknown)) := by
  unfold charMap.project
  split
  · next h0 =>
    have : c.data = [] := List.length_eq_zero.mp h0
    simp [this, projectPairs, flatten]
  · simpa using projectLoop_eq fromCol toCol removeUnknown c.data h []

/-! ## The option dispatch -/

theorem asciiNumberMap_width : ∀ cols ∈ asciiNumberMap.data, cols.length = 2 := by decide

theorem kanaMap_width : ∀ cols ∈ kanaMap.data, cols.length = 6 := by decide

theorem asciiAlphabetMap_width : ∀ cols ∈ asciiAlphabetMap.data, cols.length = 4 := by decide

theorem asciiSignMap_width : ∀ cols ∈ asciiSignMap.data, cols.length = 2 := by decide

theorem spaceMap_width : ∀ cols ∈ spaceMap.data, cols.length = 1 + 1 := by decide

theorem project_of_width (c : charMap) (w : Nat) (hw : ∀ cols ∈ c.data, cols.length = w)
    (fromCol toCol : Nat) (hf : fromCol < w) (ht : toCol < w) (removeUnknown : Bool) :
    c.project fromCol toCol removeUnknown
      = some (flatten (projectPairs c.data fromCol toCol removeUnknown)) :=
  project_eq c fromCol toCol removeUnknown
    (fun cols hc => by rw [hw cols hc]; exact ⟨hf, ht⟩)

theorem switchCase_eq (slide : Nat) (hs : slide = 0 ∨ slide = 3) (rm : Bool)
    (acc : List String) (f : TextReplaceOption) :
    switchCase slide rm acc f = some (acc ++ flatten (blockPairs slide rm f)) := by
  have num := fun a b ha hb => project_of_width asciiNumberMap 2 asciiNumberMap_width a b ha hb rm
  have kana := fun a b ha hb => project_of_width kanaMap 6 kanaMap_width a b ha hb rm
  have alpha := fun a b ha hb =>
    project_of_width asciiAlphabetMap 4 asciiAlphabetMap_width a b ha hb rm
  have sign := fun a b ha hb => project_of_width asciiSignMap 2 asciiSignMap_width a b ha hb rm
  have space := fun a b ha hb => project_of_width spaceMap 2 spaceMap_width a b ha hb rm
  unfold switchCase blockPairs columnPairs
  simp only [charMap.projectFuncWithOption]
  by_cases h : f = HankakuNumberToZenkaku
  · rw [if_pos h, if_pos h]
    rcases hs with rfl | rfl <;>
      simp only [num, kana, alpha, sign, space, flatten_append, Option.pure_def,
        Option.bind_eq_bind, Option.some_bind, List.flatMap_cons, List.flatMap_nil,
        List.append_nil, List.append_assoc, Nat.reduceAdd, Nat.reduceLT]
  rw [if_neg h, if_neg h]; clear h
  by_cases h : f = ZenkakuNumberToHankaku
  · rw [if_pos h, if_pos h]
    rcases hs with rfl | rfl <;>
      simp only [num, kana, alpha, sign, space, flatten_append, Option.pure_def,
        Option.bind_eq_bind, Option.some_bind, List.flatMap_cons, List.flatMap_nil,
        List.append_nil, List.append_assoc, Nat.reduceAdd, Nat.reduceLT]
  rw [if_neg h, if_neg h]; clear h
  by_cases h : f = HankakuKatakanaToZenkaku
  · rw [if_pos h, if_pos h]
    rcases hs with rfl | rfl <;>
      simp only [num, kana, alpha, sign, space, flatten_append, Option.pure_def,
        Option.bind_eq_bind, Option.some_bind, List.flatMap_cons, List.flatMap_nil,
        List.append_nil, List.append_assoc, Nat.reduceAdd, Nat.reduceLT]
  rw [if_neg h, if_neg h]; clear h
  by_cases h : f = ZenkakuKatakanaToHankaku
  · rw [if_pos h, if_pos h]
    rcases hs with rfl | rfl <;>
      simp only [num, kana, alpha, sign, space, flatten_append, Option.pure_def,
        Option.bind_eq_bind, Option.some_bind, List.flatMap_cons, List.flatMap_nil,
        List.append_nil, List.append_assoc, Nat.reduceAdd, Nat.reduceLT]
  rw [if_neg h, if_neg h]; clear h
  by_cases h : f = KatakanaToHiragana
  · rw [if_pos h, if_pos h]
    rcases hs with rfl | rfl <;>
      simp only [num, kana, alpha, sign, space, flatten_append, Option.pure_def,
        Option.bind_eq_bind, Option.some_bind, List.flatMap_cons, List.flatMap_nil,
        List.append_nil, List.append_assoc, Nat.reduceAdd, Nat.reduceLT]
  rw [if_neg h, if_neg h]; clear h
  by_cases h : f = HiraganaToZenkakuKatakana
  · rw [if_pos h, if_pos h]
    rcases hs with rfl | rfl <;>
      simp only [num, kana, alpha, sign, space, flatten_append, Option.pure_def,
        Option.bind_eq_bind, Option.some_bind, List.flatMap_cons, List.flatMap_nil,
        List.append_nil, List.append_assoc, Nat.reduceAdd, Nat.reduceLT]
  rw [if_neg h, if_neg h]; clear h
  by_cases h : f = HiraganaToHankakuKatakana
  · rw [if_pos h, if_pos h]
    rcases hs with rfl | rfl <;>
      simp only [num, kana, alpha, sign, space, flatten_append, Option.pure_def,
        Option.bind_eq_bind, Option.some_bind, List.flatMap_cons, List.flatMap_nil,
        List.append_nil, List.append_assoc, Nat.reduceAdd, Nat.reduceLT]
  rw [if_neg h, if_neg h]; clear h
  by_cases h : f = KanaToHankakuKatakana
  · rw [if_pos h, if_pos h]
    rcases hs with rfl | rfl <;>
      simp only [num, kana, alpha, sign, space, flatten_append, Option.pure_def,
        Option.bind_eq_bind, Option.some_bind, List.flatMap_cons, List.flatMap_nil,
        List.append_nil, List.append_assoc, Nat.reduceAdd, Nat.reduceLT]
  rw [if_neg h, if_neg h]; clear h
  by_cases h : f = KanaToZenkakuKatakana
  · rw [if_pos h, if_pos h]
    rcases hs with rfl | rfl <;>
      simp only [num, kana, alpha, sign, space, flatten_append, Option.pure_def,
        Option.bind_eq_bind, Option.some_bind, List.flatMap_cons, List.flatMap_nil,
        List.append_nil, List.append_assoc, Nat.reduceAdd, Nat.reduceLT]
  rw [if_neg h, if_neg h]; clear h
  by_cases h : f = KanaToHiragana
  · rw [if_pos h, if_pos h]
    rcases hs with rfl | rfl <;>
      simp only [num, kana, alpha, sign, space, flatten_append, Option.pure_def,
        Option.bind_eq_bind, Option.some_bind, List.flatMap_cons, List.flatMap_nil,
        List.append_nil, List.append_assoc, Nat.reduceAdd, Nat.reduceLT]
  rw [if_neg h, if_neg h]; clear h
  by_cases h : f = AlphabetToUpperZenkaku
  · rw [if_pos h, if_pos h]
    rcases hs with rfl | rfl <;>
      simp only [num, kana, alpha, sign, space, flatten_append, Option.pure_def,
        Option.bind_eq_bind, Option.some_bind, List.flatMap_cons, List.flatMap_nil,
        List.append_nil, List.append_assoc, Nat.reduceAdd, Nat.reduceLT]
  rw [if_neg h, if_neg h]; clear h
  by_cases h : f = AlphabetToUpperHankaku
  · rw [if_pos h, if_pos h]
    rcases hs with rfl | rfl <;>
      simp only [num, kana, alpha, sign, space, flatten_append, Option.pure_def,
        Option.bind_eq_bind, Option.some_bind, List.flatMap_cons, List.flatMap_nil,
        List.append_nil, List.append_assoc, Nat.reduceAdd, Nat.reduceLT]
  rw [if_neg h, if_neg h]; clear h
  by_cases h : f = AlphabetToLowerZenkaku
  · rw [if_pos h, if_pos h]
    rcases hs with rfl | rfl <;>
      simp only [num, kana, alpha, sign, space, flatten_append, Option.pure_def,
        Option.bind_eq_bind, Option.some_bind, List.flatMap_cons, List.flatMap_nil,
        List.append_nil, List.append_assoc, Nat.reduceAdd, Nat.reduceLT]
  rw [if_neg h, if_neg h]; clear h
  by_cases h : f = AlphabetToLowerHankaku
  · rw [if_pos h, if_pos h]
    rcases hs with rfl | rfl <;>
      simp only [num, kana, alpha, sign, space, flatten_append, Option.pure_def,
        Option.bind_eq_bind, Option.some_bind, List.flatMap_cons, List.flatMap_nil,
        List.append_nil, List.append_assoc, Nat.reduceAdd, Nat.reduceLT]
  rw [if_neg h, if_neg h]; clear h
  by_cases h : f = AlphabetToZenkaku
  · rw [if_pos h, if_pos h]
    rcases hs with rfl | rfl <;>
      simp only [num, kana, alpha, sign, space, flatten_append, Option.pure_def,
        Option.bind_eq_bind, Option.some_bind, List.flatMap_cons, List.flatMap_nil,
        List.append_nil, List.append_assoc, Nat.reduceAdd, Nat.reduceLT]
  rw [if_neg h, if_neg h]; clear h
  by_cases h : f = AlphabetToHankaku
  · rw [if_pos h, if_pos h]
    rcases hs with rfl | rfl <;>
      simp only [num, kana, alpha, sign, space, flatten_append, Option.pure_def,
        Option.bind_eq_bind, Option.some_bind, List.flatMap_cons, List.flatMap_nil,
        List.append_nil, List.append_assoc, Nat.reduceAdd, Nat.reduceLT]
  rw [if_neg h, if_neg h]; clear h
  by_cases h : f = HankakuSignToZenkaku
  · rw [if_pos h, if_pos h]
    rcases hs with rfl | rfl <;>
      simp only [num, kana, alpha, sign, space, flatten_append, Option.pure_def,
        Option.bind_eq_bind, Option.some_bind, List.flatMap_cons, List.flatMap_nil,
        List.append_nil, List.append_assoc, Nat.reduceAdd, Nat.reduceLT]
  rw [if_neg h, if_neg h]; clear h
  by_cases h : f = ZenkakuSignToHankaku
  · rw [if_pos h, if_pos h]
    rcases hs with rfl | rfl <;>
      simp only [num, kana, alpha, sign, space, flatten_append, Option.pure_def,
        Option.bind_eq_bind, Option.some_bind, List.flatMap_cons, List.flatMap_nil,
        List.append_nil, List.append_assoc, Nat.reduceAdd, Nat.reduceLT]
  rw [if_neg h, if_neg h]; clear h
  by_cases h : f = HankakuSpaceToZenkaku
  · rw [if_pos h, if_pos h]
    rcases hs with rfl | rfl <;>
      simp only [num, kana, alpha, sign, space, flatten_append, Option.pure_def,
        Option.bind_eq_bind, Option.some_bind, List.flatMap_cons, List.flatMap_nil,
        List.append_nil, List.append_assoc, Nat.reduceAdd, Nat.reduceLT]
  rw [if_neg h, if_neg h]; clear h
  by_cases h : f = ZenkakuSpaceToHankaku
  · rw [if_pos h, if_pos h]
    rcases hs with rfl | rfl <;>
      simp only [num, kana, alpha, sign, space, flatten_append, Option.pure_def,
        Option.bind_eq_bind, Option.some_bind, List.flatMap_cons, List.flatMap_nil,
        List.append_nil, List.append_assoc, Nat.reduceAdd, Nat.reduceLT]
  rw [if_neg h, if_neg h]; clear h
  simp [flatten]

theorem buildMapping_fold (slide : Nat) (hs : slide = 0 ∨ slide = 3) (rm : Bool)
    (flags : List TextReplaceOption) (acc : List String) :
    flags.foldlM (switchCase slide rm) acc
      = some (acc ++ flatten (flags.flatMap (blockPairs slide rm))) := by
  induction flags generalizing acc with
  | nil => simp [flatten]
  | cons f rest ih =>
    simp [List.foldlM_cons, switchCase_eq slide hs rm acc f, ih, flatten_append]

theorem buildMapping_eq (flags : List TextReplaceOption) :
    buildMapping flags = some (flatten (substitutionSet flags)) := by
  unfold buildMapping substitutionSet
  have hs : (if hasOption flags RemoveDakuten then 3 else 0) = 0
      ∨ (if hasOption flags RemoveDakuten then 3 else 0) = 3 := by
    split <;> simp
  simpa using buildMapping_fold _ hs _ flags []

theorem flatten_length (ps : List (String × String)) : (flatten ps).length = 2 * ps.length := by
  induction ps with
  | nil => rfl
  | cons p rest ih => simp [flatten, ih]; omega

theorem pairUp_flatten (ps : List (String × String)) : pairUp (flatten ps) = ps := by
  induction ps with
  | nil => rfl
  | cons p rest ih => simp [flatten, pairUp, ih]

theorem NewReplacer_flatten (ps : List (String × String)) :
    NewReplacer (flatten ps) = some ⟨ps⟩ := by
  simp [NewReplacer, flatten_length, pairUp_flatten]

theorem NewTextNormalizer_eq (flags : List TextReplaceOption) :
    NewTextNormalizer flags = some ⟨substitutionSet flags⟩ := by
  simp [NewTextNormalizer, buildMapping_eq, NewReplacer_flatten]

/-! ## The scan of the replacer -/

theorem lookup_of_noEmptyOld (oldnew : List (String × String)) (hne : NoEmptyOld oldnew)
    (s : List Char) (b : Bool) : lookup oldnew s b = lookup oldnew s false := by
  unfold lookup
  induction oldnew with
  | nil => rfl
  | cons p rest ih =>
    have hp : p.1.data.isEmpty = false := by
      have := hne p (List.mem_cons_self _ _)
      cases hd : p.1.data with
      | nil => exact absurd hd this
      | cons a l => rfl
    have hr : NoEmptyOld rest := fun q hq => hne q (List.mem_cons_of_mem _ hq)
    simp only [List.find?_cons, hp, Bool.and_false, Bool.not_false, Bool.and_true, ih hr]

theorem lookup_some (oldnew : List (String × String)) (s : List Char) (p : String × String)
    (h : lookup oldnew s false = some p) : p ∈ oldnew ∧ p.1.data <+: s := by
  unfold lookup at h
  refine ⟨List.mem_of_find?_eq_some h, ?_⟩
  have := List.find?_some h
  simpa using this

theorem lookup_none (oldnew : List (String × String)) (s : List Char)
    (h : lookup oldnew s false = none) : ∀ p ∈ oldnew, ¬ p.1.data <+: s := by
  unfold lookup at h
  intro p hp hpre
  have := List.find?_eq_none.mp h p hp
  simp [hpre] at this

theorem drop_length_lt (old s : List Char) (h1 : old ≠ []) (h2 : old <+: s) :
    (s.drop old.length).length < s.length := by
  obtain ⟨t, rfl⟩ := h2
  have : 0 < old.length := List.length_pos.mpr h1
  simp
  omega

theorem replaceLoop_succ (oldnew : List (String × String)) (fuel : Nat) (b : Bool)
    (s : List Char) :
    replaceLoop oldnew (fuel + 1) b s
      = match lookup oldnew s b with
        | some (old, val) =>
          val.data ++ replaceLoop oldnew fuel old.data.isEmpty (s.drop old.data.length)
        | none =>
          match s with
          | [] => []
          | c :: rest => c :: replaceLoop oldnew fuel false rest := by
  conv => lhs; unfold replaceLoop

theorem replaceLoop_fuel (oldnew : List (String × String)) (hne : NoEmptyOld oldnew) :
    ∀ (fuel : Nat) (s : List Char) (b : Bool), s.length < fuel →
      replaceLoop oldnew fuel b s = replaceLoop oldnew (s.length + 1) false s := by
  intro fuel
  induction fuel using Nat.strong_induction_on with
  | _ fuel ih =>
    intro s b hlt
    cases fuel with
    | zero => omega
    | succ n =>
      rw [replaceLoop_succ oldnew n b s, replaceLoop_succ oldnew s.length false s,
        lookup_of_noEmptyOld oldnew hne s b]
      cases hl : lookup oldnew s false with
      | none =>
        cases s with
        | nil => rfl
        | cons c rest =>
          simp only
          have h1 := ih n (by omega) rest false (by simpa using hlt)
          have h2 := ih (rest.length + 1) (by simp at hlt ⊢; omega) rest false (by omega)
          simp only [List.length_cons]
          rw [h1, h2]
      | some p =>
        obtain ⟨old, val⟩ := p
        simp only
        obtain ⟨hmem, hpre⟩ := lookup_some oldnew s _ hl
        have hlen := drop_length_lt old.data s (hne _ hmem) hpre
        have h1 := ih n (by omega) (s.drop old.data.length) old.data.isEmpty (by omega)
        have h2 := ih s.length (by omega) (s.drop old.data.length) old.data.isEmpty hlen
        rw [h1, h2]

theorem scan_eq (oldnew : List (String × String)) (hne : NoEmptyOld oldnew) (s : List Char) :
    scan oldnew s = replaceLoop oldnew (s.length + 1) false s :=
  replaceLoop_fuel oldnew hne _ s false (by omega)

theorem scan_nil (oldnew : List (String × String)) (hne : NoEmptyOld oldnew) :
    scan oldnew [] = [] := by
  have hl : lookup oldnew [] false = none := by
    cases h : lookup oldnew [] false with
    | none => rfl
    | some p =>
      obtain ⟨hmem, hpre⟩ := lookup_some oldnew [] p h
      exact absurd (List.prefix_nil.mp hpre) (hne p hmem)
  rw [scan_eq oldnew hne]
  rw [replaceLoop_succ, hl]

theorem scan_match (oldnew : List (String × String)) (hne : NoEmptyOld oldnew) (s : List Char)
    (old val : String) (h : lookup oldnew s false = some (old, val)) :
    scan oldnew s = val.data ++ scan oldnew (s.drop old.data.length) := by
  obtain ⟨hmem, hpre⟩ := lookup_some oldnew s _ h
  have hlen := drop_length_lt old.data s (hne _ hmem) hpre
  rw [scan_eq oldnew hne s, scan_eq oldnew hne (s.drop old.data.length),
    replaceLoop_succ oldnew s.length false s, h]
  simp only
  rw [replaceLoop_fuel oldnew hne s.length _ _ hlen]

theorem scan_copy (oldnew : List (String × String)) (hne : NoEmptyOld oldnew) (c : Char)
    (rest : List Char) (h : lookup oldnew (c :: rest) false = none) :
    scan oldnew (c :: rest) = c :: scan oldnew rest := by
  rw [scan_eq oldnew hne (c :: rest), scan_eq oldnew hne rest,
    replaceLoop_succ oldnew (c :: rest).length false (c :: rest), h]
  simp

/-! ## Sources of the substitution set -/

theorem rowPair_fst (fromCol toCol : Nat) (rm : Bool) (cols : List String)
    (p : String × String) (h : rowPair fromCol toCol rm cols = some p) :
    p.1 = cols.getD fromCol "" ∧ p.1 ≠ "" := by
  unfold rowPair at h
  split_ifs at h with h1 h2 h3 <;> simp only [Option.some.injEq] at h <;> subst h <;>
    exact ⟨rfl, h1⟩

theorem projectPairs_fst_ne (data : List (List String)) (fromCol toCol : Nat) (rm : Bool) :
    ∀ p ∈ projectPairs data fromCol toCol rm, p.1 ≠ "" := by
  intro p hp
  obtain ⟨cols, _, hc⟩ := List.mem_filterMap.mp hp
  exact (rowPair_fst fromCol toCol rm cols p hc).2

theorem data_ne_nil_of_ne (s : String) (h : s ≠ "") : s.data ≠ [] := by
  intro hd
  apply h
  cases s
  simp_all

theorem substitutionSet_noEmptyOld (flags : List TextReplaceOption) :
    NoEmptyOld (substitutionSet flags) := by
  intro p hp
  unfold substitutionSet blockPairs at hp
  simp only [List.mem_flatMap] at hp
  obtain ⟨f, _, t, _, hp⟩ := hp
  exact data_ne_nil_of_ne _ (projectPairs_fst_ne _ _ _ _ p hp)

theorem normalize_eq (flags : List TextReplaceOption) (text : String) :
    normalize flags text = some ⟨scan (substitutionSet flags) text.data⟩ := by
  simp [normalize, NewTextNormalizer_eq, Replacer.Replace, scan]

/-! ## Texts without a matching source -/

theorem lookup_eq_none_of_head (oldnew : List (String × String)) (hne : NoEmptyOld oldnew)
    (c : Char) (rest : List Char) (h : ∀ p ∈ oldnew, p.1.data.head? ≠ some c) :
    lookup oldnew (c :: rest) false = none := by
  cases hl : lookup oldnew (c :: rest) false with
  | none => rfl
  | some p =>
    obtain ⟨hmem, hpre⟩ := lookup_some oldnew _ p hl
    exfalso
    cases hd : p.1.data with
    | nil => exact hne p hmem hd
    | cons a l =>
      rw [hd] at hpre
      obtain ⟨t, ht⟩ := hpre
      have hac : a = c := by simp at ht; exact ht.1
      exact h p hmem (by rw [hd, hac]; rfl)

theorem scan_of_no_head (oldnew : List (String × String)) (hne : NoEmptyOld oldnew)
    (s : List Char) (h : ∀ c ∈ s, ∀ p ∈ oldnew, p.1.data.head? ≠ some c) :
    scan oldnew s = s := by
  induction s with
  | nil => exact scan_nil oldnew hne
  | cons c rest ih =>
    rw [scan_copy oldnew hne c rest
      (lookup_eq_none_of_head oldnew hne c rest (h c (List.mem_cons_self _ _)))]
    rw [ih (fun d hd => h d (List.mem_cons_of_mem _ hd))]

theorem scan_append_of_no_head (oldnew : List (String × String)) (hne : NoEmptyOld oldnew)
    (u v : List Char) (h : ∀ c ∈ u, ∀ p ∈ oldnew, p.1.data.head? ≠ some c) :
    scan oldnew (u ++ v) = u ++ scan oldnew v := by
  induction u with
  | nil => rfl
  | cons c rest ih =>
    rw [List.cons_append, scan_copy oldnew hne c (rest ++ v)
      (lookup_eq_none_of_head oldnew hne c _ (h c (List.mem_cons_self _ _)))]
    rw [ih (fun d hd => h d (List.mem_cons_of_mem _ hd))]
    rfl

theorem head_ne_of_not_mem (l : List Char) (c : Char) (h : c ∉ l) : l.head? ≠ some c := by
  cases l with
  | nil => simp
  | cons a t =>
    simp only [List.head?_cons, ne_eq, Option.some.injEq]
    rintro rfl
    exact h (List.mem_cons_self _ _)

/-! ## Argument order and longest match -/

theorem safeAt_mono (seen seen2 : List String) (x : String) (hsub : ∀ y ∈ seen, y ∈ seen2)
    (h : safeAt seen x = true) : safeAt seen2 x = true := by
  unfold safeAt at h ⊢
  rw [Bool.or_eq_true] at h ⊢
  rcases h with h | h
  · exact Or.inl h
  · refine Or.inr ?_
    rw [List.all_eq_true] at h ⊢
    intro y hy
    have := h y hy
    simp only [decide_eq_true_eq] at this ⊢
    rcases this with h1 | h2 | h3
    · exact Or.inl h1
    · exact Or.inr (Or.inl h2)
    · exact Or.inr (Or.inr (hsub y h3))

theorem longSources_head : ∀ y ∈ longSources, y.data.head?.any isHankakuKana = true := by
  decide!

theorem safeAt_spec (seen : List String) (x : String) (hx : x.data ≠ [])
    (h : safeAt seen x = true) :
    ∀ y ∈ longSources, x ≠ y → x.data <+: y.data → y ∈ seen := by
  intro y hy hne hpre
  unfold safeAt at h
  rw [Bool.or_eq_true] at h
  rcases h with h | h
  · exfalso
    have hh := longSources_head y hy
    obtain ⟨t, ht⟩ := hpre
    cases hd : x.data with
    | nil => exact hx hd
    | cons a l =>
      rw [hd] at h ht
      rw [← ht] at hh
      simp only [List.cons_append, List.head?_cons, Option.any_some] at h hh
      rw [hh] at h
      exact absurd h (by simp)
  · have := List.all_eq_true.mp h y hy
    simp only [decide_eq_true_eq] at this
    rcases this with h1 | h2 | h3
    · exact absurd h1 hne
    · exact absurd hpre h2
    · exact h3

theorem longerFirst_mono (l : List String) : ∀ (seen seen2 : List String),
    (∀ y ∈ seen, y ∈ seen2) → longerFirst seen l = true → longerFirst seen2 l = true := by
  induction l with
  | nil => intro _ _ _ _; rfl
  | cons x rest ih =>
    intro seen seen2 hsub h
    simp only [longerFirst, Bool.and_eq_true] at h ⊢
    refine ⟨safeAt_mono seen seen2 x hsub h.1, ih (x :: seen) (x :: seen2) ?_ h.2⟩
    intro y hy
    rcases List.mem_cons.mp hy with rfl | hy
    · exact List.mem_cons_self _ _
    · exact List.mem_cons_of_mem _ (hsub y hy)

theorem longerFirst_append (l1 l2 : List String) : ∀ seen : List String,
    longerFirst seen l1 = true → longerFirst [] l2 = true →
      longerFirst seen (l1 ++ l2) = true := by
  induction l1 with
  | nil =>
    intro seen _ h2
    exact longerFirst_mono l2 [] seen (fun y hy => absurd hy (List.not_mem_nil y)) h2
  | cons x rest ih =>
    intro seen h1 h2
    simp only [longerFirst, Bool.and_eq_true, List.cons_append] at h1 ⊢
    exact ⟨h1.1, ih (x :: seen) h1.2 h2⟩

theorem longerFirst_split (a : List String) (x : String) (b : List String) (hx : x.data ≠ []) :
    ∀ seen : List String, longerFirst seen (a ++ x :: b) = true →
      ∀ y ∈ longSources, x ≠ y → x.data <+: y.data → y ∈ seen ∨ y ∈ a := by
  induction a with
  | nil =>
    intro seen h y hy hne hpre
    simp only [List.nil_append, longerFirst, Bool.and_eq_true] at h
    exact Or.inl (safeAt_spec seen x hx h.1 y hy hne hpre)
  | cons z rest ih =>
    intro seen h y hy hne hpre
    simp only [List.cons_append, longerFirst, Bool.and_eq_true] at h
    rcases ih (z :: seen) h.2 y hy hne hpre with h1 | h2
    · rcases List.mem_cons.mp h1 with rfl | h1
      · exact Or.inr (List.mem_cons_self _ _)
      · exact Or.inl h1
    · exact Or.inr (List.mem_cons_of_mem _ h2)

theorem lookup_split (oldnew : List (String × String)) (s : List Char) (p : String × String)
    (h : lookup oldnew s false = some p) :
    p.1.data <+: s ∧ ∃ a b, oldnew = a ++ p :: b ∧ ∀ q ∈ a, ¬ q.1.data <+: s := by
  unfold lookup at h
  rw [List.find?_eq_some] at h
  obtain ⟨hp, a, b, hab, hno⟩ := h
  refine ⟨by simpa using hp, a, b, hab, ?_⟩
  intro q hq hpre
  have := hno q hq
  rw [List.isPrefixOf_iff_prefix.mpr hpre] at this
  exact absurd this (by simp)

theorem first_is_longest (oldnew : List (String × String)) (hne : NoEmptyOld oldnew)
    (hwo : longerFirst [] (oldnew.map Prod.fst) = true)
    (hall : ∀ p ∈ oldnew, 2 ≤ p.1.length → p.1 ∈ longSources) (s : List Char)
    (p : String × String) (hp : lookup oldnew s false = some p) :
    ∀ q ∈ oldnew, q.1.data <+: s → q.1.data.length ≤ p.1.data.length := by
  obtain ⟨hpre, a, b, hab, hno⟩ := lookup_split oldnew s p hp
  have hpm : p ∈ oldnew := by rw [hab]; simp
  intro q hq hqpre
  by_contra hlt
  have hlt : p.1.data.length < q.1.data.length := by omega
  have hpq : p.1.data <+: q.1.data := List.prefix_of_prefix_length_le hpre hqpre (le_of_lt hlt)
  have hneq : p.1 ≠ q.1 := by
    intro he
    rw [he] at hlt
    exact absurd hlt (lt_irrefl _)
  have hp1 : 0 < p.1.data.length := List.length_pos.mpr (hne p hpm)
  have hq2 : 2 ≤ q.1.length := by
    show 2 ≤ q.1.data.length
    omega
  rw [hab, List.map_append, List.map_cons] at hwo
  rcases longerFirst_split _ _ _ (hne p hpm) [] hwo q.1 (hall q hq hq2) hneq hpq with h1 | h2
  · exact absurd h1 (List.not_mem_nil _)
  · obtain ⟨q2, hq2, he⟩ := List.mem_map.mp h2
    exact hno q2 hq2 (by rw [he]; exact hqpre)

/-! ## The sources of every substitution set are ordered longest first -/

theorem projectPairs_map_fst (data : List (List String)) (fromCol toCol : Nat) (rm : Bool) :
    (projectPairs data fromCol toCol rm).map Prod.fst = sourceColumn data fromCol := by
  unfold projectPairs sourceColumn
  induction data with
  | nil => rfl
  | cons cols rest ih =>
    simp only [List.filterMap_cons, List.map_cons, List.filter_cons]
    by_cases h1 : cols.getD fromCol "" = ""
    · have hr : rowPair fromCol toCol rm cols = none := by
        unfold rowPair
        rw [if_pos h1]
      rw [hr]
      simp only [h1, ne_eq, not_true_eq_false, decide_False, Bool.false_eq_true, if_false]
      exact ih
    · have hr : ∃ v, rowPair fromCol toCol rm cols = some (cols.getD fromCol "", v) := by
        unfold rowPair
        rw [if_neg h1]
        split_ifs
        · exact ⟨_, rfl⟩
        · exact ⟨_, rfl⟩
        · exact ⟨_, rfl⟩
      obtain ⟨v, hv⟩ := hr
      rw [hv]
      simp only [h1, ne_eq, not_false_eq_true, decide_True, if_true, List.map_cons, ih]

theorem columnOK_number0 : columnOK asciiNumberMap 0 := by unfold columnOK; decide!

theorem columnOK_number1 : columnOK asciiNumberMap 1 := by unfold columnOK; decide!

theorem columnOK_kana0 : columnOK kanaMap 0 :=
  ⟨by decide!, fun x hx h2 => List.mem_filter.mpr ⟨hx, by simpa using h2⟩⟩

theorem columnOK_kana1 : columnOK kanaMap 1 := by unfold columnOK; decide!

theorem columnOK_kana2 : columnOK kanaMap 2 := by unfold columnOK; decide!

theorem columnOK_alphabet0 : columnOK asciiAlphabetMap 0 := by unfold columnOK; decide!

theorem columnOK_alphabet1 : columnOK asciiAlphabetMap 1 := by unfold columnOK; decide!

theorem columnOK_alphabet2 : columnOK asciiAlphabetMap 2 := by unfold columnOK; decide!

theorem columnOK_alphabet3 : columnOK asciiAlphabetMap 3 := by unfold columnOK; decide!

theorem columnOK_sign0 : columnOK asciiSignMap 0 := by unfold columnOK; decide!

theorem columnOK_sign1 : columnOK asciiSignMap 1 := by unfold columnOK; decide!

theorem columnOK_space0 : columnOK spaceMap 0 := by unfold columnOK; decide!

theorem columnOK_space1 : columnOK spaceMap 1 := by unfold columnOK; decide!

theorem columnPairs_ok (slide : Nat) (f : TextReplaceOption) :
    ∀ c ∈ columnPairs slide f, columnOK c.1 c.2.1 := by
  have n0 := columnOK_number0
  have n1 := columnOK_number1
  have k0 := columnOK_kana0
  have k1 := columnOK_kana1
  have k2 := columnOK_kana2
  have a0 := columnOK_alphabet0
  have a1 := columnOK_alphabet1
  have a2 := columnOK_alphabet2
  have a3 := columnOK_alphabet3
  have s0 := columnOK_sign0
  have s1 := columnOK_sign1
  have p0 := columnOK_space0
  have p1 := columnOK_space1
  unfold columnPairs
  by_cases h : f = HankakuNumberToZenkaku
  · rw [if_pos h]
    intro c hc
    simp only [List.mem_cons, List.mem_singleton, List.not_mem_nil, or_false] at hc
    subst hc
    exact n0
  rw [if_neg h]; clear h
  by_cases h : f = ZenkakuNumberToHankaku
  · rw [if_pos h]
    intro c hc
    simp only [List.mem_cons, List.mem_singleton, List.not_mem_nil, or_false] at hc
    subst hc
    exact n1
  rw [if_neg h]; clear h
  by_cases h : f = HankakuKatakanaToZenkaku
  · rw [if_pos h]
    intro c hc
    simp only [List.mem_cons, List.mem_singleton, List.not_mem_nil, or_false] at hc
    subst hc
    exact k0
  rw [if_neg h]; clear h
  by_cases h : f = ZenkakuKatakanaToHankaku
  · rw [if_pos h]
    intro c hc
    simp only [List.mem_cons, List.mem_singleton, List.not_mem_nil, or_false] at hc
    subst hc
    exact k1
  rw [if_neg h]; clear h
  by_cases h : f = KatakanaToHiragana
  · rw [if_pos h]
    intro c hc
    simp only [List.mem_cons, List.mem_singleton, List.not_mem_nil, or_false] at hc
    rcases hc with rfl | rfl
    · exact k0
    · exact k1
  rw [if_neg h]; clear h
  by_cases h : f = HiraganaToZenkakuKatakana
  · rw [if_pos h]
    intro c hc
    simp only [List.mem_cons, List.mem_singleton, List.not_mem_nil, or_false] at hc
    subst hc
    exact k2
  rw [if_neg h]; clear h
  by_cases h : f = HiraganaToHankakuKatakana
  · rw [if_pos h]
    intro c hc
    simp only [List.mem_cons, List.mem_singleton, List.not_mem_nil, or_false] at hc
    subst hc
    exact k2
  rw [if_neg h]; clear h
  by_cases h : f = KanaToHankakuKatakana
  · rw [if_pos h]
    intro c hc
    simp only [List.mem_cons, List.mem_singleton, List.not_mem_nil, or_false] at hc
    rcases hc with rfl | rfl | rfl
    · exact k0
    · exact k1
    · exact k2
  rw [if_neg h]; clear h
  by_cases h : f = KanaToZenkakuKatakana
  · rw [if_pos h]
    intro c hc
    simp only [List.mem_cons, List.mem_singleton, List.not_mem_nil, or_false] at hc
    rcases hc with rfl | rfl | rfl
    · exact k0
    · exact k1
    · exact k2
  rw [if_neg h]; clear h
  by_cases h : f = KanaToHiragana
  · rw [if_pos h]
    intro c hc
    simp only [List.mem_cons, List.mem_singleton, List.not_mem_nil, or_false] at hc
    rcases hc with rfl | rfl | rfl
    · exact k0
    · exact k1
    · exact k2
  rw [if_neg h]; clear h
  by_cases h : f = AlphabetToUpperZenkaku
  · rw [if_pos h]
    intro c hc
    simp only [List.mem_cons, List.mem_singleton, List.not_mem_nil, or_false] at hc
    rcases hc with rfl | rfl | rfl
    · exact a0
    · exact a1
    · exact a2
  rw [if_neg h]; clear h
  by_cases h : f = AlphabetToUpperHankaku
  · rw [if_pos h]
    intro c hc
    simp only [List.mem_cons, List.mem_singleton, List.not_mem_nil, or_false] at hc
    rcases hc with rfl | rfl | rfl
    · exact a0
    · exact a2
    · exact a3
  rw [if_neg h]; clear h
  by_cases h : f = AlphabetToLowerZenkaku
  · rw [if_pos h]
    intro c hc
    simp only [List.mem_cons, List.mem_singleton, List.not_mem_nil, or_false] at hc
    rcases hc with rfl | rfl | rfl
    · exact a0
    · exact a1
    · exact a3
  rw [if_neg h]; clear h
  by_cases h : f = AlphabetToLowerHankaku
  · rw [if_pos h]
    intro c hc
    simp only [List.mem_cons, List.mem_singleton, List.not_mem_nil, or_false] at hc
    rcases hc with rfl | rfl | rfl
    · exact a1
    · exact a2
    · exact a3
  rw [if_neg h]; clear h
  by_cases h : f = AlphabetToZenkaku
  · rw [if_pos h]
    intro c hc
    simp only [List.mem_cons, List.mem_singleton, List.not_mem_nil, or_false] at hc
    rcases hc with rfl | rfl
    · exact a0
    · exact a1
  rw [if_neg h]; clear h
  by_cases h : f = AlphabetToHankaku
  · rw [if_pos h]
    intro c hc
    simp only [List.mem_cons, List.mem_singleton, List.not_mem_nil, or_false] at hc
    rcases hc with rfl | rfl
    · exact a2
    · exact a3
  rw [if_neg h]; clear h
  by_cases h : f = HankakuSignToZenkaku
  · rw [if_pos h]
    intro c hc
    simp only [List.mem_cons, List.mem_singleton, List.not_mem_nil, or_false] at hc
    subst hc
    exact s0
  rw [if_neg h]; clear h
  by_cases h : f = ZenkakuSignToHankaku
  · rw [if_pos h]
    intro c hc
    simp only [List.mem_cons, List.mem_singleton, List.not_mem_nil, or_false] at hc
    subst hc
    exact s1
  rw [if_neg h]; clear h
  by_cases h : f = HankakuSpaceToZenkaku
  · rw [if_pos h]
    intro c hc
    simp only [List.mem_cons, List.mem_singleton, List.not_mem_nil, or_false] at hc
    subst hc
    exact p0
  rw [if_neg h]; clear h
  by_cases h : f = ZenkakuSpaceToHankaku
  · rw [if_pos h]
    intro c hc
    simp only [List.mem_cons, List.mem_singleton, List.not_mem_nil, or_false] at hc
    subst hc
    exact p1
  rw [if_neg h]; clear h
  intro c hc
  exact absurd hc (List.not_mem_nil c)

theorem blockPairs_sources (slide : Nat) (rm : Bool) (f : TextReplaceOption) :
    longerFirst [] ((blockPairs slide rm f).map Prod.fst) = true
      ∧ ∀ p ∈ blockPairs slide rm f, 2 ≤ p.1.length → p.1 ∈ longSources := by
  unfold blockPairs
  have hok := columnPairs_ok slide f
  generalize columnPairs slide f = cs at hok
  induction cs with
  | nil => exact ⟨rfl, fun p hp => absurd hp (List.not_mem_nil p)⟩
  | cons c rest ih =>
    have hc := hok c (List.mem_cons_self _ _)
    have ihr := ih (fun d hd => hok d (List.mem_cons_of_mem _ hd))
    simp only [List.flatMap_cons, List.map_append, List.mem_append]
    constructor
    · apply longerFirst_append _ _ [] _ ihr.1
      rw [projectPairs_map_fst]
      exact hc.1
    · rintro p (hp | hp) h2
      · apply hc.2 _ _ h2
        rw [← projectPairs_map_fst c.1.data c.2.1 c.2.2 rm]
        exact List.mem_map_of_mem _ hp
      · exact ihr.2 p hp h2

theorem flatMap_sources (slide : Nat) (rm : Bool) (flags : List TextReplaceOption) :
    longerFirst [] ((flags.flatMap (blockPairs slide rm)).map Prod.fst) = true
      ∧ ∀ p ∈ flags.flatMap (blockPairs slide rm), 2 ≤ p.1.length → p.1 ∈ longSources := by
  induction flags with
  | nil => exact ⟨rfl, fun p hp => absurd hp (List.not_mem_nil p)⟩
  | cons f rest ih =>
    have hb := blockPairs_sources slide rm f
    simp only [List.flatMap_cons, List.map_append, List.mem_append]
    constructor
    · exact longerFirst_append _ _ [] hb.1 ih.1
    · rintro p (hp | hp) h2
      · exact hb.2 p hp h2
      · exact ih.2 p hp h2

theorem substitutionSet_first_is_longest (flags : List TextReplaceOption) (s : List Char)
    (p : String × String) (hp : lookup (substitutionSet flags) s false = some p) :
    ∀ q ∈ substitutionSet flags, q.1.data <+: s → q.1.data.length ≤ p.1.data.length :=
  first_is_longest _ (substitutionSet_noEmptyOld flags) (flatMap_sources _ _ flags).1
    (flatMap_sources _ _ flags).2 s p hp

/-! ## The reference engine -/

theorem longestMatch_foldl_some (s : List Char) (p : String × String)
    (l : List (String × String))
    (h : ∀ q ∈ l, q.1.data <+: s → q.1.data.length ≤ p.1.data.length) :
    l.foldl (fun best q =>
      if q.1.data.isPrefixOf s then
        match best with
        | none => some q
        | some r => if r.1.data.length < q.1.data.length then some q else some r
      else best) (some p) = some p := by
  induction l with
  | nil => rfl
  | cons q rest ih =>
    rw [List.foldl_cons]
    have hr := ih (fun r hr => h r (List.mem_cons_of_mem _ hr))
    by_cases hq : q.1.data.isPrefixOf s = true
    · have hle := h q (List.mem_cons_self _ _) (List.isPrefixOf_iff_prefix.mp hq)
      rw [if_pos hq]
      simp only
      rw [if_neg (by omega)]
      exact hr
    · rw [if_neg hq]
      exact hr

theorem longestMatch_foldl_none (s : List Char) (l : List (String × String))
    (h : ∀ q ∈ l, ¬ q.1.data <+: s) (rest : List (String × String)) :
    (l ++ rest).foldl (fun best q =>
      if q.1.data.isPrefixOf s then
        match best with
        | none => some q
        | some r => if r.1.data.length < q.1.data.length then some q else some r
      else best) none
    = rest.foldl (fun best q =>
      if q.1.data.isPrefixOf s then
        match best with
        | none => some q
        | some r => if r.1.data.length < q.1.data.length then some q else some r
      else best) none := by
  induction l with
  | nil => rfl
  | cons q l ih =>
    rw [List.cons_append, List.foldl_cons]
    have hq : ¬ q.1.data.isPrefixOf s = true := fun hq =>
      h q (List.mem_cons_self _ _) (List.isPrefixOf_iff_prefix.mp hq)
    rw [if_neg hq]
    exact ih (fun r hr => h r (List.mem_cons_of_mem _ hr))

theorem longestMatch_eq_lookup (oldnew : List (String × String)) (s : List Char)
    (h : ∀ p, lookup oldnew s false = some p →
      ∀ q ∈ oldnew, q.1.data <+: s → q.1.data.length ≤ p.1.data.length) :
    longestMatch oldnew s = lookup oldnew s false := by
  cases hl : lookup oldnew s false with
  | none =>
    have hno := lookup_none oldnew s hl
    have := longestMatch_foldl_none s oldnew hno []
    rw [List.append_nil] at this
    exact this
  | some p =>
    obtain ⟨hpre, a, b, hab, hno⟩ := lookup_split oldnew s p hl
    have hdom := h p hl
    unfold longestMatch
    rw [hab, longestMatch_foldl_none s a hno (p :: b), List.foldl_cons,
      if_pos (List.isPrefixOf_iff_prefix.mpr hpre)]
    simp only
    apply longestMatch_foldl_some
    intro q hq
    exact hdom q (by rw [hab]; exact List.mem_append_right _ (List.mem_cons_of_mem _ hq))

theorem referenceLoop_eq_scan (oldnew : List (String × String)) (hne : NoEmptyOld oldnew)
    (h : ∀ s, longestMatch oldnew s = lookup oldnew s false) :
    ∀ (fuel : Nat) (s : List Char), s.length < fuel →
      referenceLoop oldnew fuel s = scan oldnew s := by
  intro fuel
  induction fuel with
  | zero => intro s hs; omega
  | succ n ih =>
    intro s hs
    unfold referenceLoop
    rw [h s]
    cases hl : lookup oldnew s false with
    | none =>
      cases s with
      | nil => simp only; exact (scan_nil oldnew hne).symm
      | cons c rest =>
        simp only
        rw [scan_copy oldnew hne c rest hl, ih rest (by simpa using hs)]
    | some p =>
      obtain ⟨old, val⟩ := p
      obtain ⟨hmem, hpre⟩ := lookup_some oldnew s _ hl
      have hlen := drop_length_lt old.data s (hne _ hmem) hpre
      simp only
      rw [scan_match oldnew hne s old val hl, ih _ (by omega)]

/-! ## A source as the whole text -/

theorem longer_before (oldnew : List (String × String)) (hne : NoEmptyOld oldnew)
    (hwo : longerFirst [] (oldnew.map Prod.fst) = true)
    (hall : ∀ p ∈ oldnew, 2 ≤ p.1.length → p.1 ∈ longSources)
    (a : List (String × String)) (q : String × String) (b : List (String × String))
    (hab : oldnew = a ++ q :: b) (y : String × String) (hy : y ∈ oldnew)
    (hpre : q.1.data <+: y.1.data) (hneq : q.1 ≠ y.1) : ∃ q2 ∈ a, q2.1 = y.1 := by
  have hqm : q ∈ oldnew := by rw [hab]; simp
  have hq1 : 0 < q.1.data.length := List.length_pos.mpr (hne q hqm)
  have hlen : q.1.data.length < y.1.data.length := by
    rcases Nat.lt_or_ge q.1.data.length y.1.data.length with h | h
    · exact h
    · exfalso
      apply hneq
      have := List.IsPrefix.eq_of_length_le hpre h
      cases hq : q.1
      cases hy2 : y.1
      simp_all
  have hy2 : 2 ≤ y.1.length := by
    show 2 ≤ y.1.data.length
    omega
  rw [hab, List.map_append, List.map_cons] at hwo
  rcases longerFirst_split _ _ _ (hne q hqm) [] hwo y.1 (hall y hy hy2) hneq hpre with h1 | h2
  · exact absurd h1 (List.not_mem_nil _)
  · obtain ⟨q2, hq2, he⟩ := List.mem_map.mp h2
    exact ⟨q2, hq2, he⟩

theorem lookup_of_first_source (oldnew : List (String × String)) (hne : NoEmptyOld oldnew)
    (hwo : longerFirst [] (oldnew.map Prod.fst) = true)
    (hall : ∀ p ∈ oldnew, 2 ≤ p.1.length → p.1 ∈ longSources)
    (s : String) (p : String × String)
    (h : oldnew.find? (fun q => decide (q.1 = s)) = some p) :
    lookup oldnew s.data false = some p := by
  rw [List.find?_eq_some] at h
  obtain ⟨hps, a, b, hab, hno⟩ := h
  have hps : p.1 = s := by simpa using hps
  have hpm : p ∈ oldnew := by rw [hab]; simp
  unfold lookup
  rw [List.find?_eq_some]
  refine ⟨by simp [hps], a, b, hab, ?_⟩
  intro q hq
  simp only [Bool.false_and, Bool.not_false, Bool.and_true, Bool.not_eq_true']
  by_contra hm
  have hm : q.1.data <+: s.data :=
    List.isPrefixOf_iff_prefix.mp (by simpa using hm)
  have hqs : q.1 ≠ s := by simpa using hno q hq
  obtain ⟨a1, a2, ha⟩ := List.append_of_mem hq
  have hab2 : oldnew = a1 ++ q :: (a2 ++ p :: b) := by
    rw [hab, ha]; simp
  obtain ⟨q2, hq2, he⟩ := longer_before oldnew hne hwo hall a1 q _ hab2 p hpm
    (by rw [hps]; exact hm) (by rw [hps]; exact hqs)
  have hq2a : q2 ∈ a := by rw [ha]; exact List.mem_append_left _ hq2
  have := hno q2 hq2a
  simp [he, hps] at this

theorem scan_of_first_source (oldnew : List (String × String)) (hne : NoEmptyOld oldnew)
    (hwo : longerFirst [] (oldnew.map Prod.fst) = true)
    (hall : ∀ p ∈ oldnew, 2 ≤ p.1.length → p.1 ∈ longSources)
    (s : String) (p : String × String)
    (h : oldnew.find? (fun q => decide (q.1 = s)) = some p) :
    scan oldnew s.data = p.2.data := by
  have hl := lookup_of_first_source oldnew hne hwo hall s p h
  have hps : p.1 = s := by
    have := List.find?_some h
    simpa using this
  rw [scan_match oldnew hne s.data p.1 p.2 hl, hps, List.drop_length, scan_nil oldnew hne,
    List.append_nil]

/-! ## Looking a text up in a projection -/

theorem lookup_append (l1 l2 : List (String × String)) (s : List Char) :
    lookup (l1 ++ l2) s false = (lookup l1 s false).or (lookup l2 s false) := by
  unfold lookup
  rw [List.find?_append]

theorem lookup_cons_of_prefix (p : String × String) (l : List (String × String))
    (s : List Char) (h : p.1.data <+: s) : lookup (p :: l) s false = some p := by
  unfold lookup
  simp only [List.find?_cons, List.isPrefixOf_iff_prefix.mpr h, Bool.false_and, Bool.not_false,
    Bool.and_self]

theorem projectPairs_cons (cols : List String) (data : List (List String))
    (fromCol toCol : Nat) (rm : Bool) :
    projectPairs (cols :: data) fromCol toCol rm
      = (rowPair fromCol toCol rm cols).toList ++ projectPairs data fromCol toCol rm := by
  unfold projectPairs
  rw [List.filterMap_cons]
  cases rowPair fromCol toCol rm cols <;> rfl

theorem projectPairs_append (d1 d2 : List (List String)) (fromCol toCol : Nat) (rm : Bool) :
    projectPairs (d1 ++ d2) fromCol toCol rm
      = projectPairs d1 fromCol toCol rm ++ projectPairs d2 fromCol toCol rm := by
  unfold projectPairs
  rw [List.filterMap_append]

theorem rowPair_of_ne (fromCol toCol : Nat) (rm : Bool) (cols : List String)
    (h : cols.getD fromCol "" ≠ "") :
    rowPair fromCol toCol rm cols
      = some (cols.getD fromCol "",
          if cols.getD toCol "" ≠ "" then cols.getD toCol ""
          else if rm then "" else cols.getD fromCol "") := by
  unfold rowPair
  rw [if_neg h]
  split_ifs <;> rfl

/-- No row of `data` has a source (column `fromCol`) that is a prefix of `s`: the projection
contributes no match. -/
theorem lookup_projectPairs_none (data : List (List String)) (fromCol toCol : Nat) (rm : Bool)
    (s : List Char) (h : ∀ c ∈ data, ¬ (c.getD fromCol "").data <+: s) :
    lookup (projectPairs data fromCol toCol rm) s false = none := by
  cases hl : lookup (projectPairs data fromCol toCol rm) s false with
  | none => rfl
  | some p =>
    exfalso
    obtain ⟨hmem, hpre⟩ := lookup_some _ s p hl
    obtain ⟨cols, hc, hrow⟩ := List.mem_filterMap.mp hmem
    have := (rowPair_fst fromCol toCol rm cols p hrow).1
    rw [this] at hpre
    exact h cols hc hpre

/-- The first row of `data` whose source is a prefix of `s` supplies the match. -/
theorem lookup_projectPairs_row (data : List (List String)) (fromCol toCol : Nat) (rm : Bool)
    (s : List Char) (pre post : List (List String)) (r : List String)
    (hd : data = pre ++ r :: post)
    (hpre : ∀ c ∈ pre, ¬ (c.getD fromCol "").data <+: s)
    (hr1 : r.getD fromCol "" ≠ "") (hr2 : (r.getD fromCol "").data <+: s) :
    lookup (projectPairs data fromCol toCol rm) s false
      = some (r.getD fromCol "",
          if r.getD toCol "" ≠ "" then r.getD toCol ""
          else if rm then "" else r.getD fromCol "") := by
  rw [hd, projectPairs_append, lookup_append,
    lookup_projectPairs_none pre fromCol toCol rm s hpre, projectPairs_cons,
    rowPair_of_ne fromCol toCol rm r hr1]
  simp only [Option.toList, List.cons_append, List.nil_append, Option.or]
  exact lookup_cons_of_prefix _ _ s hr2

theorem prefix_append_iff_of_length_le (x s v : List Char) (h : x.length ≤ s.length) :
    x <+: s ++ v ↔ x <+: s :=
  ⟨fun hx => List.prefix_of_prefix_length_le hx (List.prefix_append s v) h,
    fun hx => hx.trans (List.prefix_append s v)⟩

theorem not_prefix_of_head_ne (x : List Char) (c : Char) (t : List Char) (hx : x ≠ [])
    (h : x.head? ≠ some c) : ¬ x <+: c :: t := by
  intro hp
  cases x with
  | nil => exact hx rfl
  | cons a l =>
    obtain ⟨w, hw⟩ := hp
    simp only [List.cons_append, List.cons.injEq] at hw
    exact h (by rw [List.head?_cons, hw.1])

/-! ## A directive with modifier options -/

theorem hasOption_iff (flags : List TextReplaceOption) (x : TextReplaceOption) :
    hasOption flags x = true ↔ x ∈ flags := by
  induction flags with
  | nil => simp [hasOption]
  | cons f rest ih =>
    unfold hasOption
    by_cases h : f = x
    · simp [h]
    · rw [if_neg h, ih]
      simp [Ne.symm h]

theorem blockPairs_RemoveDakuten (slide : Nat) (rm : Bool) :
    blockPairs slide rm RemoveDakuten = [] := rfl

theorem blockPairs_RemoveNoMapping (slide : Nat) (rm : Bool) :
    blockPairs slide rm RemoveNoMapping = [] := rfl

theorem substitutionSet_modifierFlags (d : TextReplaceOption) (h1 : d ≠ RemoveDakuten)
    (h2 : d ≠ RemoveNoMapping) (dak rm : Bool) :
    substitutionSet (d :: modifierFlags dak rm)
      = blockPairs (if dak then 3 else 0) rm d := by
  have hd : hasOption (d :: modifierFlags dak rm) RemoveDakuten = dak := by
    have : hasOption (modifierFlags dak rm) RemoveDakuten = dak := by
      cases dak <;> cases rm <;> rfl
    conv => lhs; unfold hasOption
    rw [if_neg h1]
    exact this
  have hr : hasOption (d :: modifierFlags dak rm) RemoveNoMapping = rm := by
    have : hasOption (modifierFlags dak rm) RemoveNoMapping = rm := by
      cases dak <;> cases rm <;> rfl
    conv => lhs; unfold hasOption
    rw [if_neg h2]
    exact this
  unfold substitutionSet
  rw [hd, hr]
  have hm : (modifierFlags dak rm).flatMap
      (blockPairs (if dak = true then 3 else 0) (if rm = true then true else false)) = [] := by
    cases dak <;> cases rm <;> rfl
  rw [List.flatMap_cons, hm, List.append_nil]
  cases rm <;> rfl

theorem blockPairs_hankaku (d : TextReplaceOption) (k : Nat) (hd : (d, k) ∈ hankakuDirectives)
    (slide : Nat) (rm : Bool) :
    d ≠ RemoveDakuten ∧ d ≠ RemoveNoMapping
      ∧ ∃ rest, blockPairs slide rm d = projectPairs kanaMap.data 0 (k + slide) rm ++ rest := by
  simp only [hankakuDirectives, List.mem_cons, List.mem_singleton, List.not_mem_nil, or_false,
    Prod.mk.injEq] at hd
  rcases hd with ⟨rfl, rfl⟩ | ⟨rfl, rfl⟩ | ⟨rfl, rfl⟩ | ⟨rfl, rfl⟩ | ⟨rfl, rfl⟩
  · exact ⟨by decide, by decide, [], rfl⟩
  · exact ⟨by decide, by decide, projectPairs kanaMap.data 1 (2 + slide) rm ++ [], rfl⟩
  · exact ⟨by decide, by decide, projectPairs kanaMap.data 1 (2 + slide) rm
      ++ (projectPairs kanaMap.data 2 (2 + slide) rm ++ []), rfl⟩
  · exact ⟨by decide, by decide, projectPairs kanaMap.data 1 (1 + slide) rm
      ++ (projectPairs kanaMap.data 2 (1 + slide) rm ++ []), rfl⟩
  · exact ⟨by decide, by decide, projectPairs kanaMap.data 1 (0 + slide) rm
      ++ (projectPairs kanaMap.data 2 (0 + slide) rm ++ []), rfl⟩

/-! ## Voiced halfwidth katakana -/

theorem voiced_first_row : ∀ r ∈ kanaMap.data, isVoicedHankaku (r.getD 0 "") = true →
    kanaMap.data.find? (fun c => (c.getD 0 "").data.isPrefixOf (r.getD 0 "").data) = some r := by
  decide!

theorem kana_column0_length : ∀ c ∈ kanaMap.data, (c.getD 0 "").data.length ≤ 2 := by
  decide!

theorem isVoicedHankaku_length (s : String) (h : isVoicedHankaku s = true) :
    s.data.length = 2 := by
  unfold isVoicedHankaku at h
  split at h
  · next heq => rw [heq]; rfl
  · exact absurd h (by simp)

theorem lookup_voiced (r : List String) (hr : r ∈ kanaMap.data)
    (hv : isVoicedHankaku (r.getD 0 "") = true) (toCol : Nat) (rm : Bool)
    (rest : List (String × String)) (v : List Char) :
    lookup (projectPairs kanaMap.data 0 toCol rm ++ rest) ((r.getD 0 "").data ++ v) false
      = some (r.getD 0 "", projectedTarget r toCol rm) := by
  have hlen := isVoicedHankaku_length _ hv
  have hfind := voiced_first_row r hr hv
  rw [List.find?_eq_some] at hfind
  obtain ⟨_, pre, post, hd, hpre⟩ := hfind
  have hne : r.getD 0 "" ≠ "" := by
    intro h0
    rw [h0] at hlen
    exact absurd hlen (by decide)
  rw [lookup_append, lookup_projectPairs_row kanaMap.data 0 toCol rm _ pre post r hd ?_ hne
    (List.prefix_append _ _)]
  · rfl
  · intro c hc hp
    have hcm : c ∈ kanaMap.data := by rw [hd]; exact List.mem_append_left _ hc
    have hcl := kana_column0_length c hcm
    rw [prefix_append_iff_of_length_le _ _ _ (by omega)] at hp
    have := hpre c hc
    rw [List.isPrefixOf_iff_prefix.mpr hp] at this
    exact absurd this (by simp)

theorem scan_voiced (L : List (String × String)) (hne : NoEmptyOld L) (r : List String)
    (hr : r ∈ kanaMap.data) (hv : isVoicedHankaku (r.getD 0 "") = true) (toCol : Nat)
    (rm : Bool) (rest : List (String × String))
    (hL : L = projectPairs kanaMap.data 0 toCol rm ++ rest) (v : List Char) :
    scan L ((r.getD 0 "").data ++ v) = (projectedTarget r toCol rm).data ++ scan L v := by
  have hl := lookup_voiced r hr hv toCol rm rest v
  rw [← hL] at hl
  rw [scan_match L hne _ _ _ hl, List.drop_left]

/-! ## Kana without a hiragana form -/

theorem getD_mem_of_ne (l : List String) (i : Nat) (h : l.getD i "" ≠ "") : l.getD i "" ∈ l := by
  rcases Nat.lt_or_ge i l.length with hi | hi
  · have : l.getD i "" = l[i] := by
      simp [List.getD, List.getElem?_eq_getElem hi]
    rw [this]
    exact List.getElem_mem hi
  · exfalso
    apply h
    simp [List.getD, List.getElem?_eq_none hi]

theorem projectPairs_source_mem (data : List (List String)) (fromCol toCol : Nat) (rm : Bool)
    (p : String × String) (hp : p ∈ projectPairs data fromCol toCol rm) :
    ∃ cols ∈ data, p.1 ∈ cols := by
  obtain ⟨cols, hc, hrow⟩ := List.mem_filterMap.mp hp
  obtain ⟨h1, h2⟩ := rowPair_fst fromCol toCol rm cols p hrow
  refine ⟨cols, hc, ?_⟩
  rw [h1] at h2 ⊢
  exact getD_mem_of_ne cols fromCol h2

theorem blockPairs_KanaToHiragana (rm : Bool) :
    substitutionSet (KanaToHiragana :: modifierFlags false rm)
      = projectPairs kanaMap.data 0 2 rm
        ++ (projectPairs kanaMap.data 1 2 rm ++ (projectPairs kanaMap.data 2 2 rm ++ [])) := by
  rw [substitutionSet_modifierFlags KanaToHiragana (by decide) (by decide) false rm]
  rfl

theorem kana_no_head (rm : Bool) (c : Char)
    (hc : ∀ row ∈ kanaMap.data, ∀ e ∈ row, c ∉ e.data) :
    ∀ p ∈ substitutionSet (KanaToHiragana :: modifierFlags false rm),
      p.1.data.head? ≠ some c := by
  intro p hp
  rw [blockPairs_KanaToHiragana, List.mem_append, List.mem_append, List.mem_append] at hp
  apply head_ne_of_not_mem
  rcases hp with hp | hp | hp | hp
  · obtain ⟨cols, h1, h2⟩ := projectPairs_source_mem _ _ _ _ p hp
    exact hc cols h1 p.1 h2
  · obtain ⟨cols, h1, h2⟩ := projectPairs_source_mem _ _ _ _ p hp
    exact hc cols h1 p.1 h2
  · obtain ⟨cols, h1, h2⟩ := projectPairs_source_mem _ _ _ _ p hp
    exact hc cols h1 p.1 h2
  · exact absurd hp (List.not_mem_nil p)

theorem kana_column0_head (c : Char) (hc : c = 'ヷ' ∨ c = 'ヺ') :
    ∀ row ∈ kanaMap.data, (row.getD 0 "").data ≠ [] ∧ (row.getD 0 "").data.head? ≠ some c := by
  rcases hc with rfl | rfl <;> decide!

theorem kana_column1_length : ∀ c ∈ kanaMap.data, (c.getD 1 "").data.length ≤ 1 := by
  decide!

theorem kana_column1_first (r : List String)
    (hr : r = ["ﾜﾞ", "ヷ", "", "ﾜ", "ワ", "わ"] ∨ r = ["ｦﾞ", "ヺ", "", "ｦ", "ヲ", "を"]) :
    kanaMap.data.find? (fun c => (c.getD 1 "").data.isPrefixOf (r.getD 1 "").data) = some r := by
  rcases hr with rfl | rfl <;> decide!

theorem lookup_zenkaku_noHiragana (r : List String)
    (hr : r = ["ﾜﾞ", "ヷ", "", "ﾜ", "ワ", "わ"] ∨ r = ["ｦﾞ", "ヺ", "", "ｦ", "ヲ", "を"])
    (rm : Bool) (v : List Char) :
    lookup (substitutionSet (KanaToHiragana :: modifierFlags false rm))
        ((r.getD 1 "").data ++ v) false
      = some (r.getD 1 "", if rm then "" else r.getD 1 "") := by
  have hfind := kana_column1_first r hr
  rw [List.find?_eq_some] at hfind
  obtain ⟨_, pre, post, hd, hpre⟩ := hfind
  have hlen : (r.getD 1 "").data.length = 1 := by rcases hr with rfl | rfl <;> rfl
  have hne : r.getD 1 "" ≠ "" := by rcases hr with rfl | rfl <;> decide
  have hr2 : r.getD 2 "" = "" := by rcases hr with rfl | rfl <;> rfl
  obtain ⟨c, hc, hcs⟩ : ∃ c, (c = 'ヷ' ∨ c = 'ヺ') ∧ (r.getD 1 "").data = [c] := by
    rcases hr with rfl | rfl
    · exact ⟨_, Or.inl rfl, rfl⟩
    · exact ⟨_, Or.inr rfl, rfl⟩
  have h0 : lookup (projectPairs kanaMap.data 0 2 rm) ((r.getD 1 "").data ++ v) false = none := by
    apply lookup_projectPairs_none
    intro row hrow
    rw [hcs]
    have := kana_column0_head c hc row hrow
    exact not_prefix_of_head_ne _ c _ this.1 this.2
  have h1 := lookup_projectPairs_row kanaMap.data 1 2 rm ((r.getD 1 "").data ++ v) pre post r hd
    (by
      intro row hrow hp
      have hcm : row ∈ kanaMap.data := by rw [hd]; exact List.mem_append_left _ hrow
      have hcl := kana_column1_length row hcm
      rw [prefix_append_iff_of_length_le _ _ _ (by omega)] at hp
      have := hpre row hrow
      rw [List.isPrefixOf_iff_prefix.mpr hp] at this
      exact absurd this (by simp))
    hne (List.prefix_append _ _)
  rw [blockPairs_KanaToHiragana, lookup_append, h0, lookup_append, h1, hr2]
  rfl

theorem scan_noHiragana (s : String) (hs : s ∈ ["ﾜﾞ", "ｦﾞ", "ヷ", "ヺ"]) (rm : Bool)
    (v : List Char) :
    scan (substitutionSet (KanaToHiragana :: modifierFlags false rm)) (s.data ++ v)
      = (if rm then [] else s.data)
        ++ scan (substitutionSet (KanaToHiragana :: modifierFlags false rm)) v := by
  have hne := substitutionSet_noEmptyOld (KanaToHiragana :: modifierFlags false rm)
  simp only [List.mem_cons, List.mem_singleton, List.not_mem_nil, or_false] at hs
  rcases hs with rfl | rfl | rfl | rfl
  · have := scan_voiced _ hne ["ﾜﾞ", "ヷ", "", "ﾜ", "ワ", "わ"] (by decide!) (by decide) 2 rm _
      (blockPairs_KanaToHiragana rm) v
    rw [show (["ﾜﾞ", "ヷ", "", "ﾜ", "ワ", "わ"] : List String).getD 0 "" = "ﾜﾞ" from rfl] at this
    rw [this]
    cases rm <;> rfl
  · have := scan_voiced _ hne ["ｦﾞ", "ヺ", "", "ｦ", "ヲ", "を"] (by decide!) (by decide) 2 rm _
      (blockPairs_KanaToHiragana rm) v
    rw [show (["ｦﾞ", "ヺ", "", "ｦ", "ヲ", "を"] : List String).getD 0 "" = "ｦﾞ" from rfl] at this
    rw [this]
    cases rm <;> rfl
  · have hl := lookup_zenkaku_noHiragana ["ﾜﾞ", "ヷ", "", "ﾜ", "ワ", "わ"] (Or.inl rfl) rm v
    rw [show (["ﾜﾞ", "ヷ", "", "ﾜ", "ワ", "わ"] : List String).getD 1 "" = "ヷ" from rfl] at hl
    rw [scan_match _ hne _ _ _ hl, List.drop_left]
    cases rm <;> rfl
  · have hl := lookup_zenkaku_noHiragana ["ｦﾞ", "ヺ", "", "ｦ", "ヲ", "を"] (Or.inr rfl) rm v
    rw [show (["ｦﾞ", "ヺ", "", "ｦ", "ヲ", "を"] : List String).getD 1 "" = "ヺ" from rfl] at hl
    rw [scan_match _ hne _ _ _ hl, List.drop_left]
    cases rm <;> rfl

theorem normalize_noHiragana (s : String) (hs : s ∈ ["ﾜﾞ", "ｦﾞ", "ヷ", "ヺ"]) (rm : Bool)
    (u v : String)
    (hu : ∀ c ∈ u.data, ∀ row ∈ kanaMap.data, ∀ e ∈ row, c ∉ e.data)
    (hv : ∀ c ∈ v.data, ∀ row ∈ kanaMap.data, ∀ e ∈ row, c ∉ e.data) :
    normalize (KanaToHiragana :: modifierFlags false rm) (u ++ s ++ v)
      = some (u ++ (if rm then "" else s) ++ v) := by
  have hne := substitutionSet_noEmptyOld (KanaToHiragana :: modifierFlags false rm)
  rw [normalize_eq]
  congr 1
  apply String.ext
  simp only [String.data_append]
  rw [List.append_assoc, scan_append_of_no_head _ hne u.data _
      (fun c hc => kana_no_head rm c (hu c hc)),
    scan_noHiragana s hs rm v.data,
    scan_of_no_head _ hne v.data (fun c hc => kana_no_head rm c (hv c hc))]
  cases rm <;> simp

/-! ## Sets whose sources are single code points -/

theorem toNat_ofNat_of_valid (n : Nat) (h : n.isValidChar) : (Char.ofNat n).toNat = n := by
  unfold Char.ofNat
  rw [dif_pos h]
  rfl

theorem ofNat_eq_iff (n : Nat) (h : n.isValidChar) (c : Char) :
    Char.ofNat n = c ↔ n = c.toNat := by
  constructor
  · rintro rfl
    exact (toNat_ofNat_of_valid n h).symm
  · rintro rfl
    exact Char.ofNat_toNat c

theorem lookup_single (oldnew : List (String × String))
    (h1 : ∀ p ∈ oldnew, p.1.data.length = 1) (c : Char) (rest : List Char) :
    lookup oldnew (c :: rest) false = oldnew.find? (fun p => decide (p.1.data = [c])) := by
  unfold lookup
  induction oldnew with
  | nil => rfl
  | cons p l ih =>
    have hp := h1 p (List.mem_cons_self _ _)
    have hl := ih (fun q hq => h1 q (List.mem_cons_of_mem _ hq))
    obtain ⟨a, ha⟩ : ∃ a, p.1.data = [a] := List.length_eq_one.mp hp
    simp only [List.find?_cons, ha, Bool.false_and, Bool.not_false, Bool.and_true]
    have e : [a].isPrefixOf (c :: rest) = decide ([a] = [c]) := by
      by_cases hac : a = c
      · subst hac
        simp [List.isPrefixOf]
      · simp [List.isPrefixOf, hac]
    simp only [Bool.false_and, Bool.not_false, Bool.and_true] at hl
    rw [e, hl]

theorem scan_single (oldnew : List (String × String))
    (h1 : ∀ p ∈ oldnew, p.1.data.length = 1) (s : List Char) :
    scan oldnew s = s.flatMap (charImage oldnew) := by
  have hne : NoEmptyOld oldnew := by
    intro p hp h0
    have := h1 p hp
    rw [h0] at this
    exact absurd this (by decide)
  induction s with
  | nil => exact scan_nil oldnew hne
  | cons c rest ih =>
    have hl := lookup_single oldnew h1 c rest
    rw [List.flatMap_cons, ← ih]
    unfold charImage
    cases hf : oldnew.find? (fun p => decide (p.1.data = [c])) with
    | none =>
      rw [hf] at hl
      rw [scan_copy oldnew hne c rest hl]
      rfl
    | some p =>
      rw [hf] at hl
      have hp : p.1.data = [c] := by
        have := List.find?_some hf
        simpa using this
      rw [scan_match oldnew hne _ p.1 p.2 hl, hp]
      rfl

theorem scan_single_map (oldnew : List (String × String))
    (h1 : ∀ p ∈ oldnew, p.1.data.length = 1) (f : Char → Char)
    (hf : ∀ c, charImage oldnew c = [f c]) (s : List Char) :
    scan oldnew s = s.map f := by
  rw [scan_single oldnew h1]
  induction s with
  | nil => rfl
  | cons c rest ih => rw [List.flatMap_cons, hf, ih]; rfl

theorem charImage_append (l1 l2 : List (String × String)) (c : Char) :
    charImage (l1 ++ l2) c
      = match l1.find? (fun p => decide (p.1.data = [c])) with
        | some p => p.2.data
        | none => charImage l2 c := by
  unfold charImage
  rw [List.find?_append]
  cases l1.find? (fun p => decide (p.1.data = [c])) <;> rfl

theorem charImage_nil (c : Char) : charImage [] c = [c] := rfl

/-! ## Tables that are affine in the code point -/

theorem affinePairs_find (n fromBase toBase : Nat)
    (hv : ∀ i, i < n → (fromBase + i).isValidChar) (c : Char) :
    (affinePairs n fromBase toBase).find? (fun p => decide (p.1.data = [c]))
      = if fromBase ≤ c.toNat ∧ c.toNat < fromBase + n then
          some (codePoint c.toNat, codePoint (toBase + (c.toNat - fromBase)))
        else none := by
  unfold affinePairs
  induction n with
  | zero =>
    rw [if_neg (by omega)]
    rfl
  | succ n ih =>
    have ih := ih (fun i hi => hv i (by omega))
    rw [List.range_succ, List.map_append, List.find?_append, ih]
    by_cases h1 : fromBase ≤ c.toNat ∧ c.toNat < fromBase + n
    · rw [if_pos h1, if_pos (by omega)]
      rfl
    · rw [if_neg h1]
      by_cases h2 : c.toNat = fromBase + n
      · have hc : Char.ofNat (fromBase + n) = c :=
          (ofNat_eq_iff _ (hv n (by omega)) c).mpr h2.symm
        rw [if_pos (by omega)]
        simp only [List.map_cons, List.map_nil, List.find?_cons, codePoint, hc, decide_True,
          Option.none_or]
        have e : toBase + n = toBase + (c.toNat - fromBase) := by omega
        rw [← e, Char.ofNat_toNat]
      · have hc : ¬ Char.ofNat (fromBase + n) = c := fun hc =>
          h2 ((ofNat_eq_iff _ (hv n (by omega)) c).mp hc).symm
        rw [if_neg (by omega)]
        simp only [List.map_cons, List.map_nil, List.find?_cons, codePoint, List.cons.injEq,
          hc, and_true, decide_False, List.find?_nil, Option.none_or]

theorem affinePairs_single (n fromBase toBase : Nat) :
    ∀ p ∈ affinePairs n fromBase toBase, p.1.data.length = 1 := by
  intro p hp
  unfold affinePairs at hp
  obtain ⟨i, _, rfl⟩ := List.mem_map.mp hp
  rfl

theorem codePoint_ne_empty (n : Nat) : codePoint n ≠ "" := by
  intro h
  have := congrArg String.data h
  exact absurd this (by simp [codePoint])

theorem projectPairs_map_range (row : Nat → List String) (a b : Nat) (rm : Bool)
    (fa fb : Nat → Nat) (ha : ∀ i, (row i).getD a "" = codePoint (fa i))
    (hb : ∀ i, (row i).getD b "" = codePoint (fb i)) (l : List Nat) :
    projectPairs (l.map row) a b rm = l.map (fun i => (codePoint (fa i), codePoint (fb i))) := by
  induction l with
  | nil => rfl
  | cons i rest ih =>
    rw [List.map_cons, projectPairs_cons, ih,
      rowPair_of_ne a b rm (row i) (by rw [ha]; exact codePoint_ne_empty _), ha, hb,
      if_pos (codePoint_ne_empty _)]
    rfl

/-! ## Digits -/

theorem substitutionSet_single (d : TextReplaceOption) (h1 : d ≠ RemoveDakuten)
    (h2 : d ≠ RemoveNoMapping) : substitutionSet [d] = blockPairs 0 false d :=
  substitutionSet_modifierFlags d h1 h2 false false

theorem asciiNumberMap_affine :
    asciiNumberMap.data
      = (List.range 10).map (fun i => [codePoint (0x30 + i), codePoint (0xFF10 + i)]) := by
  decide!

theorem isValidChar_of_lt (n : Nat) (h : n < 0xD800) : n.isValidChar := Or.inl h

theorem isValidChar_of_gt (n : Nat) (h : 0xDFFF < n ∧ n < 0x110000) : n.isValidChar := Or.inr h

theorem substitutionSet_HankakuNumberToZenkaku :
    substitutionSet [HankakuNumberToZenkaku] = affinePairs 10 0x30 0xFF10 ++ [] := by
  rw [substitutionSet_single _ (by decide) (by decide)]
  show projectPairs asciiNumberMap.data 0 1 false ++ [] = _
  rw [asciiNumberMap_affine, projectPairs_map_range
    (fun i => [codePoint (0x30 + i), codePoint (0xFF10 + i)]) 0 1 false (fun i => 0x30 + i)
    (fun i => 0xFF10 + i) (fun _ => rfl) (fun _ => rfl)]
  rfl

theorem substitutionSet_ZenkakuNumberToHankaku :
    substitutionSet [ZenkakuNumberToHankaku] = affinePairs 10 0xFF10 0x30 ++ [] := by
  rw [substitutionSet_single _ (by decide) (by decide)]
  show projectPairs asciiNumberMap.data 1 0 false ++ [] = _
  rw [asciiNumberMap_affine, projectPairs_map_range
    (fun i => [codePoint (0x30 + i), codePoint (0xFF10 + i)]) 1 0 false (fun i => 0xFF10 + i)
    (fun i => 0x30 + i) (fun _ => rfl) (fun _ => rfl)]
  rfl

theorem single_append_nil (l : List (String × String))
    (h : ∀ p ∈ l, p.1.data.length = 1) : ∀ p ∈ l ++ [], p.1.data.length = 1 := by
  rw [List.append_nil]
  exact h

theorem charImage_HankakuNumberToZenkaku (c : Char) :
    charImage (affinePairs 10 0x30 0xFF10 ++ []) c = [digitToZenkaku c] := by
  rw [charImage_append, affinePairs_find 10 0x30 0xFF10
    (fun i hi => isValidChar_of_lt _ (by omega)) c]
  unfold digitToZenkaku
  by_cases h : 0x30 ≤ c.toNat ∧ c.toNat ≤ 0x39
  · rw [if_pos (by omega), if_pos h]
    show [Char.ofNat (0xFF10 + (c.toNat - 0x30))] = _
    rw [show 0xFF10 + (c.toNat - 0x30) = c.toNat + 0xFEE0 by omega]
  · rw [if_neg (by omega), if_neg h]
    rfl

theorem charImage_ZenkakuNumberToHankaku (c : Char) :
    charImage (affinePairs 10 0xFF10 0x30 ++ []) c = [digitToHankaku c] := by
  rw [charImage_append, affinePairs_find 10 0xFF10 0x30
    (fun i hi => isValidChar_of_gt _ (by omega)) c]
  unfold digitToHankaku
  by_cases h : 0xFF10 ≤ c.toNat ∧ c.toNat ≤ 0xFF19
  · rw [if_pos (by omega), if_pos h]
    show [Char.ofNat (0x30 + (c.toNat - 0xFF10))] = _
    rw [show 0x30 + (c.toNat - 0xFF10) = c.toNat - 0xFEE0 by omega]
  · rw [if_neg (by omega), if_neg h]
    rfl

theorem digits_sample :
    normalize [HankakuNumberToZenkaku] "123" = some "１２３"
      ∧ normalize [ZenkakuNumberToHankaku] "１２３" = some "123"
      ∧ ("0123456789".data.map digitToZenkaku) = "０１２３４５６７８９".data
      ∧ ("０１２３４５６７８９".data.map digitToHankaku) = "0123456789".data := by
  decide!

/-! ## Letters -/

theorem asciiAlphabetMap_affine :
    asciiAlphabetMap.data
      = (List.range 26).map (fun i =>
          [codePoint (0x61 + i), codePoint (0x41 + i), codePoint (0xFF41 + i),
            codePoint (0xFF21 + i)]) := by
  decide!

theorem alphabet_project (a b : Nat) (ha : a < 4) (hb : b < 4) (rm : Bool) :
    projectPairs asciiAlphabetMap.data a b rm = affinePairs 26 (letterBase a) (letterBase b) := by
  rw [asciiAlphabetMap_affine]
  have h := projectPairs_map_range
    (fun i => [codePoint (0x61 + i), codePoint (0x41 + i), codePoint (0xFF41 + i),
      codePoint (0xFF21 + i)]) a b rm
    (fun i => letterBase a + i) (fun i => letterBase b + i)
    (by intro i; interval_cases a <;> rfl) (by intro i; interval_cases b <;> rfl)
    (List.range 26)
  exact h

theorem letterBase_valid (k i : Nat) (hi : i < 26) : (letterBase k + i).isValidChar := by
  unfold letterBase
  rcases k with _ | _ | _ | _ | k
  · exact isValidChar_of_lt _ (by simp; omega)
  · exact isValidChar_of_lt _ (by simp; omega)
  · exact isValidChar_of_gt _ (by simp; omega)
  · exact isValidChar_of_gt _ (by simp; omega)
  · exact isValidChar_of_lt _ (by simp; omega)

theorem charImage_affine_append (n fromBase toBase : Nat)
    (hv : ∀ i, i < n → (fromBase + i).isValidChar) (rest : List (String × String))
    (c : Char) :
    charImage (affinePairs n fromBase toBase ++ rest) c
      = if fromBase ≤ c.toNat ∧ c.toNat < fromBase + n then
          [Char.ofNat (toBase + (c.toNat - fromBase))]
        else charImage rest c := by
  rw [charImage_append, affinePairs_find n fromBase toBase hv c]
  split_ifs <;> rfl

theorem single_append (l1 l2 : List (String × String))
    (h1 : ∀ p ∈ l1, p.1.data.length = 1) (h2 : ∀ p ∈ l2, p.1.data.length = 1) :
    ∀ p ∈ l1 ++ l2, p.1.data.length = 1 := by
  intro p hp
  rcases List.mem_append.mp hp with h | h
  · exact h1 p h
  · exact h2 p h

theorem single_nil : ∀ p ∈ ([] : List (String × String)), p.1.data.length = 1 :=
  fun p hp => absurd hp (List.not_mem_nil p)

theorem singleton_ofNat_sub (c : Char) (b : Nat) (h : b ≤ c.toNat) :
    [c] = [Char.ofNat (b + (c.toNat - b))] := by
  rw [Nat.add_sub_cancel' h, Char.ofNat_toNat]

theorem letterBase_0 : letterBase 0 = 0x61 := rfl

theorem letterBase_1 : letterBase 1 = 0x41 := rfl

theorem letterBase_2 : letterBase 2 = 0xFF41 := rfl

theorem letterBase_3 : letterBase 3 = 0xFF21 := rfl

theorem charImage_UpperZenkaku (c : Char) :
    charImage (affinePairs 26 (letterBase 0) (letterBase 3)
      ++ (affinePairs 26 (letterBase 1) (letterBase 3)
        ++ (affinePairs 26 (letterBase 2) (letterBase 3) ++ []))) c
      = [foldLetter 3 c] := by
  rw [charImage_affine_append _ _ _ (letterBase_valid 0),
    charImage_affine_append _ _ _ (letterBase_valid 1),
    charImage_affine_append _ _ _ (letterBase_valid 2), charImage_nil]
  simp only [letterBase_0, letterBase_1, letterBase_2, letterBase_3]
  unfold foldLetter letterIndex
  by_cases r0 : 0x61 ≤ c.toNat ∧ c.toNat ≤ 0x7A
  · rw [if_pos r0]
    simp only [letterBase_0, letterBase_1, letterBase_2, letterBase_3]
    split_ifs <;> first | omega | with_reducible rfl
  rw [if_neg r0]
  by_cases r1 : 0x41 ≤ c.toNat ∧ c.toNat ≤ 0x5A
  · rw [if_pos r1]
    simp only [letterBase_0, letterBase_1, letterBase_2, letterBase_3]
    split_ifs <;> first | omega | with_reducible rfl
  rw [if_neg r1]
  by_cases r2 : 0xFF41 ≤ c.toNat ∧ c.toNat ≤ 0xFF5A
  · rw [if_pos r2]
    simp only [letterBase_0, letterBase_1, letterBase_2, letterBase_3]
    split_ifs <;> first | omega | with_reducible rfl
  rw [if_neg r2]
  by_cases r3 : 0xFF21 ≤ c.toNat ∧ c.toNat ≤ 0xFF3A
  · rw [if_pos r3]
    simp only [letterBase_0, letterBase_1, letterBase_2, letterBase_3]
    split_ifs <;> first | omega | with_reducible rfl | exact singleton_ofNat_sub c _ r3.1
  rw [if_neg r3]
  simp only
  split_ifs <;> first | omega | with_reducible rfl

theorem charImage_UpperHankaku (c : Char) :
    charImage (affinePairs 26 (letterBase 0) (letterBase 1)
      ++ (affinePairs 26 (letterBase 2) (letterBase 1)
        ++ (affinePairs 26 (letterBase 3) (letterBase 1) ++ []))) c
      = [foldLetter 1 c] := by
  rw [charImage_affine_append _ _ _ (letterBase_valid 0),
    charImage_affine_append _ _ _ (letterBase_valid 2),
    charImage_affine_append _ _ _ (letterBase_valid 3), charImage_nil]
  simp only [letterBase_0, letterBase_1, letterBase_2, letterBase_3]
  unfold foldLetter letterIndex
  by_cases r0 : 0x61 ≤ c.toNat ∧ c.toNat ≤ 0x7A
  · rw [if_pos r0]
    simp only [letterBase_0, letterBase_1, letterBase_2, letterBase_3]
    split_ifs <;> first | omega | with_reducible rfl
  rw [if_neg r0]
  by_cases r1 : 0x41 ≤ c.toNat ∧ c.toNat ≤ 0x5A
  · rw [if_pos r1]
    simp only [letterBase_0, letterBase_1, letterBase_2, letterBase_3]
    split_ifs <;> first | omega | with_reducible rfl | exact singleton_ofNat_sub c _ r1.1
  rw [if_neg r1]
  by_cases r2 : 0xFF41 ≤ c.toNat ∧ c.toNat ≤ 0xFF5A
  · rw [if_pos r2]
    simp only [letterBase_0, letterBase_1, letterBase_2, letterBase_3]
    split_ifs <;> first | omega | with_reducible rfl
  rw [if_neg r2]
  by_cases r3 : 0xFF21 ≤ c.toNat ∧ c.toNat ≤ 0xFF3A
  · rw [if_pos r3]
    simp only [letterBase_0, letterBase_1, letterBase_2, letterBase_3]
    split_ifs <;> first | omega | with_reducible rfl
  rw [if_neg r3]
  simp only
  split_ifs <;> first | omega | with_reducible rfl

theorem charImage_LowerZenkaku (c : Char) :
    charImage (affinePairs 26 (letterBase 0) (letterBase 2)
      ++ (affinePairs 26 (letterBase 1) (letterBase 2)
        ++ (affinePairs 26 (letterBase 3) (letterBase 2) ++ []))) c
      = [foldLetter 2 c] := by
  rw [charImage_affine_append _ _ _ (letterBase_valid 0),
    charImage_affine_append _ _ _ (letterBase_valid 1),
    charImage_affine_append _ _ _ (letterBase_valid 3), charImage_nil]
  simp only [letterBase_0, letterBase_1, letterBase_2, letterBase_3]
  unfold foldLetter letterIndex
  by_cases r0 : 0x61 ≤ c.toNat ∧ c.toNat ≤ 0x7A
  · rw [if_pos r0]
    simp only [letterBase_0, letterBase_1, letterBase_2, letterBase_3]
    split_ifs <;> first | omega | with_reducible rfl
  rw [if_neg r0]
  by_cases r1 : 0x41 ≤ c.toNat ∧ c.toNat ≤ 0x5A
  · rw [if_pos r1]
    simp only [letterBase_0, letterBase_1, letterBase_2, letterBase_3]
    split_ifs <;> first | omega | with_reducible rfl
  rw [if_neg r1]
  by_cases r2 : 0xFF41 ≤ c.toNat ∧ c.toNat ≤ 0xFF5A
  · rw [if_pos r2]
    simp only [letterBase_0, letterBase_1, letterBase_2, letterBase_3]
    split_ifs <;> first | omega | with_reducible rfl | exact singleton_ofNat_sub c _ r2.1
  rw [if_neg r2]
  by_cases r3 : 0xFF21 ≤ c.toNat ∧ c.toNat ≤ 0xFF3A
  · rw [if_pos r3]
    simp only [letterBase_0, letterBase_1, letterBase_2, letterBase_3]
    split_ifs <;> first | omega | with_reducible rfl
  rw [if_neg r3]
  simp only
  split_ifs <;> first | omega | with_reducible rfl

theorem charImage_LowerHankaku (c : Char) :
    charImage (affinePairs 26 (letterBase 1) (letterBase 0)
      ++ (affinePairs 26 (letterBase 2) (letterBase 0)
        ++ (affinePairs 26 (letterBase 3) (letterBase 0) ++ []))) c
      = [foldLetter 0 c] := by
  rw [charImage_affine_append _ _ _ (letterBase_valid 1),
    charImage_affine_append _ _ _ (letterBase_valid 2),
    charImage_affine_append _ _ _ (letterBase_valid 3), charImage_nil]
  simp only [letterBase_0, letterBase_1, letterBase_2, letterBase_3]
  unfold foldLetter letterIndex
  by_cases r0 : 0x61 ≤ c.toNat ∧ c.toNat ≤ 0x7A
  · rw [if_pos r0]
    simp only [letterBase_0, letterBase_1, letterBase_2, letterBase_3]
    split_ifs <;> first | omega | with_reducible rfl | exact singleton_ofNat_sub c _ r0.1
  rw [if_neg r0]
  by_cases r1 : 0x41 ≤ c.toNat ∧ c.toNat ≤ 0x5A
  · rw [if_pos r1]
    simp only [letterBase_0, letterBase_1, letterBase_2, letterBase_3]
    split_ifs <;> first | omega | with_reducible rfl
  rw [if_neg r1]
  by_cases r2 : 0xFF41 ≤ c.toNat ∧ c.toNat ≤ 0xFF5A
  · rw [if_pos r2]
    simp only [letterBase_0, letterBase_1, letterBase_2, letterBase_3]
    split_ifs <;> first | omega | with_reducible rfl
  rw [if_neg r2]
  by_cases r3 : 0xFF21 ≤ c.toNat ∧ c.toNat ≤ 0xFF3A
  · rw [if_pos r3]
    simp only [letterBase_0, letterBase_1, letterBase_2, letterBase_3]
    split_ifs <;> first | omega | with_reducible rfl
  rw [if_neg r3]
  simp only
  split_ifs <;> first | omega | with_reducible rfl

theorem charImage_AlphabetToZenkaku (c : Char) :
    charImage (affinePairs 26 (letterBase 0) (letterBase 2)
      ++ (affinePairs 26 (letterBase 1) (letterBase 3) ++ [])) c
      = [letterToZenkaku c] := by
  rw [charImage_affine_append _ _ _ (letterBase_valid 0),
    charImage_affine_append _ _ _ (letterBase_valid 1), charImage_nil]
  simp only [letterBase_0, letterBase_1, letterBase_2, letterBase_3]
  unfold letterToZenkaku
  by_cases r0 : 0x61 ≤ c.toNat ∧ c.toNat ≤ 0x7A
  · rw [if_pos r0]
    split_ifs <;> first | omega | with_reducible rfl
  rw [if_neg r0]
  by_cases r1 : 0x41 ≤ c.toNat ∧ c.toNat ≤ 0x5A
  · rw [if_pos r1]
    split_ifs <;> first | omega | with_reducible rfl
  rw [if_neg r1]
  split_ifs <;> first | omega | with_reducible rfl

theorem charImage_AlphabetToHankaku (c : Char) :
    charImage (affinePairs 26 (letterBase 2) (letterBase 0)
      ++ (affinePairs 26 (letterBase 3) (letterBase 1) ++ [])) c
      = [letterToHankaku c] := by
  rw [charImage_affine_append _ _ _ (letterBase_valid 2),
    charImage_affine_append _ _ _ (letterBase_valid 3), charImage_nil]
  simp only [letterBase_0, letterBase_1, letterBase_2, letterBase_3]
  unfold letterToHankaku
  by_cases r0 : 0xFF41 ≤ c.toNat ∧ c.toNat ≤ 0xFF5A
  · rw [if_pos r0]
    split_ifs <;> first | omega | with_reducible rfl
  rw [if_neg r0]
  by_cases r1 : 0xFF21 ≤ c.toNat ∧ c.toNat ≤ 0xFF3A
  · rw [if_pos r1]
    split_ifs <;> first | omega | with_reducible rfl
  rw [if_neg r1]
  split_ifs <;> first | omega | with_reducible rfl

theorem substitutionSet_fold (d : TextReplaceOption) (k : Nat) (hd : (d, k) ∈ foldDirectives) :
    ∃ L, substitutionSet [d] = L ∧ (∀ p ∈ L, p.1.data.length = 1)
      ∧ ∀ c, charImage L c = [foldLetter k c] := by
  simp only [foldDirectives, List.mem_cons, List.mem_singleton, List.not_mem_nil, or_false,
    Prod.mk.injEq] at hd
  have hs := fun a b c t => single_append _ _ (affinePairs_single 26 a t)
    (single_append _ _ (affinePairs_single 26 b t)
      (single_append _ _ (affinePairs_single 26 c t) single_nil))
  rcases hd with ⟨rfl, rfl⟩ | ⟨rfl, rfl⟩ | ⟨rfl, rfl⟩ | ⟨rfl, rfl⟩
  · refine ⟨_, ?_, hs _ _ _ _, charImage_UpperZenkaku⟩
    rw [substitutionSet_single _ (by decide) (by decide)]
    show projectPairs asciiAlphabetMap.data 0 3 false
      ++ (projectPairs asciiAlphabetMap.data 1 3 false
        ++ (projectPairs asciiAlphabetMap.data 2 3 false ++ [])) = _
    rw [alphabet_project 0 3 (by omega) (by omega), alphabet_project 1 3 (by omega) (by omega),
      alphabet_project 2 3 (by omega) (by omega)]
  · refine ⟨_, ?_, hs _ _ _ _, charImage_UpperHankaku⟩
    rw [substitutionSet_single _ (by decide) (by decide)]
    show projectPairs asciiAlphabetMap.data 0 1 false
      ++ (projectPairs asciiAlphabetMap.data 2 1 false
        ++ (projectPairs asciiAlphabetMap.data 3 1 false ++ [])) = _
    rw [alphabet_project 0 1 (by omega) (by omega), alphabet_project 2 1 (by omega) (by omega),
      alphabet_project 3 1 (by omega) (by omega)]
  · refine ⟨_, ?_, hs _ _ _ _, charImage_LowerZenkaku⟩
    rw [substitutionSet_single _ (by decide) (by decide)]
    show projectPairs asciiAlphabetMap.data 0 2 false
      ++ (projectPairs asciiAlphabetMap.data 1 2 false
        ++ (projectPairs asciiAlphabetMap.data 3 2 false ++ [])) = _
    rw [alphabet_project 0 2 (by omega) (by omega), alphabet_project 1 2 (by omega) (by omega),
      alphabet_project 3 2 (by omega) (by omega)]
  · refine ⟨_, ?_, hs _ _ _ _, charImage_LowerHankaku⟩
    rw [substitutionSet_single _ (by decide) (by decide)]
    show projectPairs asciiAlphabetMap.data 1 0 false
      ++ (projectPairs asciiAlphabetMap.data 2 0 false
        ++ (projectPairs asciiAlphabetMap.data 3 0 false ++ [])) = _
    rw [alphabet_project 1 0 (by omega) (by omega), alphabet_project 2 0 (by omega) (by omega),
      alphabet_project 3 0 (by omega) (by omega)]

theorem substitutionSet_AlphabetToZenkaku :
    substitutionSet [AlphabetToZenkaku]
      = affinePairs 26 (letterBase 0) (letterBase 2)
        ++ (affinePairs 26 (letterBase 1) (letterBase 3) ++ []) := by
  rw [substitutionSet_single _ (by decide) (by decide)]
  show projectPairs asciiAlphabetMap.data 0 2 false
    ++ (projectPairs asciiAlphabetMap.data 1 3 false ++ []) = _
  rw [alphabet_project 0 2 (by omega) (by omega), alphabet_project 1 3 (by omega) (by omega)]

theorem substitutionSet_AlphabetToHankaku :
    substitutionSet [AlphabetToHankaku]
      = affinePairs 26 (letterBase 2) (letterBase 0)
        ++ (affinePairs 26 (letterBase 3) (letterBase 1) ++ []) := by
  rw [substitutionSet_single _ (by decide) (by decide)]
  show projectPairs asciiAlphabetMap.data 2 0 false
    ++ (projectPairs asciiAlphabetMap.data 3 1 false ++ []) = _
  rw [alphabet_project 2 0 (by omega) (by omega), alphabet_project 3 1 (by omega) (by omega)]

/-! ## The model on concrete inputs -/

/-- On an arbitrary set of pairs the two engines differ: the replacer takes the first
registered source, the reference engine the longest. -/
theorem argument_order_differs :
    (Replacer.mk [("a", "1"), ("ab", "2")]).Replace "ab" = "1b"
      ∧ referenceReplace [("a", "1"), ("ab", "2")] "ab" = "2" := by
  decide

/-- Cases of `TestNewTextNormalizer` with their expected outputs. -/
theorem repository_tests :
    normalize [HankakuNumberToZenkaku]
        "abcABC123!#$ａｂｃＡＢＣ１２３！＃＄ｱｲｳアイウあいうｶﾞガがﾊﾟパぱ' '　'"
      = some "abcABC１２３!#$ａｂｃＡＢＣ１２３！＃＄ｱｲｳアイウあいうｶﾞガがﾊﾟパぱ' '　'"
    ∧ normalize [ZenkakuNumberToHankaku]
        "abcABC123!#$ａｂｃＡＢＣ１２３！＃＄ｱｲｳアイウあいうｶﾞガがﾊﾟパぱ' '　'"
      = some "abcABC123!#$ａｂｃＡＢＣ123！＃＄ｱｲｳアイウあいうｶﾞガがﾊﾟパぱ' '　'"
    ∧ normalize [AlphabetToZenkaku]
        "abcABC123!#$ａｂｃＡＢＣ123！＃＄ｱｲｳアイウあいうｶﾞガがﾊﾟパぱ' '　'"
      = some "ａｂｃＡＢＣ123!#$ａｂｃＡＢＣ123！＃＄ｱｲｳアイウあいうｶﾞガがﾊﾟパぱ' '　'"
    ∧ normalize [ZenkakuSpaceToHankaku]
        "abcABC123!#$ａｂｃＡＢＣ123！＃＄ｱｲｳアイウあいうｶﾞガがﾊﾟパぱ' '　'"
      = some "abcABC123!#$ａｂｃＡＢＣ123！＃＄ｱｲｳアイウあいうｶﾞガがﾊﾟパぱ' ' '"
    ∧ normalize [KanaToZenkakuKatakana, RemoveDakuten] "ｱｲｳアイウあいうｶﾞガがﾊﾟパぱ"
      = some "アイウアイウアイウカカカハハハ" := by
  decide!

/-! ## Sets with the same matches -/

theorem scan_congr (l1 l2 : List (String × String)) (h1 : NoEmptyOld l1) (h2 : NoEmptyOld l2)
    (h : ∀ s, lookup l1 s false = lookup l2 s false) : ∀ s, scan l1 s = scan l2 s := by
  have key : ∀ n (s : List Char), s.length = n → scan l1 s = scan l2 s := by
    intro n
    induction n using Nat.strong_induction_on with
    | _ n ih =>
      intro s hn
      cases hl : lookup l1 s false with
      | none =>
        cases s with
        | nil => rw [scan_nil l1 h1, scan_nil l2 h2]
        | cons c rest =>
          rw [scan_copy l1 h1 c rest hl, scan_copy l2 h2 c rest (by rw [← h]; exact hl),
            ih rest.length (by rw [← hn]; simp) rest rfl]
      | some p =>
        obtain ⟨old, val⟩ := p
        obtain ⟨hmem, hpre⟩ := lookup_some l1 s _ hl
        have hlen := drop_length_lt old.data s (h1 _ hmem) hpre
        rw [scan_match l1 h1 s old val hl, scan_match l2 h2 s old val (by rw [← h]; exact hl),
          ih _ (by rw [← hn]; exact hlen) _ rfl]
  exact fun s => key s.length s rfl

theorem noEmptyOld_append (l1 l2 : List (String × String)) (h1 : NoEmptyOld l1)
    (h2 : NoEmptyOld l2) : NoEmptyOld (l1 ++ l2) := by
  intro p hp
  rcases List.mem_append.mp hp with h | h
  · exact h1 p h
  · exact h2 p h

theorem noEmptyOld_left (l1 l2 : List (String × String)) (h : NoEmptyOld (l1 ++ l2)) :
    NoEmptyOld l1 := fun p hp => h p (List.mem_append_left _ hp)

theorem noEmptyOld_right (l1 l2 : List (String × String)) (h : NoEmptyOld (l1 ++ l2)) :
    NoEmptyOld l2 := fun p hp => h p (List.mem_append_right _ hp)

theorem projectPairs_noEmptyOld (data : List (List String)) (a b : Nat) (rm : Bool) :
    NoEmptyOld (projectPairs data a b rm) :=
  fun p hp => data_ne_nil_of_ne _ (projectPairs_fst_ne data a b rm p hp)

theorem blockPairs_noEmptyOld (slide : Nat) (rm : Bool) (f : TextReplaceOption) :
    NoEmptyOld (blockPairs slide rm f) := by
  intro p hp
  unfold blockPairs at hp
  obtain ⟨t, _, hp⟩ := List.mem_flatMap.mp hp
  exact projectPairs_noEmptyOld _ _ _ _ p hp

theorem lookup_head (oldnew : List (String × String)) (hne : NoEmptyOld oldnew) (c : Char)
    (rest : List Char) (p : String × String) (h : lookup oldnew (c :: rest) false = some p) :
    p ∈ oldnew ∧ p.1.data.head? = some c := by
  obtain ⟨hmem, hpre⟩ := lookup_some oldnew _ p h
  refine ⟨hmem, ?_⟩
  cases hd : p.1.data with
  | nil => exact absurd hd (hne p hmem)
  | cons a l =>
    rw [hd] at hpre
    obtain ⟨t, ht⟩ := hpre
    simp only [List.cons_append, List.cons.injEq] at ht
    rw [List.head?_cons, ht.1]

/-- Two sets whose sources start with different code points can be registered in either
order. -/
theorem lookup_append_comm (l1 l2 : List (String × String)) (h1 : NoEmptyOld l1)
    (h2 : NoEmptyOld l2)
    (hd : ∀ p ∈ l1, ∀ q ∈ l2, p.1.data.head? ≠ q.1.data.head?) (s : List Char) :
    lookup (l1 ++ l2) s false = lookup (l2 ++ l1) s false := by
  rw [lookup_append, lookup_append]
  cases ha : lookup l1 s false with
  | none => cases lookup l2 s false <;> rfl
  | some p =>
    cases hb : lookup l2 s false with
    | none => rfl
    | some q =>
      exfalso
      cases s with
      | nil =>
        obtain ⟨hm, hp⟩ := lookup_some l1 _ p ha
        exact h1 p hm (List.prefix_nil.mp hp)
      | cons c rest =>
        obtain ⟨hm1, e1⟩ := lookup_head l1 h1 c rest p ha
        obtain ⟨hm2, e2⟩ := lookup_head l2 h2 c rest q hb
        exact hd p hm1 q hm2 (e1.trans e2.symm)

/-! ## The projections of a directive -/

theorem columnPairs_of_not_directive (slide : Nat) (f : Int)
    (h : f < 3 ∨ 22 < f) : columnPairs slide f = [] := by
  unfold columnPairs HankakuNumberToZenkaku ZenkakuNumberToHankaku HankakuKatakanaToZenkaku
    ZenkakuKatakanaToHankaku KatakanaToHiragana HiraganaToZenkakuKatakana
    HiraganaToHankakuKatakana KanaToHiragana KanaToZenkakuKatakana KanaToHankakuKatakana
    AlphabetToUpperZenkaku AlphabetToUpperHankaku AlphabetToLowerZenkaku AlphabetToLowerHankaku
    AlphabetToZenkaku AlphabetToHankaku HankakuSignToZenkaku ZenkakuSignToHankaku
    HankakuSpaceToZenkaku ZenkakuSpaceToHankaku
  rw [if_neg (show ¬ f = (3 : Int) by omega),
    if_neg (show ¬ f = (4 : Int) by omega),
    if_neg (show ¬ f = (5 : Int) by omega),
    if_neg (show ¬ f = (6 : Int) by omega),
    if_neg (show ¬ f = (7 : Int) by omega),
    if_neg (show ¬ f = (8 : Int) by omega),
    if_neg (show ¬ f = (9 : Int) by omega),
    if_neg (show ¬ f = (12 : Int) by omega),
    if_neg (show ¬ f = (11 : Int) by omega),
    if_neg (show ¬ f = (10 : Int) by omega),
    if_neg (show ¬ f = (13 : Int) by omega),
    if_neg (show ¬ f = (14 : Int) by omega),
    if_neg (show ¬ f = (15 : Int) by omega),
    if_neg (show ¬ f = (16 : Int) by omega),
    if_neg (show ¬ f = (17 : Int) by omega),
    if_neg (show ¬ f = (18 : Int) by omega),
    if_neg (show ¬ f = (19 : Int) by omega),
    if_neg (show ¬ f = (20 : Int) by omega),
    if_neg (show ¬ f = (21 : Int) by omega),
    if_neg (show ¬ f = (22 : Int) by omega)]

theorem columnPairs_mem (slide : Nat) (f : Int) :
    ∀ c ∈ columnPairs slide f, ∃ t, tableOf f = some t ∧ c.1 = tableById t
      ∧ c.2.1 < sourceColumns t
      ∧ (c.2.2 < sourceColumns t ∨ (t = 1 ∧ c.2.2 < 3 + slide)) := by
  by_cases hf : f < 3 ∨ 22 < f
  · rw [columnPairs_of_not_directive slide f hf]
    exact fun c hc => absurd hc (List.not_mem_nil c)
  · have h1 : 3 ≤ f := by omega
    have h2 : f ≤ 22 := by omega
    clear hf
    interval_cases f
    all_goals
      intro c hc
      simp only [columnPairs, HankakuNumberToZenkaku, ZenkakuNumberToHankaku, HankakuKatakanaToZenkaku,
    ZenkakuKatakanaToHankaku, KatakanaToHiragana, HiraganaToZenkakuKatakana,
    HiraganaToHankakuKatakana, KanaToHiragana, KanaToZenkakuKatakana, KanaToHankakuKatakana,
    AlphabetToUpperZenkaku, AlphabetToUpperHankaku, AlphabetToLowerZenkaku, AlphabetToLowerHankaku,
    AlphabetToZenkaku, AlphabetToHankaku, HankakuSignToZenkaku, ZenkakuSignToHankaku,
    HankakuSpaceToZenkaku, ZenkakuSpaceToHankaku, Int.reduceEq, if_true, if_false, reduceIte,
    List.mem_cons, List.mem_singleton, List.not_mem_nil, or_false] at hc
      rcases hc with rfl | rfl | rfl
      all_goals
        refine ⟨_, rfl, rfl, by dsimp only; decide, ?_⟩
        first
          | exact Or.inl (by dsimp only; decide)
          | exact Or.inr ⟨rfl, by dsimp only; omega⟩

theorem blockPairs_mem (slide : Nat) (rm : Bool) (f : TextReplaceOption) (p : String × String)
    (hp : p ∈ blockPairs slide rm f) :
    ∃ c ∈ columnPairs slide f, p ∈ projectPairs c.1.data c.2.1 c.2.2 rm := by
  unfold blockPairs at hp
  exact List.mem_flatMap.mp hp

theorem substitutionSet_mem (flags : List TextReplaceOption) (p : String × String)
    (hp : p ∈ substitutionSet flags) :
    ∃ f ∈ flags, p ∈ blockPairs (if hasOption flags RemoveDakuten then 3 else 0)
      (if hasOption flags RemoveNoMapping then true else false) f := by
  unfold substitutionSet at hp
  exact List.mem_flatMap.mp hp

theorem tableById_width (t : Nat) : ∀ cols ∈ (tableById t).data, cols.length = tableWidth t := by
  match t with
  | 0 => exact asciiNumberMap_width
  | 1 => exact kanaMap_width
  | 2 => exact asciiAlphabetMap_width
  | 3 => exact asciiSignMap_width
  | 4 => exact spaceMap_width
  | _ + 5 => exact fun cols hc => absurd hc (List.not_mem_nil cols)

theorem sourceColumns_le (t : Nat) : sourceColumns t ≤ tableWidth t := by
  match t with
  | 0 => decide
  | 1 => decide
  | 2 => decide
  | 3 => decide
  | 4 => decide
  | _ + 5 => exact Nat.le_refl 0

theorem columnPairs_in_range (slide : Nat) (hs : slide = 0 ∨ slide = 3) (f : TextReplaceOption) :
    ∀ c ∈ columnPairs slide f, ∀ cols ∈ c.1.data, c.2.1 < cols.length ∧ c.2.2 < cols.length := by
  intro c hc cols hcols
  obtain ⟨t, -, h1, h2, h3⟩ := columnPairs_mem slide f c hc
  rw [h1] at hcols
  rw [tableById_width t cols hcols]
  have hle := sourceColumns_le t
  refine ⟨by omega, ?_⟩
  rcases h3 with h3 | ⟨rfl, h3⟩
  · omega
  · have : tableWidth 1 = 6 := rfl
    omega

theorem blockPairs_of_not_directive (slide : Nat) (rm : Bool) (f : Int) (h : f < 3 ∨ 22 < f) :
    blockPairs slide rm f = [] := by
  unfold blockPairs
  rw [columnPairs_of_not_directive slide f h]
  rfl
/-! ## Modifier options -/

theorem flatMap_filter_ne (slide : Nat) (rm : Bool) (m : TextReplaceOption)
    (hm : blockPairs slide rm m = []) (L : List TextReplaceOption) :
    L.flatMap (blockPairs slide rm)
      = (L.filter (fun x => decide (x ≠ m))).flatMap (blockPairs slide rm) := by
  induction L with
  | nil => rfl
  | cons a rest ih =>
    by_cases ha : a = m
    · rw [List.filter_cons_of_neg (by simpa using ha), List.flatMap_cons, ha, hm, ih]
      rfl
    · rw [List.filter_cons_of_pos (by simpa using ha), List.flatMap_cons, List.flatMap_cons, ih]

theorem mem_of_filter_ne (m x : TextReplaceOption) (L L2 : List TextReplaceOption)
    (hm : m ∈ L2)
    (hf : L2.filter (fun x => decide (x ≠ m)) = L.filter (fun x => decide (x ≠ m))) :
    x ∈ L2 ↔ x ∈ L ++ [m] := by
  by_cases hx : x = m
  · subst hx
    simp [hm]
  · have h1 : x ∈ L2 ↔ x ∈ L2.filter (fun x => decide (x ≠ m)) := by
      simp [List.mem_filter, hx]
    have h2 : x ∈ L ++ [m] ↔ x ∈ L.filter (fun x => decide (x ≠ m)) := by
      simp [List.mem_filter, hx]
    rw [h1, h2, hf]

theorem hasOption_congr (L L2 : List TextReplaceOption) (x : TextReplaceOption)
    (h : x ∈ L ↔ x ∈ L2) : hasOption L x = hasOption L2 x := by
  rw [Bool.eq_iff_iff, hasOption_iff, hasOption_iff]
  exact h

theorem blockPairs_modifier (slide : Nat) (rm : Bool) (m : TextReplaceOption)
    (hm : m = RemoveDakuten ∨ m = RemoveNoMapping) : blockPairs slide rm m = [] := by
  rcases hm with rfl | rfl
  · rfl
  · rfl

theorem substitutionSet_of_filter (m : TextReplaceOption)
    (hm : m = RemoveDakuten ∨ m = RemoveNoMapping) (L L2 : List TextReplaceOption)
    (h1 : m ∈ L2)
    (h2 : L2.filter (fun x => decide (x ≠ m)) = L.filter (fun x => decide (x ≠ m))) :
    substitutionSet L2 = substitutionSet (L ++ [m]) := by
  unfold substitutionSet
  rw [hasOption_congr L2 (L ++ [m]) RemoveDakuten (mem_of_filter_ne m _ L L2 h1 h2),
    hasOption_congr L2 (L ++ [m]) RemoveNoMapping (mem_of_filter_ne m _ L L2 h1 h2),
    flatMap_filter_ne _ _ m (blockPairs_modifier _ _ m hm) L2,
    flatMap_filter_ne _ _ m (blockPairs_modifier _ _ m hm) (L ++ [m]), h2]
  congr 1
  simp [List.filter_append]

theorem columnPairs_slide (d : Int) (hd : d ∉ kanaDirectives) (s1 s2 : Nat) :
    columnPairs s1 d = columnPairs s2 d := by
  by_cases hf : d < 3 ∨ 22 < d
  · rw [columnPairs_of_not_directive s1 d hf, columnPairs_of_not_directive s2 d hf]
  · have h1 : 3 ≤ d := by omega
    have h2 : d ≤ 22 := by omega
    clear hf
    interval_cases d
    all_goals first | rfl | exact absurd (by decide) hd

theorem blockPairs_slide (d : TextReplaceOption) (hd : d ∉ kanaDirectives) (s1 s2 : Nat)
    (rm : Bool) : blockPairs s1 rm d = blockPairs s2 rm d := by
  unfold blockPairs
  rw [columnPairs_slide d hd s1 s2]

theorem flatMap_slide (L : List TextReplaceOption) (h : ∀ d ∈ L, d ∉ kanaDirectives)
    (s1 s2 : Nat) (rm : Bool) :
    L.flatMap (blockPairs s1 rm) = L.flatMap (blockPairs s2 rm) := by
  induction L with
  | nil => rfl
  | cons a rest ih =>
    rw [List.flatMap_cons, List.flatMap_cons, blockPairs_slide a (h a (List.mem_cons_self _ _)) s1 s2,
      ih (fun d hd => h d (List.mem_cons_of_mem _ hd))]

theorem substitutionSet_removeDakuten (L1 L2 : List TextReplaceOption)
    (h : ∀ d ∈ L1 ++ L2, d ∉ kanaDirectives) :
    substitutionSet (L1 ++ RemoveDakuten :: L2) = substitutionSet (L1 ++ L2) := by
  have e : hasOption (L1 ++ RemoveDakuten :: L2) RemoveNoMapping
      = hasOption (L1 ++ L2) RemoveNoMapping := by
    apply hasOption_congr
    have : RemoveNoMapping ≠ RemoveDakuten := by decide
    simp [this]
  have e2 : (L1 ++ RemoveDakuten :: L2).filter (fun x => decide (x ≠ RemoveDakuten))
      = (L1 ++ L2).filter (fun x => decide (x ≠ RemoveDakuten)) := by
    simp [List.filter_append]
  unfold substitutionSet
  rw [e, flatMap_filter_ne _ _ RemoveDakuten (blockPairs_RemoveDakuten _ _)
      (L1 ++ RemoveDakuten :: L2), e2,
    ← flatMap_filter_ne _ _ RemoveDakuten (blockPairs_RemoveDakuten _ _) (L1 ++ L2)]
  exact flatMap_slide _ h _ _ _
/-! ## Option lists with the modifiers at the end -/

theorem hasOption_append_modifierFlags (L : List TextReplaceOption)
    (h1 : RemoveDakuten ∉ L) (h2 : RemoveNoMapping ∉ L) (dak rm : Bool) :
    hasOption (L ++ modifierFlags dak rm) RemoveDakuten = dak
      ∧ hasOption (L ++ modifierFlags dak rm) RemoveNoMapping = rm := by
  have a : RemoveDakuten ≠ RemoveNoMapping := by decide
  have b : RemoveNoMapping ≠ RemoveDakuten := by decide
  constructor
  · rw [Bool.eq_iff_iff, hasOption_iff, List.mem_append]
    cases dak <;> cases rm <;> simp [modifierFlags, h1, a]
  · rw [Bool.eq_iff_iff, hasOption_iff, List.mem_append]
    cases dak <;> cases rm <;> simp [modifierFlags, h2, b]

theorem substitutionSet_append_modifierFlags (L : List TextReplaceOption)
    (h1 : RemoveDakuten ∉ L) (h2 : RemoveNoMapping ∉ L) (dak rm : Bool) :
    substitutionSet (L ++ modifierFlags dak rm)
      = L.flatMap (blockPairs (if dak then 3 else 0) rm) := by
  obtain ⟨e1, e2⟩ := hasOption_append_modifierFlags L h1 h2 dak rm
  unfold substitutionSet
  rw [e1, e2, List.flatMap_append]
  have e3 : (modifierFlags dak rm).flatMap
      (blockPairs (if dak = true then 3 else 0) (if rm = true then true else false)) = [] := by
    cases dak <;> cases rm <;> rfl
  rw [e3, List.append_nil]
  cases rm <;> rfl

theorem substitutionSet_plain (L : List TextReplaceOption)
    (h1 : RemoveDakuten ∉ L) (h2 : RemoveNoMapping ∉ L) :
    substitutionSet L = L.flatMap (blockPairs 0 false) := by
  have h := substitutionSet_append_modifierFlags L h1 h2 false false
  rw [show L ++ modifierFlags false false = L from List.append_nil L] at h
  exact h

/-! ## Both digit directives -/

theorem substitutionSet_digits :
    substitutionSet [HankakuNumberToZenkaku, ZenkakuNumberToHankaku]
      = affinePairs 10 0x30 0xFF10 ++ (affinePairs 10 0xFF10 0x30 ++ []) := by
  rw [substitutionSet_plain _ (by decide) (by decide)]
  show projectPairs asciiNumberMap.data 0 1 false ++ [] ++
    (projectPairs asciiNumberMap.data 1 0 false ++ [] ++ []) = _
  rw [asciiNumberMap_affine, projectPairs_map_range
    (fun i => [codePoint (0x30 + i), codePoint (0xFF10 + i)]) 0 1 false (fun i => 0x30 + i)
    (fun i => 0xFF10 + i) (fun _ => rfl) (fun _ => rfl),
    projectPairs_map_range
    (fun i => [codePoint (0x30 + i), codePoint (0xFF10 + i)]) 1 0 false (fun i => 0xFF10 + i)
    (fun i => 0x30 + i) (fun _ => rfl) (fun _ => rfl)]
  simp only [List.append_nil]
  rfl

theorem charImage_digits (c : Char) :
    charImage (affinePairs 10 0x30 0xFF10 ++ (affinePairs 10 0xFF10 0x30 ++ [])) c
      = [digitSwap c] := by
  rw [charImage_affine_append 10 0x30 0xFF10 (fun i hi => isValidChar_of_lt _ (by omega)),
    charImage_affine_append 10 0xFF10 0x30 (fun i hi => isValidChar_of_gt _ (by omega))]
  unfold digitSwap
  by_cases h : 0x30 ≤ c.toNat ∧ c.toNat ≤ 0x39
  · rw [if_pos (by omega), if_pos h, show 0xFF10 + (c.toNat - 0x30) = c.toNat + 0xFEE0 by omega]
  · rw [if_neg (by omega), if_neg h]
    by_cases h2 : 0xFF10 ≤ c.toNat ∧ c.toNat ≤ 0xFF19
    · rw [if_pos (by omega), if_pos h2,
        show 0x30 + (c.toNat - 0xFF10) = c.toNat - 0xFEE0 by omega]
    · rw [if_neg (by omega), if_neg h2]
      rfl
/-! ## Applying an engine twice -/

theorem no_head_of_lookup_none (oldnew : List (String × String)) (hc : HeadClosed oldnew)
    (c : Char) (rest : List Char) (h : lookup oldnew (c :: rest) false = none) :
    ∀ p ∈ oldnew, p.1.data.head? ≠ some c := by
  intro p hp hh
  obtain ⟨q, hq, hq2⟩ := hc p hp
  apply lookup_none oldnew _ h q hq
  rw [hq2]
  cases hd : p.1.data with
  | nil => rw [hd] at hh; cases hh
  | cons a t =>
    rw [hd] at hh
    cases hh
    exact ⟨rest, rfl⟩

theorem scan_scan_append (oldnew : List (String × String)) (hne : NoEmptyOld oldnew)
    (hc : HeadClosed oldnew)
    (hst : ∀ p ∈ oldnew, ∀ v, scan oldnew (p.2.data ++ v) = p.2.data ++ scan oldnew v) :
    ∀ s v, scan oldnew (scan oldnew s ++ v) = scan oldnew s ++ scan oldnew v := by
  have key : ∀ n (s : List Char), s.length = n →
      ∀ v, scan oldnew (scan oldnew s ++ v) = scan oldnew s ++ scan oldnew v := by
    intro n
    induction n using Nat.strong_induction_on with
    | _ n ih =>
      intro s hn v
      cases hl : lookup oldnew s false with
      | none =>
        cases s with
        | nil => rw [scan_nil oldnew hne]; rfl
        | cons c rest =>
          have nh := no_head_of_lookup_none oldnew hc c rest hl
          rw [scan_copy oldnew hne c rest hl]
          have e := scan_append_of_no_head oldnew hne [c] (scan oldnew rest ++ v) (by
            intro d hd
            rw [List.mem_singleton] at hd
            rw [hd]
            exact nh)
          rw [show (c :: scan oldnew rest) ++ v = [c] ++ (scan oldnew rest ++ v) from rfl, e,
            ih rest.length (by rw [← hn]; simp) rest rfl v]
          rfl
      | some p =>
        obtain ⟨old, val⟩ := p
        obtain ⟨hmem, hpre⟩ := lookup_some oldnew s _ hl
        have hlen := drop_length_lt old.data s (hne _ hmem) hpre
        rw [scan_match oldnew hne s old val hl, List.append_assoc, hst _ hmem,
          ih _ (by rw [← hn]; exact hlen) _ rfl v, List.append_assoc]
  exact fun s => key s.length s rfl

theorem scan_idem (oldnew : List (String × String)) (hne : NoEmptyOld oldnew)
    (hc : HeadClosed oldnew)
    (hst : ∀ p ∈ oldnew, ∀ v, scan oldnew (p.2.data ++ v) = p.2.data ++ scan oldnew v)
    (s : List Char) : scan oldnew (scan oldnew s) = scan oldnew s := by
  have h := scan_scan_append oldnew hne hc hst s []
  rw [List.append_nil, scan_nil oldnew hne, List.append_nil] at h
  exact h

theorem scan_idem_of_targets (oldnew : List (String × String)) (hne : NoEmptyOld oldnew)
    (hc : HeadClosed oldnew)
    (ht : ∀ p ∈ oldnew, ∀ q ∈ oldnew, ∀ c ∈ p.2.data, q.1.data.head? ≠ some c)
    (s : List Char) : scan oldnew (scan oldnew s) = scan oldnew s :=
  scan_idem oldnew hne hc
    (fun p hp v => scan_append_of_no_head oldnew hne p.2.data v
      (fun c hcm q hq => ht p hp q hq c hcm)) s

/-! ## A block of identity pairs -/

theorem scan_drop_identity (A I B : List (String × String)) (hA : NoEmptyOld A)
    (hI : NoEmptyOld I) (hB : NoEmptyOld B) (hid : ∀ q ∈ I, q.2 = q.1)
    (hnh : ∀ q ∈ I, ∀ c ∈ q.1.data, ∀ p ∈ A ++ B, p.1.data.head? ≠ some c) :
    ∀ s, scan (A ++ (I ++ B)) s = scan (A ++ B) s := by
  have h1 : NoEmptyOld (A ++ (I ++ B)) := noEmptyOld_append _ _ hA (noEmptyOld_append _ _ hI hB)
  have h2 : NoEmptyOld (A ++ B) := noEmptyOld_append _ _ hA hB
  have key : ∀ n (s : List Char), s.length = n → scan (A ++ (I ++ B)) s = scan (A ++ B) s := by
    intro n
    induction n using Nat.strong_induction_on with
    | _ n ih =>
      intro s hn
      have agree : lookup (A ++ (I ++ B)) s false = lookup (A ++ B) s false →
          scan (A ++ (I ++ B)) s = scan (A ++ B) s := by
        intro h
        cases hl : lookup (A ++ (I ++ B)) s false with
        | none =>
          cases s with
          | nil => rw [scan_nil _ h1, scan_nil _ h2]
          | cons c rest =>
            rw [scan_copy _ h1 c rest hl, scan_copy _ h2 c rest (by rw [← h]; exact hl),
              ih rest.length (by rw [← hn]; simp) rest rfl]
        | some p =>
          obtain ⟨old, val⟩ := p
          obtain ⟨hmem, hpre⟩ := lookup_some _ s _ hl
          have hlen := drop_length_lt old.data s (h1 _ hmem) hpre
          rw [scan_match _ h1 s old val hl, scan_match _ h2 s old val (by rw [← h]; exact hl),
            ih _ (by rw [← hn]; exact hlen) _ rfl]
      cases hla : lookup A s false with
      | some p =>
        apply agree
        rw [lookup_append A (I ++ B), lookup_append A B, hla]
        rfl
      | none =>
        cases hli : lookup I s false with
        | none =>
          apply agree
          rw [lookup_append A (I ++ B), lookup_append I B, lookup_append A B, hla, hli]
          rfl
        | some q =>
          obtain ⟨x, y⟩ := q
          obtain ⟨hmem, hpre⟩ := lookup_some _ s _ hli
          have hy : y = x := hid _ hmem
          subst hy
          obtain ⟨rest, hrest⟩ := hpre
          have hl : lookup (A ++ (I ++ B)) s false = some (y, y) := by
            rw [lookup_append A (I ++ B), lookup_append I B, hla, hli]
            rfl
          have hxne : y.data ≠ [] := hI _ hmem
          have hlt : rest.length < n := by
            have h3 := List.length_pos.mpr hxne
            have h4 : s.length = y.data.length + rest.length := by
              rw [← hrest, List.length_append]
            omega
          rw [scan_match _ h1 s y y hl, ← hrest, List.drop_left,
            scan_append_of_no_head _ h2 y.data rest (fun c hc p hp => hnh _ hmem c hc p hp),
            ih rest.length hlt rest rfl]
  exact fun s => key s.length s rfl

theorem scan_drop_identity_right (A I : List (String × String)) (hA : NoEmptyOld A)
    (hI : NoEmptyOld I) (hid : ∀ q ∈ I, q.2 = q.1)
    (hnh : ∀ q ∈ I, ∀ c ∈ q.1.data, ∀ p ∈ A, p.1.data.head? ≠ some c) :
    ∀ s, scan (A ++ I) s = scan A s := by
  intro s
  have h := scan_drop_identity A I [] hA hI (fun p hp => absurd hp (List.not_mem_nil p)) hid
    (by rw [List.append_nil]; exact hnh) s
  rw [List.append_nil, List.append_nil] at h
  exact h
/-! ## One engine after another -/

theorem find_congr_mem {α : Type} (l : List α) (f g : α → Bool) (h : ∀ a ∈ l, f a = g a) :
    l.find? f = l.find? g := by
  induction l with
  | nil => rfl
  | cons a rest ih =>
    rw [List.find?_cons, List.find?_cons, h a (List.mem_cons_self _ _),
      ih (fun b hb => h b (List.mem_cons_of_mem _ hb))]

theorem source_single (A : List (String × String)) (h1 : ∀ p ∈ A, p.1.data.length = 1)
    (c : Char) (rest : List Char) (p : String × String)
    (h : lookup A (c :: rest) false = some p) : p ∈ A ∧ p.1.data = [c] := by
  obtain ⟨hmem, hpre⟩ := lookup_some A _ p h
  refine ⟨hmem, ?_⟩
  have hl := h1 p hmem
  obtain ⟨t, ht⟩ := hpre
  cases hd : p.1.data with
  | nil => rw [hd] at hl; cases hl
  | cons a u =>
    rw [hd] at hl ht
    have hu : u = [] := List.length_eq_zero.mp (by simpa using hl)
    subst hu
    cases ht
    rfl

theorem prefix_scan_iff (A : List (String × String)) (hA : NoEmptyOld A)
    (h1 : ∀ p ∈ A, p.1.data.length = 1) (ht : ∀ p ∈ A, p.2.data ≠ []) :
    ∀ (x : List Char), (∀ c ∈ x, ∀ p ∈ A, c ∉ p.1.data ∧ c ∉ p.2.data) →
      ∀ r, x <+: scan A r ↔ x <+: r := by
  intro x
  induction x with
  | nil => exact fun _ r => ⟨fun _ => List.nil_prefix, fun _ => List.nil_prefix⟩
  | cons d x2 ih =>
    intro hx r
    cases r with
    | nil => rw [scan_nil A hA]
    | cons c r2 =>
      cases hl : lookup A (c :: r2) false with
      | none =>
        rw [scan_copy A hA c r2 hl, List.cons_prefix_cons, List.cons_prefix_cons,
          ih (fun e he => hx e (List.mem_cons_of_mem _ he)) r2]
      | some p =>
        obtain ⟨old, val⟩ := p
        obtain ⟨hmem, hsrc⟩ := source_single A h1 c r2 _ hl
        have hd := hx d (List.mem_cons_self _ _) _ hmem
        rw [scan_match A hA _ old val hl]
        constructor
        · intro hp
          exfalso
          cases hv : val.data with
          | nil => exact ht _ hmem hv
          | cons e vs =>
            rw [hv] at hp
            have := (List.cons_prefix_cons.mp hp).1
            apply hd.2
            show d ∈ val.data
            rw [hv, this]
            exact List.mem_cons_self _ _
        · intro hp
          exfalso
          have := (List.cons_prefix_cons.mp hp).1
          apply hd.1
          show d ∈ old.data
          rw [hsrc, this]
          exact List.mem_cons_self _ _

theorem lookup_scan (A B : List (String × String)) (hA : NoEmptyOld A)
    (h1 : ∀ p ∈ A, p.1.data.length = 1) (ht : ∀ p ∈ A, p.2.data ≠ [])
    (hsep : ∀ q ∈ B, ∀ c ∈ q.1.data, ∀ p ∈ A, c ∉ p.1.data ∧ c ∉ p.2.data) (s : List Char) :
    lookup B (scan A s) false = lookup B s false := by
  unfold lookup
  apply find_congr_mem
  intro q hq
  have h := prefix_scan_iff A hA h1 ht q.1.data (hsep q hq) s
  rw [Bool.eq_iff_iff]
  simp only [Bool.false_and, Bool.not_false, Bool.and_true, List.isPrefixOf_iff_prefix]
  exact h

theorem scan_append_comp (A B : List (String × String)) (hA : NoEmptyOld A)
    (hB : NoEmptyOld B) (h1 : ∀ p ∈ A, p.1.data.length = 1) (ht : ∀ p ∈ A, p.2.data ≠ [])
    (hsep : ∀ q ∈ B, ∀ c ∈ q.1.data, ∀ p ∈ A, c ∉ p.1.data ∧ c ∉ p.2.data) :
    ∀ s, scan (A ++ B) s = scan B (scan A s) := by
  have hAB : NoEmptyOld (A ++ B) := noEmptyOld_append _ _ hA hB
  have key : ∀ n (s : List Char), s.length = n → scan (A ++ B) s = scan B (scan A s) := by
    intro n
    induction n using Nat.strong_induction_on with
    | _ n ih =>
      intro s hn
      have hls := lookup_scan A B hA h1 ht hsep s
      cases hla : lookup A s false with
      | some p =>
        obtain ⟨old, val⟩ := p
        obtain ⟨hmem, hpre⟩ := lookup_some A s _ hla
        have hlen := drop_length_lt old.data s (hA _ hmem) hpre
        have hl : lookup (A ++ B) s false = some (old, val) := by
          rw [lookup_append, hla]
          rfl
        rw [scan_match _ hAB s old val hl, scan_match _ hA s old val hla,
          scan_append_of_no_head B hB val.data _ (by
            intro c hc q hq hh
            apply (hsep q hq c _ _ hmem).2 hc
            cases hd : q.1.data with
            | nil => rw [hd] at hh; cases hh
            | cons a t =>
              rw [hd] at hh
              cases hh
              exact List.mem_cons_self _ _),
          ih _ (by rw [← hn]; exact hlen) _ rfl]
      | none =>
        have hl : lookup (A ++ B) s false = lookup B s false := by
          rw [lookup_append, hla]
          rfl
        cases hlb : lookup B s false with
        | some q =>
          obtain ⟨y, u⟩ := q
          obtain ⟨hmem, hpre⟩ := lookup_some B s _ hlb
          have hlen := drop_length_lt y.data s (hB _ hmem) hpre
          obtain ⟨rest, hrest⟩ := hpre
          have hsA : scan A s = y.data ++ scan A rest := by
            rw [← hrest]
            apply scan_append_of_no_head A hA
            intro c hc p hp hh
            apply (hsep _ hmem c hc p hp).1
            cases hd : p.1.data with
            | nil => rw [hd] at hh; cases hh
            | cons a t =>
              rw [hd] at hh
              cases hh
              exact List.mem_cons_self _ _
          rw [hlb] at hl hls
          rw [scan_match _ hAB s y u hl, scan_match _ hB _ y u hls, hsA, List.drop_left,
            ih _ (by rw [← hn]; exact hlen) _ rfl, ← hrest, List.drop_left]
        | none =>
          rw [hlb] at hl hls
          cases s with
          | nil => rw [scan_nil _ hAB, scan_nil _ hA, scan_nil _ hB]
          | cons c rest =>
            rw [scan_copy _ hA c rest hla] at hls
            rw [scan_copy _ hAB c rest hl, scan_copy _ hA c rest hla,
              scan_copy _ hB c _ hls, ih rest.length (by rw [← hn]; simp) rest rfl]
  exact fun s => key s.length s rfl
/-! ## Script classes -/

theorem mem_of_head (l : List Char) (c : Char) (h : l.head? = some c) : c ∈ l := by
  cases l with
  | nil => cases h
  | cons a t =>
    cases h
    exact List.mem_cons_self _ _

theorem mem_sourceClasses (oldnew : List (String × String)) (p : String × String)
    (hp : p ∈ oldnew) (c : Char) (hc : c ∈ p.1.data) : charClass c ∈ sourceClasses oldnew := by
  unfold sourceClasses
  rw [List.mem_dedup, List.mem_flatMap]
  exact ⟨p, hp, List.mem_map_of_mem _ hc⟩

theorem mem_targetClasses (oldnew : List (String × String)) (p : String × String)
    (hp : p ∈ oldnew) (c : Char) (hc : c ∈ p.2.data) : charClass c ∈ targetClasses oldnew := by
  unfold targetClasses
  rw [List.mem_dedup, List.mem_flatMap]
  exact ⟨p, hp, List.mem_map_of_mem _ hc⟩

theorem inert_spec (oldnew : List (String × String)) (h : inert oldnew = true) :
    ∀ p ∈ oldnew, ∀ q ∈ oldnew, ∀ c ∈ p.2.data, q.1.data.head? ≠ some c := by
  intro p hp q hq c hc hh
  unfold inert at h
  rw [List.all_eq_true] at h
  have h2 := h _ (mem_targetClasses oldnew p hp c hc)
  have h3 := mem_sourceClasses oldnew q hq c (mem_of_head _ _ hh)
  simp only [Bool.not_eq_true', List.contains_eq_any_beq, List.any_eq_false, beq_iff_eq] at h2
  exact h2 _ h3 rfl

theorem separate_spec (A B : List (String × String)) (h : separate A B = true) :
    (∀ p ∈ A, p.1.data.length = 1) ∧ (∀ p ∈ A, p.2.data ≠ [])
      ∧ ∀ q ∈ B, ∀ c ∈ q.1.data, ∀ p ∈ A, c ∉ p.1.data ∧ c ∉ p.2.data := by
  unfold separate at h
  rw [Bool.and_eq_true, List.all_eq_true, List.all_eq_true] at h
  obtain ⟨h1, h2⟩ := h
  refine ⟨?_, ?_, ?_⟩
  · intro p hp
    have := h2 p hp
    rw [Bool.and_eq_true, decide_eq_true_eq] at this
    exact this.1
  · intro p hp he
    have := h2 p hp
    rw [Bool.and_eq_true, he] at this
    exact absurd this.2 (by decide)
  · intro q hq c hc p hp
    have := h1 _ (mem_sourceClasses B q hq c hc)
    simp only [Bool.and_eq_true, Bool.not_eq_true', List.contains_eq_any_beq, List.any_eq_false,
      beq_iff_eq] at this
    exact ⟨fun hm => this.1 _ (mem_sourceClasses A p hp c hm) rfl,
      fun hm => this.2 _ (mem_targetClasses A p hp c hm) rfl⟩

theorem removable_spec (I O : List (String × String)) (h : removable I O = true) :
    (∀ q ∈ I, q.2 = q.1)
      ∧ ∀ q ∈ I, ∀ c ∈ q.1.data, ∀ p ∈ O, p.1.data.head? ≠ some c := by
  unfold removable at h
  rw [Bool.and_eq_true, List.all_eq_true, List.all_eq_true] at h
  obtain ⟨h1, h2⟩ := h
  refine ⟨?_, ?_⟩
  · intro q hq
    have := h1 q hq
    rw [decide_eq_true_eq] at this
    exact this
  · intro q hq c hc p hp hh
    have := h2 _ (mem_sourceClasses I q hq c hc)
    simp only [Bool.not_eq_true', List.contains_eq_any_beq, List.any_eq_false, beq_iff_eq] at this
    exact this _ (mem_sourceClasses O p hp c (mem_of_head _ _ hh)) rfl
/-! ## Every first code point of a source is a source -/

theorem columns_closed : ∀ t < 5, ∀ a < sourceColumns t,
    ∀ x ∈ sourceColumn (tableById t).data a,
      x.data.length = 1 ∨ ∃ y ∈ sourceColumn (tableById t).data a, y.data = x.data.take 1 := by
  decide!

theorem headClosed_append (A B : List (String × String)) (hA : HeadClosed A)
    (hB : HeadClosed B) : HeadClosed (A ++ B) := by
  intro p hp
  rcases List.mem_append.mp hp with h | h
  · obtain ⟨q, hq, e⟩ := hA p h
    exact ⟨q, List.mem_append_left _ hq, e⟩
  · obtain ⟨q, hq, e⟩ := hB p h
    exact ⟨q, List.mem_append_right _ hq, e⟩

theorem headClosed_flatMap {α : Type} (L : List α) (f : α → List (String × String))
    (h : ∀ a ∈ L, HeadClosed (f a)) : HeadClosed (L.flatMap f) := by
  induction L with
  | nil => exact fun p hp => absurd hp (List.not_mem_nil p)
  | cons a rest ih =>
    rw [List.flatMap_cons]
    exact headClosed_append _ _ (h a (List.mem_cons_self _ _))
      (ih (fun b hb => h b (List.mem_cons_of_mem _ hb)))

theorem headClosed_projectPairs (t a b : Nat) (rm : Bool) (ht : t < 5)
    (ha : a < sourceColumns t) : HeadClosed (projectPairs (tableById t).data a b rm) := by
  intro p hp
  have hs : p.1 ∈ sourceColumn (tableById t).data a := by
    rw [← projectPairs_map_fst _ a b rm]
    exact List.mem_map_of_mem _ hp
  rcases columns_closed t ht a ha p.1 hs with h | ⟨y, hy, e⟩
  · refine ⟨p, hp, ?_⟩
    rw [List.take_of_length_le (Nat.le_of_eq h)]
  · rw [← projectPairs_map_fst _ a b rm, List.mem_map] at hy
    obtain ⟨q, hq, rfl⟩ := hy
    exact ⟨q, hq, e⟩

theorem tableOf_lt (f : TextReplaceOption) (t : Nat) (h : tableOf f = some t) : t < 5 := by
  unfold tableOf at h
  split_ifs at h <;> cases h <;> decide

theorem blockPairs_headClosed (slide : Nat) (rm : Bool) (f : TextReplaceOption) :
    HeadClosed (blockPairs slide rm f) := by
  unfold blockPairs
  apply headClosed_flatMap
  intro c hc
  obtain ⟨t, ht, h1, h2, -⟩ := columnPairs_mem slide f c hc
  rw [h1]
  exact headClosed_projectPairs t _ _ rm (tableOf_lt f t ht) h2

theorem substitutionSet_headClosed (flags : List TextReplaceOption) :
    HeadClosed (substitutionSet flags) :=
  headClosed_flatMap _ _ (fun f _ => blockPairs_headClosed _ _ f)
/-! ## The two hiragana directives -/

theorem substitutionSet_KatakanaToHiragana (rm : Bool) :
    substitutionSet (KatakanaToHiragana :: modifierFlags false rm)
      = projectPairs kanaMap.data 0 2 rm ++ (projectPairs kanaMap.data 1 2 rm ++ []) := by
  rw [substitutionSet_modifierFlags KatakanaToHiragana (by decide) (by decide) false rm]
  rfl

theorem hiragana_block_removable (rm : Bool) :
    removable (projectPairs kanaMap.data 2 2 rm)
      (projectPairs kanaMap.data 0 2 rm ++ projectPairs kanaMap.data 1 2 rm ++ []) = true := by
  cases rm <;> decide!

theorem scan_KanaToHiragana (rm : Bool) (s : List Char) :
    scan (substitutionSet (KanaToHiragana :: modifierFlags false rm)) s
      = scan (substitutionSet (KatakanaToHiragana :: modifierFlags false rm)) s := by
  rw [blockPairs_KanaToHiragana, substitutionSet_KatakanaToHiragana,
    ← List.append_assoc (projectPairs kanaMap.data 0 2 rm) (projectPairs kanaMap.data 1 2 rm)
      (projectPairs kanaMap.data 2 2 rm ++ []),
    ← List.append_assoc (projectPairs kanaMap.data 0 2 rm) (projectPairs kanaMap.data 1 2 rm) []]
  obtain ⟨h1, h2⟩ := removable_spec _ _ (hiragana_block_removable rm)
  exact scan_drop_identity _ _ []
    (noEmptyOld_append _ _ (projectPairs_noEmptyOld _ _ _ _) (projectPairs_noEmptyOld _ _ _ _))
    (projectPairs_noEmptyOld _ _ _ _) (fun p hp => absurd hp (List.not_mem_nil p)) h1 h2 s

theorem KatakanaToHiragana_targets :
    ∀ p ∈ projectPairs kanaMap.data 0 2 false ++ (projectPairs kanaMap.data 1 2 false ++ []),
      (∀ c ∈ p.2.data, charClass c = 9) ∨ p.2 ∈ ["ﾜﾞ", "ｦﾞ", "ヷ", "ヺ"] := by
  decide!

theorem KatakanaToHiragana_sources :
    sourceClasses
      (projectPairs kanaMap.data 0 2 false ++ (projectPairs kanaMap.data 1 2 false ++ []))
      = [7, 8] := by
  decide!

theorem KatakanaToHiragana_stable :
    ∀ p ∈ substitutionSet (KatakanaToHiragana :: modifierFlags false false), ∀ v,
      scan (substitutionSet (KatakanaToHiragana :: modifierFlags false false)) (p.2.data ++ v)
        = p.2.data
          ++ scan (substitutionSet (KatakanaToHiragana :: modifierFlags false false)) v := by
  intro p hp v
  have hp2 := hp
  rw [substitutionSet_KatakanaToHiragana] at hp2
  rcases KatakanaToHiragana_targets p hp2 with h | h
  · apply scan_append_of_no_head _ (substitutionSet_noEmptyOld _)
    intro c hc q hq hh
    rw [substitutionSet_KatakanaToHiragana] at hq
    have h3 := mem_sourceClasses _ q hq c (mem_of_head _ _ hh)
    rw [KatakanaToHiragana_sources, h c hc] at h3
    exact absurd h3 (by decide)
  · have h4 := scan_noHiragana p.2 h false v
    rw [scan_KanaToHiragana, scan_KanaToHiragana] at h4
    exact h4

theorem KatakanaToHiragana_idem (s : List Char) :
    scan (substitutionSet (KatakanaToHiragana :: modifierFlags false false))
        (scan (substitutionSet (KatakanaToHiragana :: modifierFlags false false)) s)
      = scan (substitutionSet (KatakanaToHiragana :: modifierFlags false false)) s :=
  scan_idem _ (substitutionSet_noEmptyOld _) (substitutionSet_headClosed _)
    KatakanaToHiragana_stable s

theorem KanaToHiragana_idem (s : List Char) :
    scan (substitutionSet (KanaToHiragana :: modifierFlags false false))
        (scan (substitutionSet (KanaToHiragana :: modifierFlags false false)) s)
      = scan (substitutionSet (KanaToHiragana :: modifierFlags false false)) s := by
  rw [scan_KanaToHiragana, scan_KanaToHiragana]
  exact KatakanaToHiragana_idem s
/-! ## One directive applied twice -/

theorem scan_idem_of_removable (A I B : List (String × String)) (hA : NoEmptyOld A)
    (hI : NoEmptyOld I) (hB : NoEmptyOld B) (hrem : removable I (A ++ B) = true)
    (hc : HeadClosed (A ++ B)) (hin : inert (A ++ B) = true) (s : List Char) :
    scan (A ++ (I ++ B)) (scan (A ++ (I ++ B)) s) = scan (A ++ (I ++ B)) s := by
  obtain ⟨h1, h2⟩ := removable_spec _ _ hrem
  have e := scan_drop_identity A I B hA hI hB h1 h2
  rw [e, e]
  exact scan_idem_of_targets _ (noEmptyOld_append _ _ hA hB) hc (inert_spec _ hin) s

theorem headClosed_nil : HeadClosed [] := fun p hp => absurd hp (List.not_mem_nil p)

theorem noEmptyOld_nil : NoEmptyOld [] := fun p hp => absurd hp (List.not_mem_nil p)

theorem headClosed_kana (a b : Nat) (rm : Bool) (ha : a < 3) :
    HeadClosed (projectPairs kanaMap.data a b rm) :=
  headClosed_projectPairs 1 a b rm (by decide) ha

theorem KanaToZenkakuKatakana_idem (s : List Char) :
    scan (blockPairs 0 false KanaToZenkakuKatakana)
        (scan (blockPairs 0 false KanaToZenkakuKatakana) s)
      = scan (blockPairs 0 false KanaToZenkakuKatakana) s := by
  have hrem : removable (projectPairs kanaMap.data 1 1 false)
      (projectPairs kanaMap.data 0 1 false ++ (projectPairs kanaMap.data 2 1 false ++ []))
      = true := by decide!
  have hin : inert
      (projectPairs kanaMap.data 0 1 false ++ (projectPairs kanaMap.data 2 1 false ++ []))
      = true := by decide!
  exact scan_idem_of_removable (projectPairs kanaMap.data 0 1 false)
    (projectPairs kanaMap.data 1 1 false) (projectPairs kanaMap.data 2 1 false ++ [])
    (projectPairs_noEmptyOld _ _ _ _) (projectPairs_noEmptyOld _ _ _ _)
    (noEmptyOld_append _ _ (projectPairs_noEmptyOld _ _ _ _) noEmptyOld_nil) hrem
    (headClosed_append _ _ (headClosed_kana 0 1 false (by decide))
      (headClosed_append _ _ (headClosed_kana 2 1 false (by decide)) headClosed_nil)) hin s

theorem KanaToHankakuKatakana_idem (s : List Char) :
    scan (blockPairs 0 false KanaToHankakuKatakana)
        (scan (blockPairs 0 false KanaToHankakuKatakana) s)
      = scan (blockPairs 0 false KanaToHankakuKatakana) s := by
  have hrem : removable (projectPairs kanaMap.data 0 0 false)
      ([] ++ (projectPairs kanaMap.data 1 0 false ++ (projectPairs kanaMap.data 2 0 false ++ [])))
      = true := by decide!
  have hin : inert
      ([] ++ (projectPairs kanaMap.data 1 0 false ++ (projectPairs kanaMap.data 2 0 false ++ [])))
      = true := by decide!
  exact scan_idem_of_removable [] (projectPairs kanaMap.data 0 0 false)
    (projectPairs kanaMap.data 1 0 false ++ (projectPairs kanaMap.data 2 0 false ++ []))
    noEmptyOld_nil (projectPairs_noEmptyOld _ _ _ _)
    (noEmptyOld_append _ _ (projectPairs_noEmptyOld _ _ _ _)
      (noEmptyOld_append _ _ (projectPairs_noEmptyOld _ _ _ _) noEmptyOld_nil)) hrem
    (headClosed_append _ _ headClosed_nil
      (headClosed_append _ _ (headClosed_kana 1 0 false (by decide))
        (headClosed_append _ _ (headClosed_kana 2 0 false (by decide)) headClosed_nil))) hin s

theorem oneWayDirectives_inert : ∀ d ∈ oneWayDirectives,
    d ≠ RemoveDakuten ∧ d ≠ RemoveNoMapping ∧ inert (blockPairs 0 false d) = true := by
  decide!

theorem substitutionSet_of_not_directive (d : Int) (h : d < 3 ∨ 22 < d) :
    substitutionSet [d] = [] := by
  rw [List.eq_nil_iff_forall_not_mem]
  intro p hp
  obtain ⟨f, hf, hpf⟩ := substitutionSet_mem [d] p hp
  rw [List.mem_singleton] at hf
  rw [hf, blockPairs_of_not_directive _ _ d h] at hpf
  exact absurd hpf (List.not_mem_nil p)

theorem scan_empty (s : List Char) : scan [] s = s :=
  scan_of_no_head [] noEmptyOld_nil s (fun _ _ p hp => absurd hp (List.not_mem_nil p))

theorem directive_cases (d : Int) :
    d ∈ oneWayDirectives ∨ d = KatakanaToHiragana ∨ d = KanaToHiragana
      ∨ d = KanaToZenkakuKatakana ∨ d = KanaToHankakuKatakana ∨ d < 3 ∨ 22 < d := by
  by_cases hf : d < 3 ∨ 22 < d
  · exact Or.inr (Or.inr (Or.inr (Or.inr (Or.inr hf))))
  · have h1 : 3 ≤ d := by omega
    have h2 : d ≤ 22 := by omega
    clear hf
    interval_cases d <;> decide

theorem single_directive_idem (d : TextReplaceOption) (s : List Char) :
    scan (substitutionSet [d]) (scan (substitutionSet [d]) s) = scan (substitutionSet [d]) s := by
  rcases directive_cases d with h | h | h | h | h | h
  · obtain ⟨h1, h2, h3⟩ := oneWayDirectives_inert d h
    exact scan_idem_of_targets _ (substitutionSet_noEmptyOld _) (substitutionSet_headClosed _)
      (by rw [substitutionSet_single d h1 h2]; exact inert_spec _ h3) s
  · rw [h]
    exact KatakanaToHiragana_idem s
  · rw [h]
    exact KanaToHiragana_idem s
  · rw [h, substitutionSet_single _ (by decide) (by decide)]
    exact KanaToZenkakuKatakana_idem s
  · rw [h, substitutionSet_single _ (by decide) (by decide)]
    exact KanaToHankakuKatakana_idem s
  · rw [substitutionSet_of_not_directive d h, scan_empty, scan_empty]
/-! ## Pairs that a text never reaches -/

theorem scan_append_of_text (A B : List (String × String)) (hA : NoEmptyOld A)
    (hB : NoEmptyOld B) :
    ∀ s : List Char, (∀ c ∈ s, ∀ q ∈ B, q.1.data.head? ≠ some c) →
      scan (A ++ B) s = scan A s := by
  have hAB : NoEmptyOld (A ++ B) := noEmptyOld_append _ _ hA hB
  have key : ∀ n (s : List Char), s.length = n →
      (∀ c ∈ s, ∀ q ∈ B, q.1.data.head? ≠ some c) → scan (A ++ B) s = scan A s := by
    intro n
    induction n using Nat.strong_induction_on with
    | _ n ih =>
      intro s hn h
      cases hla : lookup A s false with
      | some p =>
        obtain ⟨old, val⟩ := p
        obtain ⟨hmem, hpre⟩ := lookup_some A s _ hla
        have hlen := drop_length_lt old.data s (hA _ hmem) hpre
        have hl : lookup (A ++ B) s false = some (old, val) := by
          rw [lookup_append, hla]
          rfl
        rw [scan_match _ hAB s old val hl, scan_match _ hA s old val hla,
          ih _ (by rw [← hn]; exact hlen) _ rfl
            (fun c hc => h c (List.mem_of_mem_drop hc))]
      | none =>
        cases s with
        | nil => rw [scan_nil _ hAB, scan_nil _ hA]
        | cons c rest =>
          have hlb := lookup_eq_none_of_head B hB c rest (h c (List.mem_cons_self _ _))
          have hl : lookup (A ++ B) (c :: rest) false = none := by
            rw [lookup_append, hla, hlb]
            rfl
          rw [scan_copy _ hAB c rest hl, scan_copy _ hA c rest hla,
            ih rest.length (by rw [← hn]; simp) rest rfl
              (fun d hd => h d (List.mem_cons_of_mem _ hd))]
  exact fun s => key s.length s rfl

theorem projectPairs_source (data : List (List String)) (fromCol toCol : Nat) (rm : Bool)
    (p : String × String) (hp : p ∈ projectPairs data fromCol toCol rm) :
    ∃ cols ∈ data, p.1 = cols.getD fromCol "" := by
  unfold projectPairs at hp
  rw [List.mem_filterMap] at hp
  obtain ⟨cols, hc, hr⟩ := hp
  exact ⟨cols, hc, (rowPair_fst fromCol toCol rm cols p hr).1⟩

theorem substitutionSet_hiragana_removeDakuten (rm : Bool) :
    substitutionSet (KatakanaToHiragana :: modifierFlags true rm)
        = projectPairs kanaMap.data 0 5 rm ++ (projectPairs kanaMap.data 1 5 rm ++ [])
      ∧ substitutionSet (KanaToHiragana :: modifierFlags true rm)
        = projectPairs kanaMap.data 0 5 rm
          ++ (projectPairs kanaMap.data 1 5 rm ++ (projectPairs kanaMap.data 2 5 rm ++ [])) := by
  rw [substitutionSet_modifierFlags KatakanaToHiragana (by decide) (by decide) true rm,
    substitutionSet_modifierFlags KanaToHiragana (by decide) (by decide) true rm]
  exact ⟨rfl, rfl⟩

theorem scan_hiragana_removeDakuten (rm : Bool) (s : List Char)
    (h : ∀ c ∈ s, ∀ row ∈ kanaMap.data, c ∉ (row.getD 2 "").data) :
    scan (substitutionSet (KanaToHiragana :: modifierFlags true rm)) s
      = scan (substitutionSet (KatakanaToHiragana :: modifierFlags true rm)) s := by
  obtain ⟨e1, e2⟩ := substitutionSet_hiragana_removeDakuten rm
  rw [e1, e2, ← List.append_assoc (projectPairs kanaMap.data 0 5 rm)
      (projectPairs kanaMap.data 1 5 rm) (projectPairs kanaMap.data 2 5 rm ++ []),
    ← List.append_assoc (projectPairs kanaMap.data 0 5 rm) (projectPairs kanaMap.data 1 5 rm) [],
    List.append_nil, List.append_nil]
  apply scan_append_of_text _ _
    (noEmptyOld_append _ _ (projectPairs_noEmptyOld _ _ _ _) (projectPairs_noEmptyOld _ _ _ _))
    (projectPairs_noEmptyOld _ _ _ _)
  intro c hc q hq hh
  obtain ⟨cols, hcols, e⟩ := projectPairs_source _ _ _ _ q hq
  apply h c hc cols hcols
  rw [← e]
  exact mem_of_head _ _ hh
/-! ## Four directives of four tables -/

theorem scan_comp_of_separate (A B : List (String × String)) (hA : NoEmptyOld A)
    (hB : NoEmptyOld B) (h : separate A B = true) (s : List Char) :
    scan (A ++ B) s = scan B (scan A s) := by
  obtain ⟨h1, h2, h3⟩ := separate_spec A B h
  exact scan_append_comp A B hA hB h1 h2 h3 s

theorem scan_four_directives (s : List Char) :
    scan (substitutionSet [ZenkakuNumberToHankaku, ZenkakuSignToHankaku,
        AlphabetToLowerHankaku, KanaToZenkakuKatakana]) s
      = scan (substitutionSet [KanaToZenkakuKatakana])
          (scan (substitutionSet [AlphabetToLowerHankaku])
            (scan (substitutionSet [ZenkakuSignToHankaku])
              (scan (substitutionSet [ZenkakuNumberToHankaku]) s))) := by
  have h1 : separate (blockPairs 0 false ZenkakuNumberToHankaku)
      (blockPairs 0 false ZenkakuSignToHankaku ++ (blockPairs 0 false AlphabetToLowerHankaku
        ++ (blockPairs 0 false KanaToZenkakuKatakana ++ []))) = true := by decide!
  have h2 : separate (blockPairs 0 false ZenkakuSignToHankaku)
      (blockPairs 0 false AlphabetToLowerHankaku
        ++ (blockPairs 0 false KanaToZenkakuKatakana ++ [])) = true := by decide!
  have h3 : separate (blockPairs 0 false AlphabetToLowerHankaku)
      (blockPairs 0 false KanaToZenkakuKatakana ++ []) = true := by decide!
  have n1 := blockPairs_noEmptyOld 0 false ZenkakuNumberToHankaku
  have n2 := blockPairs_noEmptyOld 0 false ZenkakuSignToHankaku
  have n3 := blockPairs_noEmptyOld 0 false AlphabetToLowerHankaku
  have n4 : NoEmptyOld (blockPairs 0 false KanaToZenkakuKatakana ++ []) :=
    noEmptyOld_append _ _ (blockPairs_noEmptyOld 0 false KanaToZenkakuKatakana)
      (fun p hp => absurd hp (List.not_mem_nil p))
  rw [substitutionSet_plain _ (by decide) (by decide),
    substitutionSet_single _ (by decide) (by decide),
    substitutionSet_single _ (by decide) (by decide),
    substitutionSet_single _ (by decide) (by decide),
    substitutionSet_single _ (by decide) (by decide)]
  show scan (blockPairs 0 false ZenkakuNumberToHankaku
      ++ (blockPairs 0 false ZenkakuSignToHankaku ++ (blockPairs 0 false AlphabetToLowerHankaku
        ++ (blockPairs 0 false KanaToZenkakuKatakana ++ [])))) s = _
  rw [scan_comp_of_separate _ _ n1 (noEmptyOld_append _ _ n2 (noEmptyOld_append _ _ n3 n4)) h1,
    scan_comp_of_separate _ _ n2 (noEmptyOld_append _ _ n3 n4) h2,
    scan_comp_of_separate _ _ n3 n4 h3, List.append_nil]
/-! ## Directives of different tables -/

theorem columns_table : ∀ t < 5, ∀ a < sourceColumns t,
    ∀ x ∈ sourceColumn (tableById t).data a, ∀ c ∈ x.data, classTable (charClass c) = t := by
  decide!

theorem blockPairs_head_table (slide : Nat) (rm : Bool) (d : TextReplaceOption) (t : Nat)
    (h : tableOf d = some t) :
    ∀ p ∈ blockPairs slide rm d,
      ∃ c, p.1.data.head? = some c ∧ classTable (charClass c) = t := by
  intro p hp
  obtain ⟨col, hcol, hpc⟩ := blockPairs_mem slide rm d p hp
  obtain ⟨t2, ht2, h1, h2, -⟩ := columnPairs_mem slide d col hcol
  rw [h] at ht2
  cases ht2
  rw [h1] at hpc
  have hs : p.1 ∈ sourceColumn (tableById t).data col.2.1 := by
    rw [← projectPairs_map_fst _ col.2.1 col.2.2 rm]
    exact List.mem_map_of_mem _ hpc
  have hne := blockPairs_noEmptyOld slide rm d p hp
  cases hd : p.1.data with
  | nil => exact absurd hd hne
  | cons c rest =>
    refine ⟨c, rfl, columns_table t (tableOf_lt d t h) _ h2 p.1 hs c ?_⟩
    rw [hd]
    exact List.mem_cons_self _ _

theorem blockPairs_heads_differ (slide : Nat) (rm : Bool) (d1 d2 : TextReplaceOption)
    (t1 t2 : Nat) (h1 : tableOf d1 = some t1) (h2 : tableOf d2 = some t2) (hne : t1 ≠ t2) :
    ∀ p ∈ blockPairs slide rm d1, ∀ q ∈ blockPairs slide rm d2,
      p.1.data.head? ≠ q.1.data.head? := by
  intro p hp q hq he
  obtain ⟨c1, e1, k1⟩ := blockPairs_head_table slide rm d1 t1 h1 p hp
  obtain ⟨c2, e2, k2⟩ := blockPairs_head_table slide rm d2 t2 h2 q hq
  rw [e1, e2] at he
  cases he
  exact hne (k1.symm.trans k2)

theorem not_modifier_of_tableOf (d : TextReplaceOption) (t : Nat) (h : tableOf d = some t) :
    d ≠ RemoveDakuten ∧ d ≠ RemoveNoMapping := by
  have e1 : tableOf RemoveDakuten = none := by decide
  have e2 : tableOf RemoveNoMapping = none := by decide
  constructor
  · rintro rfl
    rw [e1] at h
    cases h
  · rintro rfl
    rw [e2] at h
    cases h

theorem substitutionSet_two (d1 d2 : TextReplaceOption) (t1 t2 : Nat)
    (h1 : tableOf d1 = some t1) (h2 : tableOf d2 = some t2) (dak rm : Bool) :
    substitutionSet (d1 :: d2 :: modifierFlags dak rm)
      = blockPairs (if dak then 3 else 0) rm d1 ++ blockPairs (if dak then 3 else 0) rm d2 := by
  obtain ⟨a1, b1⟩ := not_modifier_of_tableOf d1 t1 h1
  obtain ⟨a2, b2⟩ := not_modifier_of_tableOf d2 t2 h2
  have e := substitutionSet_append_modifierFlags [d1, d2]
    (by simp [Ne.symm a1, Ne.symm a2]) (by simp [Ne.symm b1, Ne.symm b2]) dak rm
  rw [show d1 :: d2 :: modifierFlags dak rm = [d1, d2] ++ modifierFlags dak rm from rfl, e]
  simp only [List.flatMap_cons, List.flatMap_nil, List.append_nil]

theorem not_prefix_of_heads (x y : List Char) (hx : x ≠ []) (h : x.head? ≠ y.head?) :
    ¬ x <+: y := by
  rintro ⟨t, rfl⟩
  cases x with
  | nil => exact hx rfl
  | cons a u => exact h rfl

theorem scan_two_comm (d1 d2 : TextReplaceOption) (t1 t2 : Nat)
    (h1 : tableOf d1 = some t1) (h2 : tableOf d2 = some t2) (hne : t1 ≠ t2) (dak rm : Bool)
    (s : List Char) :
    scan (substitutionSet (d1 :: d2 :: modifierFlags dak rm)) s
      = scan (substitutionSet (d2 :: d1 :: modifierFlags dak rm)) s := by
  rw [substitutionSet_two d1 d2 t1 t2 h1 h2, substitutionSet_two d2 d1 t2 t1 h2 h1]
  exact scan_congr _ _
    (noEmptyOld_append _ _ (blockPairs_noEmptyOld _ _ _) (blockPairs_noEmptyOld _ _ _))
    (noEmptyOld_append _ _ (blockPairs_noEmptyOld _ _ _) (blockPairs_noEmptyOld _ _ _))
    (lookup_append_comm _ _ (blockPairs_noEmptyOld _ _ _) (blockPairs_noEmptyOld _ _ _)
      (blockPairs_heads_differ _ rm d1 d2 t1 t2 h1 h2 hne)) s
/-! ## Sources and targets are not empty -/

theorem rowPair_snd_ne (fromCol toCol : Nat) (cols : List String) (p : String × String)
    (h : rowPair fromCol toCol false cols = some p) : p.2 ≠ "" := by
  unfold rowPair at h
  split_ifs at h with h1 h2 h3
  · simp only [Option.some.injEq] at h
    subst h
    exact h2
  · exact absurd h3 (by decide)
  · simp only [Option.some.injEq] at h
    subst h
    exact h1

theorem substitutionSet_fst_ne (flags : List TextReplaceOption) :
    ∀ p ∈ substitutionSet flags, p.1 ≠ "" := by
  intro p hp
  obtain ⟨f, -, hpf⟩ := substitutionSet_mem flags p hp
  obtain ⟨c, -, hpc⟩ := blockPairs_mem _ _ f p hpf
  exact projectPairs_fst_ne _ _ _ _ p hpc

theorem substitutionSet_snd_ne (flags : List TextReplaceOption) (h : RemoveNoMapping ∉ flags) :
    ∀ p ∈ substitutionSet flags, p.2 ≠ "" := by
  intro p hp
  obtain ⟨f, -, hpf⟩ := substitutionSet_mem flags p hp
  have hr : hasOption flags RemoveNoMapping = false := by
    rw [← Bool.not_eq_true, hasOption_iff]
    exact h
  rw [hr] at hpf
  obtain ⟨c, -, hpc⟩ := blockPairs_mem _ _ f p hpf
  obtain ⟨cols, -, hrow⟩ := List.mem_filterMap.mp hpc
  exact rowPair_snd_ne _ _ cols p hrow

theorem scan_ne_nil (oldnew : List (String × String)) (hne : NoEmptyOld oldnew)
    (ht : ∀ p ∈ oldnew, p.2 ≠ "") (s : List Char) (hs : s ≠ []) : scan oldnew s ≠ [] := by
  cases hl : lookup oldnew s false with
  | none =>
    cases s with
    | nil => exact absurd rfl hs
    | cons c rest =>
      rw [scan_copy oldnew hne c rest hl]
      exact List.cons_ne_nil _ _
  | some p =>
    obtain ⟨old, val⟩ := p
    obtain ⟨hmem, -⟩ := lookup_some oldnew s _ hl
    rw [scan_match oldnew hne s old val hl]
    intro he
    exact data_ne_nil_of_ne _ (ht _ hmem) (List.append_eq_nil.mp he).1

theorem scan_length_le (oldnew : List (String × String)) (hne : NoEmptyOld oldnew)
    (hs : ∀ p ∈ oldnew, p.1.data.length ≤ 2) (ht : ∀ p ∈ oldnew, p.2 ≠ "") :
    ∀ s : List Char, s.length ≤ 2 * (scan oldnew s).length := by
  have key : ∀ n (s : List Char), s.length = n → s.length ≤ 2 * (scan oldnew s).length := by
    intro n
    induction n using Nat.strong_induction_on with
    | _ n ih =>
      intro s hn
      cases hl : lookup oldnew s false with
      | none =>
        cases s with
        | nil => exact Nat.zero_le _
        | cons c rest =>
          rw [scan_copy oldnew hne c rest hl]
          have := ih rest.length (by rw [← hn]; simp) rest rfl
          simp only [List.length_cons]
          omega
      | some p =>
        obtain ⟨old, val⟩ := p
        obtain ⟨hmem, hpre⟩ := lookup_some oldnew s _ hl
        have hlen := drop_length_lt old.data s (hne _ hmem) hpre
        have h1 := ih _ (by rw [← hn]; exact hlen) _ rfl
        have h2 : old.data.length ≤ 2 := hs _ hmem
        have h3 : 0 < val.data.length :=
          List.length_pos.mpr (data_ne_nil_of_ne _ (ht _ hmem))
        rw [scan_match oldnew hne s old val hl, List.length_append]
        have h4 : (List.drop old.data.length s).length = s.length - old.data.length :=
          List.length_drop _ _
        omega
  exact fun s => key s.length s rfl

theorem longSources_length : ∀ y ∈ longSources, y.data.length = 2 := by decide!

theorem substitutionSet_source_length (flags : List TextReplaceOption) :
    ∀ p ∈ substitutionSet flags, p.1.data.length ≤ 2 := by
  intro p hp
  by_cases h : 2 ≤ p.1.length
  · exact Nat.le_of_eq (longSources_length _ ((flatMap_sources _ _ flags).2 p hp h))
  · have : p.1.length = p.1.data.length := rfl
    omega

theorem string_ne_of_data (s : String) (h : s.data ≠ []) : s ≠ "" := by
  rintro rfl
  exact h rfl
/-! ## The hiragana directives under RemoveDakuten -/

theorem scan_append_of_identity (A B : List (String × String)) (hA : NoEmptyOld A)
    (hB : NoEmptyOld B) (hB1 : ∀ q ∈ B, q.1.data.length = 1) :
    ∀ s : List Char, (∀ c ∈ s, ∀ q ∈ B, q.1.data = [c] → q.2 = q.1) →
      scan (A ++ B) s = scan A s := by
  have hAB : NoEmptyOld (A ++ B) := noEmptyOld_append _ _ hA hB
  have key : ∀ n (s : List Char), s.length = n →
      (∀ c ∈ s, ∀ q ∈ B, q.1.data = [c] → q.2 = q.1) → scan (A ++ B) s = scan A s := by
    intro n
    induction n using Nat.strong_induction_on with
    | _ n ih =>
      intro s hn h
      cases hla : lookup A s false with
      | some p =>
        obtain ⟨old, val⟩ := p
        obtain ⟨hmem, hpre⟩ := lookup_some A s _ hla
        have hlen := drop_length_lt old.data s (hA _ hmem) hpre
        have hl : lookup (A ++ B) s false = some (old, val) := by
          rw [lookup_append, hla]
          rfl
        rw [scan_match _ hAB s old val hl, scan_match _ hA s old val hla,
          ih _ (by rw [← hn]; exact hlen) _ rfl
            (fun c hc => h c (List.mem_of_mem_drop hc))]
      | none =>
        cases s with
        | nil => rw [scan_nil _ hAB, scan_nil _ hA]
        | cons c rest =>
          have ihr := ih rest.length (by rw [← hn]; simp) rest rfl
            (fun d hd => h d (List.mem_cons_of_mem _ hd))
          have hl : lookup (A ++ B) (c :: rest) false = lookup B (c :: rest) false := by
            rw [lookup_append, hla]
            rfl
          cases hlb : lookup B (c :: rest) false with
          | none =>
            rw [hlb] at hl
            rw [scan_copy _ hAB c rest hl, scan_copy _ hA c rest hla, ihr]
          | some q =>
            obtain ⟨x, y⟩ := q
            obtain ⟨hmem, hsrc⟩ := source_single B hB1 c rest _ hlb
            have hy : y = x := h c (List.mem_cons_self _ _) _ hmem hsrc
            subst hy
            have hsrc2 : y.data = [c] := hsrc
            rw [hlb] at hl
            rw [scan_match _ hAB _ y y hl, scan_copy _ hA c rest hla, hsrc2]
            show c :: scan (A ++ B) rest = c :: scan A rest
            rw [ihr]
  exact fun s => key s.length s rfl

theorem scan_append_ne (A B : List (String × String)) (hA : NoEmptyOld A)
    (hB : NoEmptyOld B) (hB1 : ∀ q ∈ B, q.1.data.length = 1) (bad : Char → Prop)
    (hbad1 : ∀ c, bad c → ∀ p ∈ A, c ∉ p.1.data)
    (hbad2 : ∀ c rest, bad c → ∃ q, lookup B (c :: rest) false = some q
      ∧ ∃ d, q.2.data = [d] ∧ d ≠ c)
    (hgood : ∀ c, ¬ bad c → ∀ q ∈ B, q.1.data = [c] → q.2 = q.1) :
    ∀ s : List Char, (∃ c ∈ s, bad c) → scan (A ++ B) s ≠ scan A s := by
  have hAB : NoEmptyOld (A ++ B) := noEmptyOld_append _ _ hA hB
  have key : ∀ n (s : List Char), s.length = n → (∃ c ∈ s, bad c) →
      scan (A ++ B) s ≠ scan A s := by
    intro n
    induction n using Nat.strong_induction_on with
    | _ n ih =>
      intro s hn hex
      obtain ⟨c, hcs, hc⟩ := hex
      cases hla : lookup A s false with
      | some p =>
        obtain ⟨old, val⟩ := p
        obtain ⟨hmem, hpre⟩ := lookup_some A s _ hla
        have hlen := drop_length_lt old.data s (hA _ hmem) hpre
        have hl : lookup (A ++ B) s false = some (old, val) := by
          rw [lookup_append, hla]
          rfl
        obtain ⟨rest, hrest⟩ := hpre
        have hcr : c ∈ List.drop old.data.length s := by
          rw [← hrest, List.drop_left]
          rw [← hrest, List.mem_append] at hcs
          rcases hcs with h | h
          · exact absurd h (hbad1 c hc _ hmem)
          · exact h
        rw [scan_match _ hAB s old val hl, scan_match _ hA s old val hla]
        intro he
        exact ih _ (by rw [← hn]; exact hlen) _ rfl ⟨c, hcr, hc⟩ (List.append_cancel_left he)
      | none =>
        cases s with
        | nil => exact absurd hcs (List.not_mem_nil c)
        | cons c0 rest =>
          have hl : lookup (A ++ B) (c0 :: rest) false = lookup B (c0 :: rest) false := by
            rw [lookup_append, hla]
            rfl
          rw [scan_copy _ hA c0 rest hla]
          by_cases hb : bad c0
          · obtain ⟨q, hq, d, hd, hdc⟩ := hbad2 c0 rest hb
            obtain ⟨x, y⟩ := q
            rw [hq] at hl
            rw [scan_match _ hAB _ x y hl]
            show y.data ++ _ ≠ _
            rw [hd]
            intro he
            exact hdc (List.cons.inj he).1
          · have hcr : c ∈ rest := by
              rcases List.mem_cons.mp hcs with h | h
              · rw [h] at hc
                exact absurd hc hb
              · exact h
            have ihr := ih rest.length (by rw [← hn]; simp) rest rfl ⟨c, hcr, hc⟩
            cases hlb : lookup B (c0 :: rest) false with
            | none =>
              rw [hlb] at hl
              rw [scan_copy _ hAB c0 rest hl]
              intro he
              exact ihr (List.cons.inj he).2
            | some q =>
              obtain ⟨x, y⟩ := q
              obtain ⟨hmem, hsrc⟩ := source_single B hB1 c0 rest _ hlb
              have hy : y = x := hgood c0 hb _ hmem hsrc
              subst hy
              have hsrc2 : y.data = [c0] := hsrc
              rw [hlb] at hl
              rw [scan_match _ hAB _ y y hl, hsrc2]
              show c0 :: scan (A ++ B) rest ≠ _
              intro he
              exact ihr (List.cons.inj he).2
  exact fun s => key s.length s rfl

theorem voicedHiragana_spec : ∀ row ∈ kanaMap.data,
    (row.getD 5 "" != row.getD 2 "") = true →
      ∀ d ∈ (row.getD 2 "").data, d ∈ voicedHiragana.data := by
  decide!

theorem voicedHiragana_mem : ∀ c ∈ voicedHiragana.data,
    isVoicedHiragana c = true ∧ charClass c = 9 := by
  decide!

theorem isVoicedHiragana_iff (c : Char) :
    isVoicedHiragana c = true ↔ c ∈ voicedHiragana.data := by
  constructor
  · intro h
    unfold isVoicedHiragana at h
    rw [List.any_eq_true] at h
    obtain ⟨row, hrow, h2⟩ := h
    rw [Bool.and_eq_true, beq_iff_eq] at h2
    apply voicedHiragana_spec row hrow h2.2 c
    rw [h2.1]
    exact List.mem_singleton.mpr rfl
  · exact fun h => (voicedHiragana_mem c h).1

theorem hiragana_block_single (rm : Bool) :
    ∀ q ∈ projectPairs kanaMap.data 2 5 rm, q.1.data.length = 1 := by
  cases rm <;> decide!

theorem katakana_block_sources (rm : Bool) :
    sourceClasses (projectPairs kanaMap.data 0 5 rm ++ projectPairs kanaMap.data 1 5 rm)
      = [7, 8] := by
  cases rm <;> decide!

theorem voiced_not_katakana_source (rm : Bool) (c : Char) (hc : isVoicedHiragana c = true) :
    ∀ p ∈ projectPairs kanaMap.data 0 5 rm ++ projectPairs kanaMap.data 1 5 rm,
      c ∉ p.1.data := by
  intro p hp hm
  have h := mem_sourceClasses _ p hp c hm
  rw [katakana_block_sources, (voicedHiragana_mem c ((isVoicedHiragana_iff c).mp hc)).2] at h
  exact absurd h (by decide)

theorem voiced_lookup_table (rm : Bool) : ∀ c ∈ voicedHiragana.data,
    (match (projectPairs kanaMap.data 2 5 rm).find? (fun p => decide (p.1.data = [c])) with
      | some q =>
        match q.2.data with
        | [d] => decide (d ≠ c)
        | _ => false
      | none => false) = true := by
  cases rm <;> decide!

theorem voiced_lookup (rm : Bool) (c : Char) (rest : List Char)
    (hc : isVoicedHiragana c = true) :
    ∃ q, lookup (projectPairs kanaMap.data 2 5 rm) (c :: rest) false = some q
      ∧ ∃ d, q.2.data = [d] ∧ d ≠ c := by
  have h := voiced_lookup_table rm c ((isVoicedHiragana_iff c).mp hc)
  rw [lookup_single _ (hiragana_block_single rm) c rest]
  cases hf : (projectPairs kanaMap.data 2 5 rm).find? (fun p => decide (p.1.data = [c])) with
  | none =>
    rw [hf] at h
    cases h
  | some q =>
    rw [hf] at h
    refine ⟨q, rfl, ?_⟩
    cases hq : q.2.data with
    | nil =>
      simp only [hq] at h
      cases h
    | cons d t =>
      cases t with
      | nil =>
        simp only [hq, decide_eq_true_eq] at h
        exact ⟨d, rfl, h⟩
      | cons e u =>
        simp only [hq] at h
        cases h

theorem plain_hiragana_identity (rm : Bool) (c : Char) (hc : ¬ isVoicedHiragana c = true) :
    ∀ q ∈ projectPairs kanaMap.data 2 5 rm, q.1.data = [c] → q.2 = q.1 := by
  intro q hq hsrc
  obtain ⟨cols, hcols, hrow⟩ := List.mem_filterMap.mp hq
  obtain ⟨e1, e2⟩ := rowPair_fst 2 5 rm cols q hrow
  have hq1 : q.1 = String.mk [c] := by
    rw [← hsrc]
  have h2 : cols.getD 5 "" = cols.getD 2 "" := by
    by_contra hne
    apply hc
    unfold isVoicedHiragana
    rw [List.any_eq_true]
    refine ⟨cols, hcols, ?_⟩
    rw [Bool.and_eq_true, beq_iff_eq, bne_iff_ne]
    exact ⟨by rw [← e1, hq1], hne⟩
  rw [rowPair_of_ne 2 5 rm cols (by rw [← e1]; exact e2),
    if_pos (by rw [h2, ← e1]; exact e2)] at hrow
  simp only [Option.some.injEq] at hrow
  rw [← hrow]
  exact h2

theorem scan_hiragana_removeDakuten_iff (rm : Bool) (s : List Char) :
    scan (substitutionSet (KatakanaToHiragana :: modifierFlags true rm)) s
        = scan (substitutionSet (KanaToHiragana :: modifierFlags true rm)) s
      ↔ ∀ c ∈ s, isVoicedHiragana c = false := by
  obtain ⟨e1, e2⟩ := substitutionSet_hiragana_removeDakuten rm
  rw [e1, e2, ← List.append_assoc (projectPairs kanaMap.data 0 5 rm)
      (projectPairs kanaMap.data 1 5 rm) (projectPairs kanaMap.data 2 5 rm ++ []),
    ← List.append_assoc (projectPairs kanaMap.data 0 5 rm) (projectPairs kanaMap.data 1 5 rm) [],
    List.append_nil, List.append_nil]
  have hA : NoEmptyOld (projectPairs kanaMap.data 0 5 rm ++ projectPairs kanaMap.data 1 5 rm) :=
    noEmptyOld_append _ _ (projectPairs_noEmptyOld _ _ _ _) (projectPairs_noEmptyOld _ _ _ _)
  have hB : NoEmptyOld (projectPairs kanaMap.data 2 5 rm) := projectPairs_noEmptyOld _ _ _ _
  constructor
  · intro he c hc
    by_contra hv
    rw [Bool.not_eq_false] at hv
    exact scan_append_ne _ _ hA hB (hiragana_block_single rm)
      (fun c => isVoicedHiragana c = true) (voiced_not_katakana_source rm) (voiced_lookup rm)
      (plain_hiragana_identity rm) s ⟨c, hc, hv⟩ he.symm
  · intro h
    exact (scan_append_of_identity _ _ hA hB (hiragana_block_single rm) s
      (fun c hc => plain_hiragana_identity rm c (by rw [h c hc]; decide))).symm
/-! ## Targets the engine passes over -/

theorem lookup_eq_none_of_forall (oldnew : List (String × String)) (s : List Char)
    (h : ∀ q ∈ oldnew, ¬ q.1.data <+: s) : lookup oldnew s false = none := by
  unfold lookup
  rw [List.find?_eq_none]
  intro q hq
  have := h q hq
  simp only [Bool.false_and, Bool.not_false, Bool.and_true, List.isPrefixOf_iff_prefix]
  exact this

theorem lookup_first_source (oldnew : List (String × String)) (s : List Char)
    (p : String × String) (h : lookup oldnew s false = some p) :
    oldnew.find? (fun q => decide (q.1 = p.1)) = some p := by
  obtain ⟨hpre, a, b, hab, hno⟩ := lookup_split oldnew s p h
  rw [hab, List.find?_append]
  have ha : a.find? (fun q => decide (q.1 = p.1)) = none := by
    rw [List.find?_eq_none]
    intro q hq
    simp only [decide_eq_true_eq]
    intro he
    apply hno q hq
    rw [he]
    exact hpre
  rw [ha]
  simp only [List.find?_cons, decide_True, Option.none_or]

theorem scan_idem_of_applied (oldnew : List (String × String)) (hne : NoEmptyOld oldnew)
    (hc : HeadClosed oldnew)
    (hst : ∀ p, oldnew.find? (fun q => decide (q.1 = p.1)) = some p →
      ∀ w, scan oldnew (p.2.data ++ scan oldnew w) = p.2.data ++ scan oldnew (scan oldnew w)) :
    ∀ s, scan oldnew (scan oldnew s) = scan oldnew s := by
  have key : ∀ n (s : List Char), s.length = n → scan oldnew (scan oldnew s) = scan oldnew s := by
    intro n
    induction n using Nat.strong_induction_on with
    | _ n ih =>
      intro s hn
      cases hl : lookup oldnew s false with
      | none =>
        cases s with
        | nil => rw [scan_nil oldnew hne, scan_nil oldnew hne]
        | cons c rest =>
          have nh := no_head_of_lookup_none oldnew hc c rest hl
          rw [scan_copy oldnew hne c rest hl]
          have e := scan_append_of_no_head oldnew hne [c] (scan oldnew rest) (by
            intro d hd
            rw [List.mem_singleton] at hd
            rw [hd]
            exact nh)
          rw [show c :: scan oldnew rest = [c] ++ scan oldnew rest from rfl, e,
            ih rest.length (by rw [← hn]; simp) rest rfl]
      | some p =>
        obtain ⟨old, val⟩ := p
        obtain ⟨hmem, hpre⟩ := lookup_some oldnew s _ hl
        have hlen := drop_length_lt old.data s (hne _ hmem) hpre
        rw [scan_match oldnew hne s old val hl,
          hst (old, val) (lookup_first_source oldnew s _ hl),
          ih _ (by rw [← hn]; exact hlen) _ rfl]
  exact fun s => key s.length s rfl

theorem lookup_changing (oldnew : List (String × String)) (s : List Char)
    (p : String × String) (h : lookup oldnew s false = some p) (hp : p.2 ≠ p.1) :
    lookup (changing oldnew) s false = some p := by
  obtain ⟨hpre, a, b, hab, hno⟩ := lookup_split oldnew s p h
  unfold changing
  rw [hab, List.filter_append, List.filter_cons_of_pos (by simpa using hp), lookup_append,
    lookup_eq_none_of_forall _ s (fun q hq => hno q (List.mem_filter.mp hq).1),
    lookup_cons_of_prefix p _ s hpre]
  rfl

theorem noEmptyOld_changing (oldnew : List (String × String)) (hne : NoEmptyOld oldnew) :
    NoEmptyOld (changing oldnew) :=
  fun p hp => hne p (List.mem_filter.mp hp).1

theorem scan_changing (oldnew : List (String × String)) (hne : NoEmptyOld oldnew)
    (h : ∀ q ∈ oldnew, q.2 = q.1 → ∀ c ∈ q.1.data, ∀ p ∈ changing oldnew,
      p.1.data.head? ≠ some c) :
    ∀ s, scan oldnew s = scan (changing oldnew) s := by
  have hne2 := noEmptyOld_changing oldnew hne
  have key : ∀ n (s : List Char), s.length = n → scan oldnew s = scan (changing oldnew) s := by
    intro n
    induction n using Nat.strong_induction_on with
    | _ n ih =>
      intro s hn
      cases hl : lookup oldnew s false with
      | none =>
        have hl2 : lookup (changing oldnew) s false = none :=
          lookup_eq_none_of_forall _ s
            (fun q hq => lookup_none oldnew s hl q (List.mem_filter.mp hq).1)
        cases s with
        | nil => rw [scan_nil _ hne, scan_nil _ hne2]
        | cons c rest =>
          rw [scan_copy _ hne c rest hl, scan_copy _ hne2 c rest hl2,
            ih rest.length (by rw [← hn]; simp) rest rfl]
      | some p =>
        obtain ⟨old, val⟩ := p
        obtain ⟨hmem, hpre⟩ := lookup_some oldnew s _ hl
        have hlen := drop_length_lt old.data s (hne _ hmem) hpre
        by_cases hid : val = old
        · subst hid
          obtain ⟨rest, hrest⟩ := hpre
          have hlt : rest.length < n := by
            have h3 := List.length_pos.mpr (hne _ hmem)
            have h4 : s.length = val.data.length + rest.length := by
              rw [← hrest, List.length_append]
            have h5 : (val, val).1.data.length = val.data.length := rfl
            omega
          rw [scan_match _ hne s val val hl, ← hrest, List.drop_left,
            scan_append_of_no_head _ hne2 val.data rest
              (fun c hc p hp => h _ hmem rfl c hc p hp),
            ih rest.length hlt rest rfl]
        · rw [scan_match _ hne s old val hl,
            scan_match _ hne2 s old val (lookup_changing oldnew s _ hl hid),
            ih _ (by rw [← hn]; exact hlen) _ rfl]
  exact fun s => key s.length s rfl

theorem steady_spec (oldnew : List (String × String)) (h : steady oldnew = true) :
    (∀ q ∈ oldnew, q.2 = q.1 → ∀ c ∈ q.1.data, ∀ p ∈ changing oldnew, p.1.data.head? ≠ some c)
      ∧ ∀ q ∈ oldnew, ∀ c ∈ q.2.data, ∀ p ∈ changing oldnew, p.1.data.head? ≠ some c := by
  unfold steady at h
  rw [Bool.and_eq_true, List.all_eq_true, List.all_eq_true] at h
  obtain ⟨h1, h2⟩ := h
  constructor
  · intro q hq hid c hc p hp hh
    have := h1 _ (mem_sourceClasses _ q
      (List.mem_filter.mpr ⟨hq, by simpa using hid⟩) c hc)
    simp only [Bool.not_eq_true', List.contains_eq_any_beq, List.any_eq_false, beq_iff_eq] at this
    exact this _ (mem_sourceClasses _ p hp c (mem_of_head _ _ hh)) rfl
  · intro q hq c hc p hp hh
    have := h2 _ (mem_targetClasses _ q hq c hc)
    simp only [Bool.not_eq_true', List.contains_eq_any_beq, List.any_eq_false, beq_iff_eq] at this
    exact this _ (mem_sourceClasses _ p hp c (mem_of_head _ _ hh)) rfl

theorem stable_of_steady (oldnew : List (String × String)) (hne : NoEmptyOld oldnew)
    (h : steady oldnew = true) :
    ∀ p ∈ oldnew, ∀ v, scan oldnew (p.2.data ++ v) = p.2.data ++ scan oldnew v := by
  obtain ⟨h1, h2⟩ := steady_spec oldnew h
  intro p hp v
  rw [scan_changing oldnew hne h1, scan_changing oldnew hne h1]
  exact scan_append_of_no_head _ (noEmptyOld_changing oldnew hne) p.2.data v
    (fun c hc q hq => h2 p hp c hc q hq)

theorem KanaToHiragana_targets :
    ∀ p ∈ projectPairs kanaMap.data 0 2 false
        ++ (projectPairs kanaMap.data 1 2 false ++ (projectPairs kanaMap.data 2 2 false ++ [])),
      (∀ c ∈ p.2.data, charClass c = 9) ∨ p.2 ∈ ["ﾜﾞ", "ｦﾞ", "ヷ", "ヺ"] := by
  decide!

theorem KanaToHiragana_stable :
    ∀ p ∈ substitutionSet (KanaToHiragana :: modifierFlags false false), ∀ v,
      scan (substitutionSet (KanaToHiragana :: modifierFlags false false)) (p.2.data ++ v)
        = p.2.data ++ scan (substitutionSet (KanaToHiragana :: modifierFlags false false)) v := by
  intro p hp v
  have hp2 := hp
  rw [blockPairs_KanaToHiragana] at hp2
  rcases KanaToHiragana_targets p hp2 with h | h
  · rw [scan_KanaToHiragana, scan_KanaToHiragana]
    apply scan_append_of_no_head _ (substitutionSet_noEmptyOld _)
    intro c hc q hq hh
    rw [substitutionSet_KatakanaToHiragana] at hq
    have h3 := mem_sourceClasses _ q hq c (mem_of_head _ _ hh)
    rw [KatakanaToHiragana_sources, h c hc] at h3
    exact absurd h3 (by decide)
  · exact scan_noHiragana p.2 h false v

theorem replace_stable (flags : List TextReplaceOption)
    (h : ∀ p ∈ substitutionSet flags, ∀ v,
      scan (substitutionSet flags) (p.2.data ++ v) = p.2.data ++ scan (substitutionSet flags) v) :
    ∀ r, NewTextNormalizer flags = some r →
      ∀ p, r.oldnew.find? (fun q => decide (q.1 = p.1)) = some p →
        ∀ w : String, r.Replace (p.2 ++ r.Replace w) = p.2 ++ r.Replace (r.Replace w) := by
  intro r hr p hp w
  rw [NewTextNormalizer_eq] at hr
  cases hr
  have hm : p ∈ substitutionSet flags := List.mem_of_find?_eq_some hp
  exact congrArg String.mk (h p hm _)
/-! ## Claims -/

/-- C1. For every option list and every input text, the engine returned by
`NewTextNormalizer`, which compares sources in argument order, gives the same output as the
reference engine that applies the longest matching source at each position (equal sources
resolved in favour of the first registered pair) and copies one code point through when
nothing matches. -/
theorem replace_eq_longest_match (flags : List TextReplaceOption) (text : String) :
    ∃ r, NewTextNormalizer flags = some r
      ∧ r.Replace text = referenceReplace r.oldnew text := by
  refine ⟨⟨substitutionSet flags⟩, NewTextNormalizer_eq flags, ?_⟩
  have hne := substitutionSet_noEmptyOld flags
  have hk : ∀ s, longestMatch (substitutionSet flags) s
      = lookup (substitutionSet flags) s false :=
    fun s => longestMatch_eq_lookup _ s
      (fun p hp => substitutionSet_first_is_longest flags s p hp)
  show String.mk (scan (substitutionSet flags) text.data)
    = String.mk (referenceLoop (substitutionSet flags) (text.data.length + 1) text.data)
  rw [referenceLoop_eq_scan _ hne hk _ _ (Nat.lt_succ_self _)]

/-- C2. First definition wins: for every option list and every string `s` that is the source
of a pair of the substitution set built by `NewTextNormalizer`, with `p` the first pair
(list order, then row order) whose source is `s`, `Replace(s)` is the target of `p`. -/
theorem first_definition_wins (flags : List TextReplaceOption) (s : String)
    (p : String × String)
    (h : ∀ r, NewTextNormalizer flags = some r →
      r.oldnew.find? (fun q => decide (q.1 = s)) = some p) :
    normalize flags s = some p.2 := by
  rw [normalize_eq]
  have h2 := h _ (NewTextNormalizer_eq flags)
  rw [scan_of_first_source _ (substitutionSet_noEmptyOld flags) (flatMap_sources _ _ flags).1
    (flatMap_sources _ _ flags).2 s p h2]

/-- C2 at the duplicated sign rows: under `HankakuSignToZenkaku` the apostrophe becomes
U+2019 (the first row) and the comma becomes the fullwidth comma; under
`ZenkakuSignToHankaku` the fullwidth full stop becomes the ASCII full stop. -/
theorem first_definition_wins_witness :
    normalize [HankakuSignToZenkaku] "'" = some "’"
      ∧ normalize [HankakuSignToZenkaku] "," = some "，"
      ∧ normalize [ZenkakuSignToHankaku] "．" = some "." :=
  ⟨first_definition_wins [HankakuSignToZenkaku] "'" ("'", "’") (by
      intro r hr
      rw [NewTextNormalizer_eq] at hr
      cases hr
      decide!),
    first_definition_wins [HankakuSignToZenkaku] "," (",", "，") (by
      intro r hr
      rw [NewTextNormalizer_eq] at hr
      cases hr
      decide!),
    first_definition_wins [ZenkakuSignToHankaku] "．" ("．", ".") (by
      intro r hr
      rw [NewTextNormalizer_eq] at hr
      cases hr
      decide!)⟩

/-- C3. Non-participating characters pass through: for every option list and every text that
contains no code point occurring in a source string of the substitution set built for the
list, `NewTextNormalizer(flags...).Replace(text)` returns the text unchanged. -/
theorem nonparticipating_passthrough (flags : List TextReplaceOption) (text : String)
    (h : ∀ r, NewTextNormalizer flags = some r →
      ∀ c ∈ text.data, ∀ p ∈ r.oldnew, c ∉ p.1.data) :
    normalize flags text = some text := by
  rw [normalize_eq]
  have h2 := h _ (NewTextNormalizer_eq flags)
  rw [scan_of_no_head _ (substitutionSet_noEmptyOld flags) text.data
    (fun c hc p hp => head_ne_of_not_mem _ c (h2 c hc p hp))]

/-- C3 at concrete inputs: CJK ideographs and digits under a list of kana, letter, sign and
space options. -/
theorem nonparticipating_passthrough_witness :
    normalize [KanaToHiragana, AlphabetToUpperZenkaku, HankakuSignToZenkaku,
      ZenkakuSpaceToHankaku, RemoveDakuten] "漢字123" = some "漢字123" :=
  nonparticipating_passthrough _ _ (by
    intro r hr
    rw [NewTextNormalizer_eq] at hr
    cases hr
    decide!)

/-- C4. A two-code-point halfwidth voiced kana is converted as one unit: for each directive
that reads halfwidth katakana (with target script column `k`), alone or together with
`RemoveDakuten` and/or `RemoveNoMapping`, and every kana row `r` whose halfwidth form `r[0]`
is a base character plus a sound mark, `Replace(r[0])` is the target projected for `r` itself,
and in front of any text `v` the two code points are consumed together: the output is that
target followed by the conversion of `v`. -/
theorem voiced_hankaku_as_unit (d : TextReplaceOption) (k : Nat)
    (hd : (d, k) ∈ hankakuDirectives) (dak rm : Bool) (r : List String)
    (hr : r ∈ kanaMap.data) (hv : isVoicedHankaku (r.getD 0 "") = true) (v : String) :
    normalize (d :: modifierFlags dak rm) (r.getD 0 "")
        = some (projectedTarget r (k + if dak then 3 else 0) rm)
      ∧ ∃ out, normalize (d :: modifierFlags dak rm) v = some out
          ∧ normalize (d :: modifierFlags dak rm) (r.getD 0 "" ++ v)
            = some (projectedTarget r (k + if dak then 3 else 0) rm ++ out) := by
  obtain ⟨h1, h2, rest, hb⟩ := blockPairs_hankaku d k hd (if dak then 3 else 0) rm
  have hL := (substitutionSet_modifierFlags d h1 h2 dak rm).trans hb
  have hne := substitutionSet_noEmptyOld (d :: modifierFlags dak rm)
  constructor
  · rw [normalize_eq]
    have := scan_voiced _ hne r hr hv _ rm rest hL []
    rw [List.append_nil, scan_nil _ hne, List.append_nil] at this
    rw [this]
  · refine ⟨_, normalize_eq _ v, ?_⟩
    rw [normalize_eq]
    have := scan_voiced _ hne r hr hv _ rm rest hL v.data
    rw [String.data_append, this]
    rfl

/-- C4 at the tested input: `HankakuKatakanaToZenkaku` turns the three code points of
U+FF76 U+FF9E U+FF76 into the two fullwidth katakana GA and KA. -/
theorem voiced_hankaku_as_unit_witness :
    normalize [HankakuKatakanaToZenkaku] "ｶﾞｶ" = some "ガカ" := by
  obtain ⟨out, h1, h2⟩ := (voiced_hankaku_as_unit HankakuKatakanaToZenkaku 1 (by decide)
    false false ["ｶﾞ", "ガ", "が", "ｶ", "カ", "か"] (by decide!) (by decide) "ｶ").2
  have h3 : normalize [HankakuKatakanaToZenkaku] "ｶ" = some "カ" := by decide!
  have h4 : out = "カ" := Option.some.inj (h1.symm.trans h3)
  rw [h4] at h2
  exact h2

/-- C5 (the code at the failing input). With `RemoveDakuten`, `HankakuKatakanaToZenkaku`
turns the halfwidth voiced BE (U+FF8D U+FF9E) into the hiragana HE (U+3078), although the
plain row of halfwidth HE has the fullwidth katakana HE (U+30D8) in the target column; the
neighbouring row of the semi-voiced PE gives the katakana. -/
theorem removeDakuten_be_row :
    normalize [HankakuKatakanaToZenkaku, RemoveDakuten] "ﾍﾞ" = some "へ"
      ∧ normalize [HankakuKatakanaToZenkaku] "ﾍ" = some "ヘ"
      ∧ normalize [HankakuKatakanaToZenkaku, RemoveDakuten] "ﾍﾟ" = some "ヘ"
      ∧ ("へ" : String) ≠ "ヘ"
      ∧ ("へ" : String).data = [Char.ofNat 0x3078] ∧ ("ヘ" : String).data = [Char.ofNat 0x30D8] := by
  decide!

/-- C5 (extent of the defect). The row of voiced BE is the only kana row whose columns 3, 4, 5
are not the three forms (columns 0, 1, 2) of the plain row of its unvoiced syllable. -/
theorem removeDakuten_only_be_row :
    kanaMap.data.filter (fun r =>
        !(kanaMap.data.any (fun p =>
          p.getD 0 "" == r.getD 3 "" && p.getD 1 "" == r.getD 4 "" && p.getD 2 "" == r.getD 5 "")))
      = [["ﾍﾞ", "ベ", "べ", "ﾍ", "へ", "へ"]] := by
  decide!

/-- C6. Missing-mapping policies: for each of the four kana forms `s` without a hiragana
equivalent and all texts `u`, `v` that contain no code point of any kana table entry,
`KanaToHiragana` leaves `s` unchanged in place, and `KanaToHiragana` with `RemoveNoMapping`
deletes it. -/
theorem missing_mapping_policies (s : String) (hs : s ∈ ["ﾜﾞ", "ｦﾞ", "ヷ", "ヺ"])
    (u v : String)
    (hu : ∀ c ∈ u.data, ∀ row ∈ kanaMap.data, ∀ e ∈ row, c ∉ e.data)
    (hv : ∀ c ∈ v.data, ∀ row ∈ kanaMap.data, ∀ e ∈ row, c ∉ e.data) :
    normalize [KanaToHiragana] (u ++ s ++ v) = some (u ++ s ++ v)
      ∧ normalize [KanaToHiragana, RemoveNoMapping] (u ++ s ++ v) = some (u ++ v) := by
  constructor
  · exact normalize_noHiragana s hs false u v hu hv
  · have h := normalize_noHiragana s hs true u v hu hv
    have e : u ++ (if true = true then "" else s) ++ v = u ++ v := by
      apply String.ext
      simp
    rw [e] at h
    exact h

/-- C6 at concrete inputs: the fullwidth VA between two ideographs, and the tested text, in
which the kana in front are converted as well. -/
theorem missing_mapping_policies_witness :
    (normalize [KanaToHiragana] "漢ヷ字" = some "漢ヷ字"
        ∧ normalize [KanaToHiragana, RemoveNoMapping] "漢ヷ字" = some "漢字")
      ∧ normalize [KanaToHiragana] "アイウﾜﾞヷ" = some "あいうﾜﾞヷ"
      ∧ normalize [KanaToHiragana, RemoveNoMapping] "アイウﾜﾞヷ" = some "あいう" :=
  ⟨missing_mapping_policies "ヷ" (by decide) "漢" "字" (by decide!) (by decide!),
    by decide!, by decide!⟩

/-- C7. Projection rule: for every table, every pair of column indices that are in range for
its rows and either missing-mapping policy, `charMap.project` returns the flat list
source1, target1, source2, target2, ... holding, in row order, exactly one pair for each row
whose from-column is non-empty and none for a row whose from-column is empty; the source is
the from-column, the target the to-column when that is non-empty, otherwise the source itself
(`removeUnknown` false) or the empty string (`removeUnknown` true). -/
theorem project_rule (c : charMap) (fromCol toCol : Nat) (removeUnknown : Bool)
    (h : ∀ cols ∈ c.data, fromCol < cols.length ∧ toCol < cols.length) :
    c.project fromCol toCol removeUnknown
      = some (flatten (c.data.filterMap (rowPair fromCol toCol removeUnknown))) :=
  project_eq c fromCol toCol removeUnknown h

/-- C7 on a three-row table with an empty source and an empty target, under both policies. -/
theorem project_rule_witness :
    charMap.project ⟨[["a", "b"], ["", "c"], ["d", ""]]⟩ 0 1 false = some ["a", "b", "d", "d"]
      ∧ charMap.project ⟨[["a", "b"], ["", "c"], ["d", ""]]⟩ 0 1 true
        = some ["a", "b", "d", ""] :=
  ⟨(project_rule ⟨[["a", "b"], ["", "c"], ["d", ""]]⟩ 0 1 false (by decide)).trans (by decide),
    (project_rule ⟨[["a", "b"], ["", "c"], ["d", ""]]⟩ 0 1 true (by decide)).trans (by decide)⟩

/-- C8. For every input text, `HankakuNumberToZenkaku` replaces each ASCII digit by the
fullwidth digit of the same value, code point by code point, and leaves every other code
point unchanged and in place; `ZenkakuNumberToHankaku` replaces each fullwidth digit by its
ASCII digit and changes nothing else. -/
theorem digits_converted (text : String) :
    normalize [HankakuNumberToZenkaku] text = some ⟨text.data.map digitToZenkaku⟩
      ∧ normalize [ZenkakuNumberToHankaku] text = some ⟨text.data.map digitToHankaku⟩ := by
  constructor
  · rw [normalize_eq, substitutionSet_HankakuNumberToZenkaku,
      scan_single_map _ (single_append_nil _ (affinePairs_single _ _ _)) digitToZenkaku
        charImage_HankakuNumberToZenkaku]
  · rw [normalize_eq, substitutionSet_ZenkakuNumberToHankaku,
      scan_single_map _ (single_append_nil _ (affinePairs_single _ _ _)) digitToHankaku
        charImage_ZenkakuNumberToHankaku]

/-- C9. Case-and-width folding of letters: for each of `AlphabetToUpperZenkaku`,
`AlphabetToUpperHankaku`, `AlphabetToLowerZenkaku`, `AlphabetToLowerHankaku`, with target
column `k` = 3, 1, 2, 0 of the letter table, and every input text, `Replace` maps every
occurrence of a letter a to z in any of its four forms (the target form included) to the
column-`k` form of that letter and leaves every other code point unchanged. -/
theorem letters_folded (d : TextReplaceOption) (k : Nat) (hd : (d, k) ∈ foldDirectives)
    (text : String) : normalize [d] text = some ⟨text.data.map (foldLetter k)⟩ := by
  obtain ⟨L, hL, h1, hc⟩ := substitutionSet_fold d k hd
  rw [normalize_eq, hL, scan_single_map L h1 (foldLetter k) hc]

/-- C9 at the sample input: `AlphabetToUpperZenkaku` turns the ASCII letters of Abc into the
three fullwidth capitals. -/
theorem letters_folded_witness : normalize [AlphabetToUpperZenkaku] "Abc" = some "ＡＢＣ" :=
  (letters_folded AlphabetToUpperZenkaku 3 (by decide) "Abc").trans (by decide!)

/-- C10. Case-preserving width conversion of letters: for every input text,
`AlphabetToZenkaku` replaces each halfwidth lowercase letter by the fullwidth lowercase form
and each halfwidth uppercase letter by the fullwidth uppercase form of the same letter and
leaves every other code point (fullwidth letters included) unchanged; `AlphabetToHankaku` is
the mirror image. -/
theorem letters_width_converted (text : String) :
    normalize [AlphabetToZenkaku] text = some ⟨text.data.map letterToZenkaku⟩
      ∧ normalize [AlphabetToHankaku] text = some ⟨text.data.map letterToHankaku⟩ := by
  have hs := fun a b t u => single_append _ _ (affinePairs_single 26 a t)
    (single_append _ _ (affinePairs_single 26 b u) single_nil)
  constructor
  · rw [normalize_eq, substitutionSet_AlphabetToZenkaku,
      scan_single_map _ (hs _ _ _ _) letterToZenkaku charImage_AlphabetToZenkaku]
  · rw [normalize_eq, substitutionSet_AlphabetToHankaku,
      scan_single_map _ (hs _ _ _ _) letterToHankaku charImage_AlphabetToHankaku]

/-- C11, as amended. Let the option list be such that the engine built by
`NewTextNormalizer` passes over each of its targets in front of each of its outputs: for
every pair that is the first of the substitution set with its source, with target `t`, and
every text `w`, `Replace(t ++ Replace(w)) = t ++ Replace(Replace(w))`. Then for every input
text, applying the engine to its own output changes nothing:
`Replace(Replace(text)) = Replace(text)`. -/
theorem replace_idempotent_of_stable_targets (flags : List TextReplaceOption) (text : String)
    (h : ∀ r, NewTextNormalizer flags = some r →
      ∀ p, r.oldnew.find? (fun q => decide (q.1 = p.1)) = some p →
        ∀ w : String, r.Replace (p.2 ++ r.Replace w) = p.2 ++ r.Replace (r.Replace w)) :
    ∃ out, normalize flags text = some out ∧ normalize flags out = some out := by
  refine ⟨⟨scan (substitutionSet flags) text.data⟩, normalize_eq flags text, ?_⟩
  rw [normalize_eq]
  refine congrArg (fun l => some (String.mk l))
    (scan_idem_of_applied _ (substitutionSet_noEmptyOld flags)
      (substitutionSet_headClosed flags) ?_ text.data)
  intro p hp w
  exact congrArg String.data (h _ (NewTextNormalizer_eq flags) p hp ⟨w⟩)

/-- C11 at five option lists whose engines pass over their targets: the combined list of the
repository tests (digits, signs, letters and kana at once) on the test text, and each of
`KanaToHiragana`, `KatakanaToHiragana`, `KanaToZenkakuKatakana`, `KanaToHankakuKatakana` alone.
A second pass changes nothing. -/
theorem replace_idempotent_of_stable_targets_witness :
    (∃ out, normalize [ZenkakuNumberToHankaku, ZenkakuSignToHankaku, AlphabetToLowerHankaku,
          KanaToZenkakuKatakana]
          "abcABC123!#$ａｂｃＡＢＣ１２３！＃＄ｱｲｳアイウあいうｶﾞガがﾊﾟパぱ' '　'" = some out
        ∧ normalize [ZenkakuNumberToHankaku, ZenkakuSignToHankaku, AlphabetToLowerHankaku,
          KanaToZenkakuKatakana] out = some out)
      ∧ (∃ out, normalize [KanaToHiragana] "ｶﾞガがヷﾜﾞ" = some out
        ∧ normalize [KanaToHiragana] out = some out)
      ∧ (∃ out, normalize [KatakanaToHiragana] "ｶﾞガがヷﾜﾞ" = some out
        ∧ normalize [KatakanaToHiragana] out = some out)
      ∧ (∃ out, normalize [KanaToZenkakuKatakana] "ｶﾞガがヷﾜﾞ" = some out
        ∧ normalize [KanaToZenkakuKatakana] out = some out)
      ∧ (∃ out, normalize [KanaToHankakuKatakana] "ｶﾞガがヷﾜﾞ" = some out
        ∧ normalize [KanaToHankakuKatakana] out = some out) := by
  have s1 : steady (substitutionSet [ZenkakuNumberToHankaku, ZenkakuSignToHankaku,
      AlphabetToLowerHankaku, KanaToZenkakuKatakana]) = true := by decide!
  have s2 : steady (substitutionSet [KanaToZenkakuKatakana]) = true := by decide!
  have s3 : steady (substitutionSet [KanaToHankakuKatakana]) = true := by decide!
  exact ⟨replace_idempotent_of_stable_targets _ _
      (replace_stable _ (stable_of_steady _ (substitutionSet_noEmptyOld _) s1)),
    replace_idempotent_of_stable_targets [KanaToHiragana] _
      (replace_stable _ KanaToHiragana_stable),
    replace_idempotent_of_stable_targets [KatakanaToHiragana] _
      (replace_stable _ KatakanaToHiragana_stable),
    replace_idempotent_of_stable_targets _ _
      (replace_stable _ (stable_of_steady _ (substitutionSet_noEmptyOld _) s2)),
    replace_idempotent_of_stable_targets _ _
      (replace_stable _ (stable_of_steady _ (substitutionSet_noEmptyOld _) s3))⟩

/-- C11 as stated fails. With both digit directives in the list the engine swaps the widths,
so a second application undoes the first: `1` becomes `１` and `１` becomes `1`. With
`KanaToHankakuKatakana` and `RemoveDakuten` the text `ｶﾞﾞ` becomes `ｶﾞ` (the first sound mark
is removed with its base, the second is copied), and `ｶﾞ` becomes `ｶ`. -/
theorem replace_not_idempotent :
    normalize [HankakuNumberToZenkaku, ZenkakuNumberToHankaku] "1" = some "１"
      ∧ normalize [HankakuNumberToZenkaku, ZenkakuNumberToHankaku] "１" = some "1"
      ∧ ("１" : String) ≠ "1"
      ∧ normalize [KanaToHankakuKatakana, RemoveDakuten] "ｶﾞﾞ" = some "ｶﾞ"
      ∧ normalize [KanaToHankakuKatakana, RemoveDakuten] "ｶﾞ" = some "ｶ"
      ∧ ("ｶﾞ" : String) ≠ "ｶ" := by
  have h1 : normalize [HankakuNumberToZenkaku, ZenkakuNumberToHankaku] "1" = some "１" := by
    decide!
  have h2 : normalize [HankakuNumberToZenkaku, ZenkakuNumberToHankaku] "１" = some "1" := by
    decide!
  have h3 : normalize [KanaToHankakuKatakana, RemoveDakuten] "ｶﾞﾞ" = some "ｶﾞ" := by decide!
  have h4 : normalize [KanaToHankakuKatakana, RemoveDakuten] "ｶﾞ" = some "ｶ" := by decide!
  exact ⟨h1, h2, by decide, h3, h4, by decide⟩
/-- C12. The sign round trip is lossy: the text `。` (U+3002) converted with
`NewTextNormalizer(HankakuSignToZenkaku)` becomes `．` (U+FF0E), and that converted with
`NewTextNormalizer(ZenkakuSignToHankaku)` becomes `.` (U+002E), which is not the text one
started from; the reason is that the two different sources `.` and `。` of the halfwidth
column share the fullwidth target `．`, of which the reverse direction keeps the first. -/
theorem sign_round_trip_lossy :
    ∃ t u v : String,
      normalize [HankakuSignToZenkaku] t = some u
        ∧ normalize [ZenkakuSignToHankaku] u = some v
        ∧ v ≠ t
        ∧ (∀ r, NewTextNormalizer [HankakuSignToZenkaku] = some r →
            ∃ p ∈ r.oldnew, ∃ q ∈ r.oldnew, p.1 ≠ q.1 ∧ p.2 = q.2 ∧ q.1 = t ∧ p.1 = v)
        ∧ t = "。" ∧ u = "．" ∧ v = "." := by
  have h1 : normalize [HankakuSignToZenkaku] "。" = some "．" := by decide!
  have h2 : normalize [ZenkakuSignToHankaku] "．" = some "." := by decide!
  have h3 : ("." : String) ≠ "。" := by decide
  have h4 : (".", "．") ∈ substitutionSet [HankakuSignToZenkaku] := by decide!
  have h5 : ("。", "．") ∈ substitutionSet [HankakuSignToZenkaku] := by decide!
  refine ⟨"。", "．", ".", h1, h2, h3, ?_, rfl, rfl, rfl⟩
  intro r hr
  rw [NewTextNormalizer_eq] at hr
  cases hr
  exact ⟨(".", "．"), h4, ("。", "．"), h5, h3, rfl, rfl, rfl⟩
/-- C13, as amended. `KatakanaToHiragana` and `KanaToHiragana` have the same semantics as
long as `RemoveDakuten` is not among the modifier flags: with no flag or with
`RemoveNoMapping`, the two engines return the same output on every input text. With
`RemoveDakuten` (alone or with `RemoveNoMapping`) the two outputs are equal exactly when the
text contains none of the voiced hiragana of the kana table, which are the 26 code points
`がぎぐげござじずぜぞだぢづでどばびぶべぼぱぴぷぺぽゔ`; on any text that contains one of them
the outputs differ. -/
theorem hiragana_directives_agree (rm : Bool) (text : String) :
    normalize (KatakanaToHiragana :: modifierFlags false rm) text
        = normalize (KanaToHiragana :: modifierFlags false rm) text
      ∧ (normalize (KatakanaToHiragana :: modifierFlags true rm) text
            = normalize (KanaToHiragana :: modifierFlags true rm) text
          ↔ ∀ c ∈ text.data, isVoicedHiragana c = false)
      ∧ (∀ c : Char, isVoicedHiragana c = true
          ↔ c ∈ "がぎぐげござじずぜぞだぢづでどばびぶべぼぱぴぷぺぽゔ".data) := by
  refine ⟨?_, ?_, isVoicedHiragana_iff⟩
  · rw [normalize_eq, normalize_eq, scan_KanaToHiragana]
  · rw [normalize_eq, normalize_eq, ← scan_hiragana_removeDakuten_iff rm text.data]
    constructor
    · intro h
      have h2 := Option.some.inj h
      exact congrArg String.data h2
    · intro h
      rw [h]

/-- C13 under `RemoveDakuten` at the text `あｶﾞガ`, which contains the plain hiragana `あ`
and no voiced hiragana: both engines return `あかか`. -/
theorem hiragana_directives_agree_witness :
    normalize (KatakanaToHiragana :: modifierFlags true false) "あｶﾞガ"
        = normalize (KanaToHiragana :: modifierFlags true false) "あｶﾞガ"
      ∧ normalize (KanaToHiragana :: modifierFlags true false) "あｶﾞガ" = some "あかか" := by
  have h : ∀ c ∈ "あｶﾞガ".data, isVoicedHiragana c = false := by decide!
  have h2 : normalize (KanaToHiragana :: modifierFlags true false) "あｶﾞガ" = some "あかか" := by
    decide!
  exact ⟨(hiragana_directives_agree false "あｶﾞガ").2.1.mpr h, h2⟩

/-- C13 as stated fails under `RemoveDakuten`: `KanaToHiragana` also reads hiragana and
strips the voiced mark of `が`, `KatakanaToHiragana` reads only katakana and leaves `が` as it
is (as the repository tests of the two directives with `RemoveDakuten` expect). -/
theorem hiragana_directives_differ :
    normalize [KatakanaToHiragana, RemoveDakuten] "が" = some "が"
      ∧ normalize [KanaToHiragana, RemoveDakuten] "が" = some "か"
      ∧ normalize [KatakanaToHiragana, RemoveDakuten, RemoveNoMapping] "が" = some "が"
      ∧ normalize [KanaToHiragana, RemoveDakuten, RemoveNoMapping] "が" = some "か"
      ∧ ("が" : String) ≠ "か" := by
  have h1 : normalize [KatakanaToHiragana, RemoveDakuten] "が" = some "が" := by decide!
  have h2 : normalize [KanaToHiragana, RemoveDakuten] "が" = some "か" := by decide!
  have h3 : normalize [KatakanaToHiragana, RemoveDakuten, RemoveNoMapping] "が" = some "が" := by
    decide!
  have h4 : normalize [KanaToHiragana, RemoveDakuten, RemoveNoMapping] "が" = some "か" := by
    decide!
  exact ⟨h1, h2, h3, h4, by decide⟩
/-- C14. Modifier flags are global, not positional. Let `m` be `RemoveDakuten` or
`RemoveNoMapping`, and let `L2` arise from the option list `L` by inserting `m` at any
positions, once or several times: `m` occurs in `L2`, and `L2` and `L` agree once every `m`
is struck out. Then `NewTextNormalizer` builds for `L2` exactly the engine (the same
substitution set) it builds for `L` with `m` appended once at the end, and both return the
same output on every text. -/
theorem modifier_flags_global (m : TextReplaceOption)
    (hm : m = RemoveDakuten ∨ m = RemoveNoMapping) (L L2 : List TextReplaceOption)
    (h1 : m ∈ L2)
    (h2 : L2.filter (fun x => decide (x ≠ m)) = L.filter (fun x => decide (x ≠ m))) :
    NewTextNormalizer L2 = NewTextNormalizer (L ++ [m])
      ∧ ∀ text : String, normalize L2 text = normalize (L ++ [m]) text := by
  have e := substitutionSet_of_filter m hm L L2 h1 h2
  constructor
  · rw [NewTextNormalizer_eq, NewTextNormalizer_eq, e]
  · intro text
    rw [normalize_eq, normalize_eq, e]

/-- C14 at `RemoveDakuten` inserted before and after `KanaToZenkakuKatakana`: the engine is
the one of `[KanaToZenkakuKatakana, RemoveDakuten]`; and the flag placed after the directive
changes what the directive does (`ガ` becomes `カ` instead of staying `ガ`). -/
theorem modifier_flags_global_witness :
    (NewTextNormalizer [RemoveDakuten, KanaToZenkakuKatakana, RemoveDakuten]
        = NewTextNormalizer ([KanaToZenkakuKatakana] ++ [RemoveDakuten])
      ∧ ∀ text : String,
          normalize [RemoveDakuten, KanaToZenkakuKatakana, RemoveDakuten] text
            = normalize ([KanaToZenkakuKatakana] ++ [RemoveDakuten]) text)
      ∧ normalize [KanaToZenkakuKatakana, RemoveDakuten] "ガ" = some "カ"
      ∧ normalize [KanaToZenkakuKatakana] "ガ" = some "ガ" := by
  have h1 : normalize [KanaToZenkakuKatakana, RemoveDakuten] "ガ" = some "カ" := by decide!
  have h2 : normalize [KanaToZenkakuKatakana] "ガ" = some "ガ" := by decide!
  exact ⟨modifier_flags_global RemoveDakuten (Or.inl rfl) [KanaToZenkakuKatakana]
    [RemoveDakuten, KanaToZenkakuKatakana, RemoveDakuten] (by decide) (by decide), h1, h2⟩
/-- C15. `RemoveDakuten` has no effect on non-kana directives: for every option list
`L1 ++ L2` that contains no kana directive (whatever else it contains, `RemoveNoMapping`
included), adding `RemoveDakuten` at any position makes `NewTextNormalizer` build the same
engine (the same substitution set), which returns the same output for every text. -/
theorem removeDakuten_frame (L1 L2 : List TextReplaceOption)
    (h : ∀ d ∈ L1 ++ L2, d ∉ kanaDirectives) :
    NewTextNormalizer (L1 ++ RemoveDakuten :: L2) = NewTextNormalizer (L1 ++ L2)
      ∧ ∀ text : String,
          normalize (L1 ++ RemoveDakuten :: L2) text = normalize (L1 ++ L2) text := by
  have e := substitutionSet_removeDakuten L1 L2 h
  constructor
  · rw [NewTextNormalizer_eq, NewTextNormalizer_eq, e]
  · intro text
    rw [normalize_eq, normalize_eq, e]

/-- C15 at the list `[HankakuSignToZenkaku, RemoveNoMapping, AlphabetToHankaku]` with
`RemoveDakuten` added after its first entry. -/
theorem removeDakuten_frame_witness :
    NewTextNormalizer ([HankakuSignToZenkaku] ++ RemoveDakuten
        :: [RemoveNoMapping, AlphabetToHankaku])
      = NewTextNormalizer ([HankakuSignToZenkaku] ++ [RemoveNoMapping, AlphabetToHankaku])
      ∧ ∀ text : String,
          normalize ([HankakuSignToZenkaku] ++ RemoveDakuten
              :: [RemoveNoMapping, AlphabetToHankaku]) text
            = normalize ([HankakuSignToZenkaku] ++ [RemoveNoMapping, AlphabetToHankaku]) text :=
  removeDakuten_frame [HankakuSignToZenkaku] [RemoveNoMapping, AlphabetToHankaku] (by decide)
/-- C16. Building never fails: for every option list (repeated options and integers that name
no directive included) the loop of `NewTextNormalizer` reads no column out of range (it
returns a mapping), the mapping has an even number of strings, and `strings.NewReplacer`
accepts it. An integer that names no directive leaves the mapping as it is. Every row of the
digit, sign and space tables has 2 columns, every row of the letter table 4 and every row of the
kana table 6, and every case of the switch, with the shift 0 or 3, reads only columns below
the row width of its table. -/
theorem building_never_fails (flags : List TextReplaceOption) :
    (∃ m, buildMapping flags = some m ∧ m.length % 2 = 0 ∧ NewReplacer m = some ⟨pairUp m⟩)
      ∧ (∃ r, NewTextNormalizer flags = some r)
      ∧ (∀ (f : TextReplaceOption) (slide : Nat) (rm : Bool) (acc : List String),
          f < 3 ∨ 22 < f → slide = 0 ∨ slide = 3 → switchCase slide rm acc f = some acc)
      ∧ (∀ (f : TextReplaceOption) (slide : Nat) (rm : Bool) (acc : List String),
          slide = 0 ∨ slide = 3 → ∃ m, switchCase slide rm acc f = some m)
      ∧ (∀ cols ∈ asciiNumberMap.data, cols.length = 2)
      ∧ (∀ cols ∈ asciiSignMap.data, cols.length = 2)
      ∧ (∀ cols ∈ spaceMap.data, cols.length = 2)
      ∧ (∀ cols ∈ asciiAlphabetMap.data, cols.length = 4)
      ∧ (∀ cols ∈ kanaMap.data, cols.length = 6)
      ∧ (∀ (f : TextReplaceOption) (slide : Nat), slide = 0 ∨ slide = 3 →
          ∀ c ∈ columnPairs slide f, ∀ cols ∈ c.1.data,
            c.2.1 < cols.length ∧ c.2.2 < cols.length) := by
  refine ⟨⟨_, buildMapping_eq flags, ?_, ?_⟩, ⟨_, NewTextNormalizer_eq flags⟩, ?_, ?_,
    asciiNumberMap_width, asciiSignMap_width, spaceMap_width, asciiAlphabetMap_width,
    kanaMap_width, fun f slide hs => columnPairs_in_range slide hs f⟩
  · rw [flatten_length]
    omega
  · rw [pairUp_flatten]
    exact NewReplacer_flatten _
  · intro f slide rm acc hf hs
    rw [switchCase_eq slide hs, blockPairs_of_not_directive slide rm f hf]
    exact congrArg some (List.append_nil acc)
  · intro f slide rm acc hs
    exact ⟨_, switchCase_eq slide hs rm acc f⟩
/-- C17. Single pass, replaced text is not re-scanned: for every input text the engine built
from `[HankakuNumberToZenkaku, ZenkakuNumberToHankaku]` maps the text code point by code
point, an ASCII digit to its fullwidth digit, a fullwidth digit to its ASCII digit and any
other code point to itself; so the two widths are swapped, `1１` becomes `１1`, and no emitted
target is converted back by the other directive. -/
theorem digits_swapped (text : String) :
    normalize [HankakuNumberToZenkaku, ZenkakuNumberToHankaku] text
        = some ⟨text.data.map digitSwap⟩
      ∧ normalize [HankakuNumberToZenkaku, ZenkakuNumberToHankaku] "1１" = some "１1"
      ∧ "0123456789０１２３４５６７８９x".data.map digitSwap
        = "０１２３４５６７８９0123456789x".data := by
  have h : ∀ t : String, normalize [HankakuNumberToZenkaku, ZenkakuNumberToHankaku] t
      = some ⟨t.data.map digitSwap⟩ := by
    intro t
    rw [normalize_eq, substitutionSet_digits,
      scan_single_map _ (single_append _ _ (affinePairs_single _ _ _)
        (single_append_nil _ (affinePairs_single _ _ _))) digitSwap charImage_digits]
  have h2 : "0123456789０１２３４５６７８９x".data.map digitSwap
      = "０１２３４５６７８９0123456789x".data := by decide!
  have h3 : (⟨"1１".data.map digitSwap⟩ : String) = "１1" := by decide!
  refine ⟨h text, ?_, h2⟩
  rw [h "1１", h3]
/-- C18. Combining directives of different tables equals chaining them: for every input text
the four single-directive engines `ZenkakuNumberToHankaku`, `ZenkakuSignToHankaku`,
`AlphabetToLowerHankaku`, `KanaToZenkakuKatakana` applied one after another in that order
return texts `t1`, `t2`, `t3`, `out`, and the engine built from the list of the four
directives returns the same `out` for the text. -/
theorem combined_equals_chained (text : String) :
    ∃ t1 t2 t3 out : String,
      normalize [ZenkakuNumberToHankaku] text = some t1
        ∧ normalize [ZenkakuSignToHankaku] t1 = some t2
        ∧ normalize [AlphabetToLowerHankaku] t2 = some t3
        ∧ normalize [KanaToZenkakuKatakana] t3 = some out
        ∧ normalize [ZenkakuNumberToHankaku, ZenkakuSignToHankaku, AlphabetToLowerHankaku,
            KanaToZenkakuKatakana] text = some out := by
  refine ⟨_, _, _, _, normalize_eq _ text, normalize_eq _ _, normalize_eq _ _,
    normalize_eq _ _, ?_⟩
  rw [normalize_eq, scan_four_directives]
/-- C19. Idempotence of a single plain directive: for every option `d` taken alone (each of
the conversion directives; also a modifier option or an integer that names no directive,
for which the engine changes nothing) and every input text,
`NewTextNormalizer(d).Replace(NewTextNormalizer(d).Replace(text))
  = NewTextNormalizer(d).Replace(text)`. -/
theorem single_directive_idempotent (d : TextReplaceOption) (text : String) :
    ∃ out, normalize [d] text = some out ∧ normalize [d] out = some out := by
  refine ⟨⟨scan (substitutionSet [d]) text.data⟩, normalize_eq [d] text, ?_⟩
  rw [normalize_eq]
  exact congrArg (fun l => some (String.mk l)) (single_directive_idem d text.data)
/-- C20. Directives of different tables commute: for any two conversion directives `d1` and
`d2` whose cases project different tables (digits, kana, letters, signs, spaces), any set of
modifier flags and every input text, the engine built from `d1, d2` and the engine built
from `d2, d1` return the same output; and no source string of the one directive is equal to
or a prefix of a source string of the other. -/
theorem different_tables_commute (d1 d2 : TextReplaceOption) (t1 t2 : Nat)
    (h1 : tableOf d1 = some t1) (h2 : tableOf d2 = some t2) (hne : t1 ≠ t2) (dak rm : Bool)
    (text : String) :
    normalize (d1 :: d2 :: modifierFlags dak rm) text
        = normalize (d2 :: d1 :: modifierFlags dak rm) text
      ∧ ∀ slide : Nat, ∀ p ∈ blockPairs slide rm d1, ∀ q ∈ blockPairs slide rm d2,
          ¬ p.1.data <+: q.1.data ∧ ¬ q.1.data <+: p.1.data := by
  constructor
  · rw [normalize_eq, normalize_eq, scan_two_comm d1 d2 t1 t2 h1 h2 hne dak rm]
  · intro slide p hp q hq
    have h := blockPairs_heads_differ slide rm d1 d2 t1 t2 h1 h2 hne p hp q hq
    exact ⟨not_prefix_of_heads _ _ (blockPairs_noEmptyOld _ _ _ p hp) h,
      not_prefix_of_heads _ _ (blockPairs_noEmptyOld _ _ _ q hq) (Ne.symm h)⟩

/-- C20 at `ZenkakuSignToHankaku` (signs) and `KanaToZenkakuKatakana` (kana), whose tables
share the code points `ー` and `・` only as sign sources, with `RemoveDakuten`. -/
theorem different_tables_commute_witness :
    normalize (ZenkakuSignToHankaku :: KanaToZenkakuKatakana :: modifierFlags true false)
        "ｶﾞーが・"
        = normalize (KanaToZenkakuKatakana :: ZenkakuSignToHankaku :: modifierFlags true false)
          "ｶﾞーが・"
      ∧ ∀ slide : Nat, ∀ p ∈ blockPairs slide false ZenkakuSignToHankaku,
          ∀ q ∈ blockPairs slide false KanaToZenkakuKatakana,
            ¬ p.1.data <+: q.1.data ∧ ¬ q.1.data <+: p.1.data :=
  different_tables_commute ZenkakuSignToHankaku KanaToZenkakuKatakana 3 1 (by decide)
    (by decide) (by decide) true false "ｶﾞーが・"
/-- C21. Substitution-set well-formedness: for every option list, `NewTextNormalizer` hands
`strings.NewReplacer` a mapping in which every source string is non-empty, so the engine
inserts nothing into the empty text; and when `RemoveNoMapping` is absent from the list,
every target string is non-empty as well, so the engine never deletes: the output of a
non-empty text is non-empty, and since a source has at most two code points the text is at
most twice as long as its output. -/
theorem substitution_set_well_formed (flags : List TextReplaceOption) :
    ∃ m r, buildMapping flags = some m ∧ NewReplacer m = some r
      ∧ NewTextNormalizer flags = some r
      ∧ r.oldnew = pairUp m
      ∧ (∀ p ∈ r.oldnew, p.1 ≠ "")
      ∧ normalize flags "" = some ""
      ∧ (RemoveNoMapping ∉ flags →
          (∀ p ∈ r.oldnew, p.2 ≠ "")
            ∧ ∀ text : String, ∃ out, normalize flags text = some out
              ∧ (text ≠ "" → out ≠ "") ∧ text.data.length ≤ 2 * out.data.length) := by
  refine ⟨_, ⟨substitutionSet flags⟩, buildMapping_eq flags, NewReplacer_flatten _,
    NewTextNormalizer_eq flags, (pairUp_flatten _).symm, substitutionSet_fst_ne flags, ?_, ?_⟩
  · rw [normalize_eq]
    exact congrArg (fun l => some (String.mk l))
      (scan_nil _ (substitutionSet_noEmptyOld flags))
  · intro h
    have ht := substitutionSet_snd_ne flags h
    refine ⟨ht, fun text => ⟨_, normalize_eq flags text, ?_, ?_⟩⟩
    · intro hne
      apply string_ne_of_data
      apply scan_ne_nil _ (substitutionSet_noEmptyOld flags) ht
      intro he
      apply hne
      cases text
      cases he
      rfl
    · exact scan_length_le _ (substitutionSet_noEmptyOld flags)
        (substitutionSet_source_length flags) ht text.data

/-- C21 at `KatakanaToHiragana`, whose table rows for `ヷ` have no hiragana: without
`RemoveNoMapping` the output for `ヷ` is not empty, while with `RemoveNoMapping` the set
contains the pair of `ヷ` and the empty string and the output is empty. -/
theorem substitution_set_well_formed_witness :
    (∃ out, normalize [KatakanaToHiragana] "ヷ" = some out ∧ out ≠ "")
      ∧ ("ヷ", "") ∈ substitutionSet [KatakanaToHiragana, RemoveNoMapping]
      ∧ normalize [KatakanaToHiragana, RemoveNoMapping] "ヷ" = some "" := by
  have h1 : ("ヷ", "") ∈ substitutionSet [KatakanaToHiragana, RemoveNoMapping] := by decide!
  have h2 : normalize [KatakanaToHiragana, RemoveNoMapping] "ヷ" = some "" := by decide!
  obtain ⟨m, r, -, -, -, -, -, -, h⟩ := substitution_set_well_formed [KatakanaToHiragana]
  obtain ⟨out, h3, h4, -⟩ := (h (by decide)).2 "ヷ"
  exact ⟨⟨out, h3, h4 (by decide)⟩, h1, h2⟩
end TextNormalizer
